import Mathlib

/-!
# Repair utility: log parser and VM options parser

A shallow embedding of the parsing code of the IDE repair utility
(`helpers/log_parser.go`, `helpers/plugins.go`, `helpers/vmoptions_file_parser.go`,
`helpers/vmoptions_worker.go`).

Modelling conventions.

* A Go `string` is a `List Char`: the text is taken to be valid UTF-8, one list
  element per rune.  Byte offsets at rune boundaries (the values of
  `for i := range s`, of `strings.IndexAny` and `strings.Index`, of slice bounds) are
  represented by the corresponding rune index; `len(s)` is `byteLen s`, the UTF-8
  byte count.
* A run-time panic (index or slice bounds out of range) is the result `none`.
* The package-level variables `logEntriesWithExceptions` and
  `pluginsWithExceptions` and the named result `logEntries` are the fields of an
  explicit `ParseState`; the list returned by `CurrentIde.PluginsList()` is a
  parameter called `PluginsList`.
* A Go `map[string]string` is a function from keys to optional values, a Go `error`
  the optional text of its message.
* The functions of the Go standard library that the code calls (`strings.*`,
  `strconv.Atoi`, `strconv.Itoa`, the three regular expressions,
  `bufio.Reader.ReadString`, `bufio.Scanner`) are modelled by definitions of their
  own.
* A Go `int` is an `Int` together with the width `intSize` of the platform: the
  results of `<<` are reduced to the two's complement range of that width.
-/

set_option maxRecDepth 100000

namespace Repair

/-! ## Go standard library -/

/-- The Go string type, rune by rune. -/
abbrev GoString := List Char

/-- Go `len(s)`: the number of bytes of the UTF-8 encoding. -/
def byteLen : GoString → Nat
  | [] => 0
  | c :: cs => c.utf8Size + byteLen cs

/-- Go `unicode.IsSpace`: the Unicode White_Space property. -/
def isSpace (c : Char) : Bool :=
  let n := c.toNat
  (9 ≤ n && n ≤ 13) || n == 0x20 || n == 0x85 || n == 0xA0 || n == 0x1680 ||
  (0x2000 ≤ n && n ≤ 0x200A) || n == 0x2028 || n == 0x2029 || n == 0x202F ||
  n == 0x205F || n == 0x3000

/-- Go `strings.TrimSpace`: leading white space is dropped, then trailing. -/
def TrimSpace (s : GoString) : GoString :=
  (s.dropWhile isSpace).rdropWhile isSpace

/-- Go `strings.HasPrefix`. -/
def HasPrefix (s pre : GoString) : Bool :=
  pre.isPrefixOf s

/-- Go `strings.TrimPrefix`: `s` without the leading `pre`, or `s` itself. -/
def TrimPrefix (s pre : GoString) : GoString :=
  if HasPrefix s pre then s.drop pre.length else s

/-- Go `strings.TrimLeft(s, cutset)`. -/
def TrimLeft (s cutset : GoString) : GoString :=
  s.dropWhile (fun c => cutset.contains c)

/-- Go `strings.IndexAny(s, chars)`: position of the first rune of `s` that is in
`chars`, or `-1`. -/
def IndexAny : GoString → GoString → Int
  | [], _ => -1
  | c :: cs, chars =>
    if chars.contains c then 0
    else
      let r := IndexAny cs chars
      if r = -1 then -1 else r + 1

/-- Match of a sequence of character classes at the start of a string. -/
def matchClasses : List (Char → Bool) → GoString → Bool
  | [], _ => true
  | _ :: _, [] => false
  | p :: ps, c :: cs => p c && matchClasses ps cs

/-- The regular expression `\d`: an ASCII digit. -/
def reDigit (c : Char) : Bool := c.isDigit

/-- A literal character of a regular expression. -/
def reLit (a : Char) (c : Char) : Bool := c == a

/-- The regular expression of `getTimeStampFromString`,
`^(\d{4}-\d{2}-\d{2} \d{2}:\d{2}:\d{2}[.,]\d{3})`, class by class. -/
def timeStampClasses : List (Char → Bool) :=
  [reDigit, reDigit, reDigit, reDigit, reLit '-', reDigit, reDigit, reLit '-',
   reDigit, reDigit, reLit ' ', reDigit, reDigit, reLit ':', reDigit, reDigit,
   reLit ':', reDigit, reDigit, fun c => c == '.' || c == ',',
   reDigit, reDigit, reDigit]

/-- After an opening bracket: the lazy `(.*?)` followed by `]`.  The result is
the matched text up to and including the first `]`; there is no match when a
line feed (which `.` does not match) comes first. -/
def matchBracketRest : GoString → Option GoString
  | [] => none
  | c :: cs =>
    if c = ']' then some [c]
    else if c = '\n' then none
    else (matchBracketRest cs).map (fun m => c :: m)

/-- `FindString` for the regular expression `\[(.*?)]`: the leftmost match, or
the empty string. -/
def findBracketed : GoString → GoString
  | [] => []
  | c :: cs =>
    if c = '[' then
      match matchBracketRest cs with
      | some m => c :: m
      | none => findBracketed cs
    else findBracketed cs

/-- `ReplaceAllString` for the regular expression `version:.*` with the
replacement `${1}`, which expands to the empty string since the expression has
no group: every match, from `version:` to the end of its line, is removed.  The
flag says that the scan is inside a match. -/
def removeVersionMatches : Bool → GoString → GoString
  | _, [] => []
  | true, c :: cs =>
    if c = '\n' then c :: removeVersionMatches false cs
    else removeVersionMatches true cs
  | false, c :: cs =>
    if HasPrefix (c :: cs) "version:".toList then removeVersionMatches true cs
    else c :: removeVersionMatches false cs

/-- The chunks returned by repeated `bufReader.ReadString('\n')` up to and
including the one returned together with `io.EOF`: every chunk but the last ends
with its line feed, the last one (possibly empty) has none. -/
def readLines : GoString → List GoString
  | [] => [[]]
  | c :: cs =>
    if c = '\n' then [c] :: readLines cs
    else
      match readLines cs with
      | [] => [[c]]
      | l :: ls => (c :: l) :: ls

/-! ## Data model (`global_variables.go`, `plugins.go`) -/

/-- Go `type LogEntry struct`. -/
structure LogEntry where
  DateAndTime : GoString
  TimeSinceStart : GoString
  Severity : GoString
  Class : GoString
  Header : GoString
  Body : GoString
deriving DecidableEq, Repr

/-- Go `type IdeaVersion struct`. -/
structure IdeaVersion where
  SinceBuild : GoString
  UntilBuild : GoString
deriving DecidableEq, Repr

/-- Go `type PluginInfo struct`. -/
structure PluginInfo where
  Id : GoString
  Name : GoString
  Version : GoString
  Vendor : GoString
  MainJarPath : GoString
  PluginXmlId : GoString
  MarketplaceId : Int
  IsDisabled : Bool
  IdeaVersion : IdeaVersion
  isBundled : Bool
  IsDeprecated : Bool
deriving DecidableEq, Repr

/-- Go `type PluginInfoList []PluginInfo`. -/
abbrev PluginInfoList := List PluginInfo

/-- The method `(plugins *PluginInfoList) Contains`: a linear search with the
struct equality `==`. -/
def Contains : PluginInfoList → PluginInfo → Bool
  | [], _ => false
  | plugin :: rest, pluginToCheck =>
    if pluginToCheck = plugin then true else Contains rest pluginToCheck

/-! ## `log_parser.go`: one line -/

/-- Go `getTimeStampFromString`. -/
def getTimeStampFromString (str : GoString) : GoString :=
  if matchClasses timeStampClasses str then str.take timeStampClasses.length else []

/-- Go `isTimeStamp`. -/
def isTimeStamp (str : GoString) : Bool :=
  if getTimeStampFromString str ≠ [] then true else false

/-- Go `getRawTimeSinceStart`. -/
def getRawTimeSinceStart (str : GoString) : GoString :=
  findBracketed str

/-- Go `trimFoundPart`; the result is the new value of `*stringToCut`. -/
def trimFoundPart (stringToCut part : GoString) : GoString :=
  TrimPrefix (TrimSpace stringToCut) part

/-- Go `getClass`. -/
def getClass (s : GoString) : GoString :=
  let s := TrimSpace s
  if byteLen s > 2 ∧ s.head? = some '-' ∧ s.getLast? = some '-' then
    TrimSpace s.tail.dropLast
  else []

/-- The severity keywords of `getSeverity`, in the order of the source. -/
def severities : List GoString :=
  ["INFO".toList, "ERROR".toList, "DEBUG".toList, "WARN".toList]

/-- The `for` loop of `getSeverity` over the keywords. -/
def firstSeverity (s : GoString) : List GoString → GoString
  | [] => []
  | severity :: rest => if HasPrefix s severity then severity else firstSeverity s rest

/-- Go `getSeverity`: the new value of `*s` and the returned keyword. -/
def getSeverity (s : GoString) : GoString × GoString :=
  let s := TrimSpace s
  (s, firstSeverity s severities)

/-- Go `getTimeSinceStart`. -/
def getTimeSinceStart (s : GoString) : GoString :=
  let s := TrimSpace s
  if byteLen s > 8 ∧ s.head? = some '[' ∧ s.getLast? = some ']' then
    TrimSpace s.tail.dropLast
  else []

/-- The `for i := range logEntryAsString` loop of `parseLogString`, over the
remaining positions, with the current values of `currentEntry`,
`classEndPosition` and `HeaderEndPosition`.  The slice
`logEntryAsString[classEndPosition:HeaderEndPosition]` panics when the line feed
comes before the end of the class. -/
def parseLogLoop (logEntryAsString : GoString) :
    List Nat → LogEntry → Nat → Int → Option LogEntry
  | [], currentEntry, _, _ => some currentEntry
  | i :: rest, currentEntry, classEndPosition, HeaderEndPosition =>
    let found : Bool :=
      decide (currentEntry.Class = [] ∧ getClass (logEntryAsString.take i) ≠ [])
    let classEndPosition := if found then i else classEndPosition
    let currentEntry :=
      if found then { currentEntry with Class := getClass (logEntryAsString.take i) }
      else currentEntry
    if classEndPosition ≠ 0 then
      let HeaderEndPosition := IndexAny logEntryAsString ['\n']
      if HeaderEndPosition = -1 then
        some { currentEntry with Header := TrimSpace (logEntryAsString.drop classEndPosition) }
      else if HeaderEndPosition < classEndPosition then none
      else
        let currentEntry :=
          { currentEntry with
            Header := (logEntryAsString.take HeaderEndPosition.toNat).drop classEndPosition }
        if HeaderEndPosition > 0 then
          some { currentEntry with Body := logEntryAsString.drop HeaderEndPosition.toNat }
        else parseLogLoop logEntryAsString rest currentEntry classEndPosition HeaderEndPosition
    else if HeaderEndPosition > 0 then
      some { currentEntry with Body := logEntryAsString.drop HeaderEndPosition.toNat }
    else parseLogLoop logEntryAsString rest currentEntry classEndPosition HeaderEndPosition

/-- Go `parseLogString`. -/
def parseLogString (logEntryAsString : GoString) : Option LogEntry :=
  let logEntryAsString := TrimLeft logEntryAsString ['\n']
  let DateAndTime := getTimeStampFromString logEntryAsString
  let logEntryAsString := trimFoundPart logEntryAsString DateAndTime
  let rawTimeSinceStart := getRawTimeSinceStart logEntryAsString
  let TimeSinceStart := getTimeSinceStart rawTimeSinceStart
  let logEntryAsString := trimFoundPart logEntryAsString rawTimeSinceStart
  let (logEntryAsString, Severity) := getSeverity logEntryAsString
  let logEntryAsString := trimFoundPart logEntryAsString Severity
  parseLogLoop logEntryAsString (List.range logEntryAsString.length)
    { DateAndTime := DateAndTime, TimeSinceStart := TimeSinceStart, Severity := Severity,
      Class := [], Header := [], Body := [] } 0 0

/-- Go `entryContainsPluginToBlame`. -/
def entryContainsPluginToBlame (entry : LogEntry) : Bool :=
  if HasPrefix (TrimSpace entry.Header) "Plugin to blame".toList then true else false

/-- Go `getPluginNameByBlameString`. -/
def getPluginNameByBlameString (logHeader : GoString) : GoString :=
  let logHeader := TrimPrefix (TrimSpace logHeader) "Plugin to blame: ".toList
  TrimSpace (removeVersionMatches false logHeader)

/-- The `for _, plugin := range PluginsList` loop of
`getEnabledPluginByBlameString`. -/
def firstEnabledNamed (pluginName : GoString) : PluginInfoList → Option PluginInfo
  | [] => none
  | plugin :: rest =>
    if plugin.Name = pluginName ∧ plugin.IsDisabled = false then some plugin
    else firstEnabledNamed pluginName rest

/-- Go `getEnabledPluginByBlameString`; `none` is the `nil` pointer. -/
def getEnabledPluginByBlameString (PluginsList : PluginInfoList) (currentEntry : LogEntry) :
    Option PluginInfo :=
  let pluginName := getPluginNameByBlameString currentEntry.Header
  firstEnabledNamed pluginName PluginsList

/-- Go `collectPluginsWithExceptions`: the new value of `pluginsWithExceptions`. -/
def collectPluginsWithExceptions (PluginsList : PluginInfoList)
    (pluginsWithExceptions : PluginInfoList) (currentEntry : LogEntry) : PluginInfoList :=
  match getEnabledPluginByBlameString PluginsList currentEntry with
  | some plugin =>
    if !Contains pluginsWithExceptions plugin then pluginsWithExceptions ++ [plugin]
    else pluginsWithExceptions
  | none => pluginsWithExceptions

/-- Go `lastLogEntryHasException`; indexing the last element of an empty slice
panics. -/
def lastLogEntryHasException (logEntries : List LogEntry) : Option Bool :=
  match logEntries.getLast? with
  | none => none
  | some last =>
    if byteLen last.Body > 0 ∧ last.Severity = "ERROR".toList then some true else some false

/-! ## `log_parser.go`: the file -/

/-- The variables that `ParseIdeaLogFile` reads and writes. -/
structure ParseState where
  logEntries : List LogEntry
  logEntriesWithExceptions : List LogEntry
  pluginsWithExceptions : PluginInfoList
deriving DecidableEq, Repr

/-- Lines 36 to 38 of `ParseIdeaLogFile`: the last entry is appended to
`logEntriesWithExceptions` when it has an exception. -/
def evaluateLastEntry (logEntries logEntriesWithExceptions : List LogEntry) :
    Option (List LogEntry) :=
  if logEntries.length > 0 then
    match lastLogEntryHasException logEntries with
    | none => none
    | some false => some logEntriesWithExceptions
    | some true =>
      match logEntries.getLast? with
      | none => none
      | some last => some (logEntriesWithExceptions ++ [last])
  else some logEntriesWithExceptions

/-- Lines 40 to 43 of `ParseIdeaLogFile`: the blame step, giving the new values of
`logEntriesWithExceptions` and `pluginsWithExceptions`.  The slice
`logEntriesWithExceptions[:len(logEntriesWithExceptions)-1]` panics on an empty
list. -/
def blameStep (PluginsList : PluginInfoList) (logEntries : List LogEntry)
    (logEntriesWithExceptions : List LogEntry) (pluginsWithExceptions : PluginInfoList)
    (currentEntry : LogEntry) : Option (List LogEntry × PluginInfoList) :=
  if entryContainsPluginToBlame currentEntry ∧ logEntries.length ≥ 4 then
    let pluginsWithExceptions :=
      collectPluginsWithExceptions PluginsList pluginsWithExceptions currentEntry
    if logEntriesWithExceptions.length = 0 then none
    else some (logEntriesWithExceptions.dropLast, pluginsWithExceptions)
  else some (logEntriesWithExceptions, pluginsWithExceptions)

/-- The body of the `for` loop of `ParseIdeaLogFile` for one chunk
`currentString`. -/
def processLine (PluginsList : PluginInfoList) (st : ParseState) (currentString : GoString) :
    Option ParseState :=
  if getTimeStampFromString currentString ≠ [] then
    match evaluateLastEntry st.logEntries st.logEntriesWithExceptions with
    | none => none
    | some logEntriesWithExceptions =>
      match parseLogString currentString with
      | none => none
      | some currentEntry =>
        match blameStep PluginsList st.logEntries logEntriesWithExceptions
            st.pluginsWithExceptions currentEntry with
        | none => none
        | some (logEntriesWithExceptions, pluginsWithExceptions) =>
          some { logEntries := st.logEntries ++ [currentEntry],
                 logEntriesWithExceptions := logEntriesWithExceptions,
                 pluginsWithExceptions := pluginsWithExceptions }
  else if st.logEntries.length > 0 then
    match st.logEntries.getLast? with
    | none => none
    | some last =>
      some { st with
             logEntries := st.logEntries.dropLast ++
               [{ last with Body := last.Body ++ currentString }] }
  else some st

/-- The `for` loop of `ParseIdeaLogFile` over the chunks read from the file. -/
def parseLines (PluginsList : PluginInfoList) : List GoString → ParseState → Option ParseState
  | [], st => some st
  | currentString :: rest, st =>
    match processLine PluginsList st currentString with
    | none => none
    | some st => parseLines PluginsList rest st

/-- Go `ParseIdeaLogFile` on a file with the given content: `logEntries` starts
empty, the two package-level lists start with the values they have at the call.
The returned `logEntries` is the first field of the final state. -/
def ParseIdeaLogFile (PluginsList : PluginInfoList) (logEntriesWithExceptions : List LogEntry)
    (pluginsWithExceptions : PluginInfoList) (content : GoString) : Option ParseState :=
  parseLines PluginsList (readLines content)
    { logEntries := [], logEntriesWithExceptions := logEntriesWithExceptions,
      pluginsWithExceptions := pluginsWithExceptions }

/-! ## Sample logs -/

/-- The header line of an `ERROR` entry. -/
def errorHeaderLine : GoString :=
  "2021-02-15 18:09:37,188 [  61174]  ERROR - .wm.impl.ToolWindowManagerImpl - Already disposed: Project\n".toList

/-- The first line of its stack trace. -/
def stackLine1 : GoString := "java.lang.IllegalStateException: Already disposed\n".toList

/-- The second line of its stack trace. -/
def stackLine2 : GoString := "\tat com.intellij.Foo.bar(Foo.kt:139)\n".toList

/-- The header line of an `INFO` entry. -/
def infoHeaderLine : GoString :=
  "2021-02-15 18:09:40,829 [  64816]   INFO - plication.impl.ApplicationImpl - Write action Statistics:\n".toList

/-- The one body line of the `INFO` entry. -/
def infoBodyLine : GoString := "Event number:     8\n".toList

/-- The three header lines that the IDE writes between an exception and its blame
line. -/
def buildLine : GoString :=
  "2021-02-15 18:09:37,190 [  61176]  ERROR - llij.ide.plugins.PluginManager - IntelliJ IDEA 2020.3.2  Build #IU-203.7148.57\n".toList

/-- See `buildLine`. -/
def jdkLine : GoString :=
  "2021-02-15 18:09:37,190 [  61176]  ERROR - llij.ide.plugins.PluginManager - JDK: 11.0.9.1\n".toList

/-- See `buildLine`. -/
def osLine : GoString :=
  "2021-02-15 18:09:37,190 [  61176]  ERROR - llij.ide.plugins.PluginManager - OS: Mac OS X\n".toList

/-- A blame line. -/
def blameLine : GoString :=
  "2021-02-15 18:09:37,191 [  61177]  ERROR - llij.ide.plugins.PluginManager - Plugin to blame: Presentation Assistant version: 1.0.9\n".toList

/-- An `INFO` header line without body. -/
def startLine : GoString :=
  "2021-02-15 18:09:36,000 [  60000]   INFO - #com.intellij.idea.Main - IDE started\n".toList

/-- Scenario A of the specification: one `ERROR` entry with its stack trace. -/
def errorOnlyLog : GoString := errorHeaderLine ++ stackLine1 ++ stackLine2

/-- An `ERROR` entry with its stack trace followed by an `INFO` entry. -/
def errorInfoLog : GoString :=
  errorHeaderLine ++ stackLine1 ++ stackLine2 ++ infoHeaderLine ++ infoBodyLine

/-- Five header lines without any exception, the fifth a blame line. -/
def blameOnlyLog : GoString := startLine ++ buildLine ++ jdkLine ++ osLine ++ blameLine

/-- The plugin of the test `TestGetPluginsWithExceptionsInIdeaLog`. -/
def presentationAssistant : PluginInfo :=
  { Id := "org.nik.presentation-assistant".toList, Name := "Presentation Assistant".toList,
    Version := "1.0.9".toList, Vendor := "Nikolay Chashnikov".toList, MainJarPath := [],
    PluginXmlId := [], MarketplaceId := 0, IsDisabled := false,
    IdeaVersion := { SinceBuild := [], UntilBuild := [] }, isBundled := false,
    IsDeprecated := false }

/-- The entry parsed from `errorHeaderLine`, `stackLine1` and `stackLine2`. -/
def errorEntry : LogEntry :=
  { DateAndTime := "2021-02-15 18:09:37,188".toList, TimeSinceStart := "61174".toList,
    Severity := "ERROR".toList, Class := ".wm.impl.ToolWindowManagerImpl".toList,
    Header := "Already disposed: Project".toList, Body := stackLine1 ++ stackLine2 }

/-- The entry parsed from `infoHeaderLine` and `infoBodyLine`. -/
def infoEntry : LogEntry :=
  { DateAndTime := "2021-02-15 18:09:40,829".toList, TimeSinceStart := "64816".toList,
    Severity := "INFO".toList, Class := "plication.impl.ApplicationImpl".toList,
    Header := "Write action Statistics:".toList, Body := infoBodyLine }

/-- An entry of `llij.ide.plugins.PluginManager` with the given time and header
and no body. -/
def managerEntry (DateAndTime TimeSinceStart Header : String) : LogEntry :=
  { DateAndTime := DateAndTime.toList, TimeSinceStart := TimeSinceStart.toList,
    Severity := "ERROR".toList, Class := "llij.ide.plugins.PluginManager".toList,
    Header := Header.toList, Body := [] }

/-- The entry parsed from `blameLine`. -/
def blameEntry : LogEntry :=
  managerEntry "2021-02-15 18:09:37,191" "61177"
    "Plugin to blame: Presentation Assistant version: 1.0.9"

/-- The state of `ParseIdeaLogFile` after the lines of `errorOnlyLog`, `buildLine`,
`jdkLine` and `osLine`: four entries, the first one recorded as an exception. -/
def stateBeforeBlame : ParseState :=
  { logEntries :=
      [errorEntry,
       managerEntry "2021-02-15 18:09:37,190" "61176"
         "IntelliJ IDEA 2020.3.2  Build #IU-203.7148.57",
       managerEntry "2021-02-15 18:09:37,190" "61176" "JDK: 11.0.9.1",
       managerEntry "2021-02-15 18:09:37,190" "61176" "OS: Mac OS X"],
    logEntriesWithExceptions := [errorEntry],
    pluginsWithExceptions := [] }

/-! ## `vmoptions_file_parser.go`, `vmoptions_worker.go`

A Go `map[string]string` is a function from keys to optional values: `none` for a
key that is not in the map.  A Go `error` is the optional text of its message,
`none` for `nil`. -/

/-- Go `strings.Index(s, substr)`: position of the first occurrence of `substr` in
`s`, or `-1`. -/
def Index : GoString → GoString → Int
  | [], substr => if substr = [] then 0 else -1
  | c :: cs, substr =>
    if HasPrefix (c :: cs) substr then 0
    else
      let r := Index cs substr
      if r = -1 then -1 else r + 1

/-- Go `type MappedVmoptions map[string]string`. -/
abbrev MappedVmoptions := GoString → Option GoString

/-- Go `make(map[string]string)`: the empty map. -/
def emptyMap : MappedVmoptions := fun _ => none

/-- Go `m[key]` as a value: the empty string for a key that is not in the map. -/
def mapGet (m : MappedVmoptions) (key : GoString) : GoString :=
  (m key).getD []

/-- Go `m[key] = value`. -/
def mapSet (m : MappedVmoptions) (key value : GoString) : MappedVmoptions :=
  fun k => if k = key then some value else m k

/-- Go `vmoptionsDelimeters`. -/
def vmoptionsDelimeters : List GoString := ["=".toList, ":".toList, " ".toList]

/-- Go `listOfPossibleGarbageCollectors`, as written in the source. -/
def listOfPossibleGarbageCollectors : List GoString :=
  ["-XX:+UseSerialGC".toList, "-XX:+UseParallelGC".toList, "-XX:+UseG1GC".toList,
   "-XX:+UseShenandoahGC".toList, "XX:+UseEpsilonGC".toList,
   "-XX:+UseConcMarkSweepGC".toList, "-XX:+UseZGC".toList]

/-- Go `isEnabingBooleanOption`: the pair `(isBoolean, isEnabling)`. -/
def isEnabingBooleanOption (option : GoString) : Bool × Bool :=
  if HasPrefix option "-XX:+".toList then (true, true)
  else if HasPrefix option "-XX:-".toList then (true, false)
  else (false, false)

/-- Go `isBooleanOption`. -/
def isBooleanOption (option : GoString) : Bool :=
  if HasPrefix option "-XX:-".toList || HasPrefix option "-XX:+".toList then true else false

/-- The `for` loop of `findDelimiterPositionOfVmoption` over the remaining
delimiters, with the current value of the result `delimiterPosition`. -/
def findDelimiterLoop (option : GoString) : List GoString → Int → Int
  | [], delimiterPosition => delimiterPosition
  | delimeter :: rest, _ =>
    let delimiterPosition := Index option delimeter
    if delimiterPosition ≠ -1 then delimiterPosition
    else findDelimiterLoop option rest delimiterPosition

/-- Go `findDelimiterPositionOfVmoption`. -/
def findDelimiterPositionOfVmoption (option : GoString) : Int :=
  if HasPrefix option "-Xmx".toList || HasPrefix option "-Xms".toList ||
      HasPrefix option "-Xmn".toList then 4
  else findDelimiterLoop option vmoptionsDelimeters 0

/-- Go `getVmoptionName`. -/
def getVmoptionName (option : GoString) : GoString :=
  if isBooleanOption option then option
  else
    let delimiterPosition := findDelimiterPositionOfVmoption option
    if delimiterPosition = -1 then option
    else option.take delimiterPosition.toNat

/-- The `for` loop of `getVmoptionValue` over the remaining delimiters. -/
def stripDelimiters : GoString → List GoString → GoString
  | value, [] => value
  | value, delimiter :: rest => stripDelimiters (TrimSpace (TrimPrefix value delimiter)) rest

/-- Go `getVmoptionValue`. -/
def getVmoptionValue (option name : GoString) : GoString :=
  match isEnabingBooleanOption option with
  | (true, isEnablingBoolean) =>
    if isEnablingBoolean then "true".toList else "false".toList
  | (false, _) => stripDelimiters (TrimPrefix option name) vmoptionsDelimeters

/-- The `for` loop of `collectGcInUse` over the remaining collectors, with the
current value of `*garbageCollectorInUse`. -/
def collectGcInUseLoop (option : GoString) : List GoString → List GoString → List GoString
  | [], garbageCollectorInUse => garbageCollectorInUse
  | possibleGC :: rest, garbageCollectorInUse =>
    collectGcInUseLoop option rest
      (if possibleGC = option then garbageCollectorInUse ++ [option]
       else garbageCollectorInUse)

/-- Go `collectGcInUse`: the new value of `*garbageCollectorInUse`. -/
def collectGcInUse (option : GoString) (garbageCollectorInUse : List GoString) :
    List GoString :=
  collectGcInUseLoop option listOfPossibleGarbageCollectors garbageCollectorInUse

/-- Go `currentOptionIsDuplicate`. -/
def currentOptionIsDuplicate (vmoptions : MappedVmoptions) (name : GoString) : Bool :=
  if mapGet vmoptions name ≠ [] then true else false

/-- The three results of `ParseVmOptionsFile`. -/
structure VmOptions where
  vmoptions : MappedVmoptions
  garbageCollectorsInUse : List GoString
  vmoptionsDuplicates : MappedVmoptions

/-- The body of the `for` loop of `ParseVmOptionsFile` for one `option`. -/
def parseOption (r : VmOptions) (option : GoString) : VmOptions :=
  let optionName := getVmoptionName option
  let optionValue := getVmoptionValue option optionName
  let garbageCollectorsInUse := collectGcInUse option r.garbageCollectorsInUse
  if currentOptionIsDuplicate r.vmoptions optionName then
    { vmoptions := r.vmoptions, garbageCollectorsInUse := garbageCollectorsInUse,
      vmoptionsDuplicates := mapSet r.vmoptionsDuplicates optionName optionValue }
  else
    { vmoptions := mapSet r.vmoptions optionName optionValue,
      garbageCollectorsInUse := garbageCollectorsInUse,
      vmoptionsDuplicates := r.vmoptionsDuplicates }

/-- The `for` loop of `ParseVmOptionsFile` over `vmOptionsAsSlice`. -/
def parseOptions : List GoString → VmOptions → VmOptions
  | [], r => r
  | option :: rest, r => parseOptions rest (parseOption r option)

/-- The lines 29 to 48 of `ParseVmOptionsFile`, for the option lines
`vmOptionsAsSlice` that `vmOptionsFileToSliceOfStrings` has read: two fresh maps,
no collector, then the loop. -/
def parseVmOptionLines (vmOptionsAsSlice : List GoString) : VmOptions :=
  parseOptions vmOptionsAsSlice
    { vmoptions := emptyMap, garbageCollectorsInUse := [], vmoptionsDuplicates := emptyMap }

/-- Go `dropCR` of `bufio`: one trailing carriage return is dropped. -/
def dropCR (data : GoString) : GoString :=
  if data.getLast? = some '\r' then data.dropLast else data

/-- Go `bufio.MaxScanTokenSize`: the largest size of the buffer of a
`bufio.Scanner`. -/
def MaxScanTokenSize : Nat := 64 * 1024

/-- The calls of `scanner.Scan()` of a `bufio.Scanner` with `bufio.ScanLines` over
the remaining chunks of the file (see `readLines`): the token of a chunk is its text
without the line feed and without one trailing carriage return; the empty chunk at
the end of the file gives no token.  A line of `MaxScanTokenSize` bytes or more
(line feed not counted) fills the buffer before its end is seen: `Scan` returns
false with the error `ErrTooLong`, and the loop `for scanner.Scan()` ends there. -/
def scanLoop : List GoString → List GoString
  | [] => []
  | chunk :: rest =>
    if chunk = [] then scanLoop rest
    else
      let data := if chunk.getLast? = some '\n' then chunk.dropLast else chunk
      if byteLen data ≥ MaxScanTokenSize then []
      else dropCR data :: scanLoop rest

/-- The tokens that the loop `for scanner.Scan()` sees on a file with the given
content.  `vmOptionsFileToSliceOfStrings` does not read `scanner.Err()`: after a
line that is too long the rest of the file is not seen, without any error. -/
def scanLines (content : GoString) : List GoString :=
  scanLoop (readLines content)

/-- The `for scanner.Scan()` loop of `vmOptionsFileToSliceOfStrings` over the
remaining lines, with the current value of `options`. -/
def collectOptionLines : List GoString → List GoString → List GoString
  | [], options => options
  | option :: rest, options =>
    if byteLen option ≠ 0 then
      if option.head? = some '-' then collectOptionLines rest (options ++ [option])
      else if option.head? = some '#' then collectOptionLines rest options
      else collectOptionLines rest options
    else collectOptionLines rest options

/-- Go `vmOptionsFileToSliceOfStrings` on a file with the given content. -/
def vmOptionsFileToSliceOfStrings (content : GoString) : List GoString :=
  collectOptionLines (scanLines content) []

/-- Go `ParseVmOptionsFile` on a file with the given content. -/
def ParseVmOptionsFile (content : GoString) : VmOptions :=
  parseVmOptionLines (vmOptionsFileToSliceOfStrings content)

/-- The `for` loop of `checkIfMoreThanOneGcInUse` over the remaining collectors,
with the current value of `gclist`. -/
def gcListLoop : List GoString → GoString → GoString
  | [], gclist => gclist
  | gc :: rest, gclist => gcListLoop rest (gclist ++ ("\n\t".toList ++ gc))

/-- Go `checkIfMoreThanOneGcInUse`. -/
def checkIfMoreThanOneGcInUse (garbageCollectorsInUse : List GoString) : Option GoString :=
  if garbageCollectorsInUse.length > 1 then
    some ("More than one Garbage Collector in use: ".toList ++
      gcListLoop garbageCollectorsInUse [])
  else none

/-! ## `vmoptions_worker.go`: sizes

The Go type `int` has `intSize` bits (32 or 64) and wraps around in two's
complement; `uintptr` has `uintptrSize` bits.  The Go compilers give the two the
same size. -/

/-- The value of a Go `int` of `intSize` bits that holds the mathematical result
`x`: two's complement wrap-around. -/
def wrapInt (intSize : Nat) (x : Int) : Int :=
  (x + 2 ^ (intSize - 1)) % 2 ^ intSize - 2 ^ (intSize - 1)

/-- Go `x << k` on `int`. -/
def shiftLeft (intSize : Nat) (x : Int) (k : Nat) : Int :=
  wrapInt intSize (x * 2 ^ k)

/-- The three outcomes of `strconv.ParseUint`: the error `ErrSyntax` (value 0), the
error `ErrRange` (value `maxVal`), or a value without error. -/
inductive UintResult where
  | syntaxError : UintResult
  | rangeError : UintResult
  | ok (n : Nat) : UintResult
deriving DecidableEq, Repr

/-- The loop of `strconv.ParseUint` for base 10 over the remaining bytes, with the
current value `n`.  A byte that is not an ASCII digit ends the loop with a syntax
error.  The source tests `n >= cutoff` (`n*10` overflows `uint64`) and then
`n1 < n || n1 > maxVal` for `n1 = n*10 + d` computed in `uint64`, with
`maxVal = 2^bitSize - 1` and `bitSize` at most 64: together the tests say that the
number `n*10 + d` exceeds `maxVal`, and the loop ends there with a range error,
before any later byte is read. -/
def parseUintLoop (bitSize : Nat) : GoString → Nat → UintResult
  | [], n => UintResult.ok n
  | c :: rest, n =>
    if c.isDigit then
      let n1 := n * 10 + (c.toNat - 48)
      if n1 > 2 ^ bitSize - 1 then UintResult.rangeError
      else parseUintLoop bitSize rest n1
    else UintResult.syntaxError

/-- Go `strconv.ParseUint(s, 10, bitSize)`. -/
def ParseUint (bitSize : Nat) (s : GoString) : UintResult :=
  if s = [] then UintResult.syntaxError else parseUintLoop bitSize s 0

/-- The lines of `strconv.ParseInt` after the call of `ParseUint`, for the unsigned
value `un` and the sign: the value is clamped to the range of the signed type. -/
def clampSigned (bitSize : Nat) (neg : Bool) (un : Nat) : Int :=
  let cutoff : Nat := 2 ^ (bitSize - 1)
  if neg = false ∧ un ≥ cutoff then (cutoff : Int) - 1
  else if neg = true ∧ un > cutoff then -(cutoff : Int)
  else if neg = true then -(un : Int)
  else (un : Int)

/-- Go `strconv.ParseInt(s, 10, bitSize)`, the returned value: 0 with a syntax
error, the clamped value of `maxVal` with a range error of `ParseUint`. -/
def ParseInt (bitSize : Nat) (s : GoString) : Int :=
  if s = [] then 0
  else
    let neg : Bool := decide (s.head? = some '-')
    let s1 := if s.head? = some '+' ∨ s.head? = some '-' then s.tail else s
    match ParseUint bitSize s1 with
    | UintResult.syntaxError => 0
    | UintResult.rangeError => clampSigned bitSize neg (2 ^ bitSize - 1)
    | UintResult.ok un => clampSigned bitSize neg un

/-- Go `strconv.Atoi` with its error dropped, as in `initialInt, _ := strconv.Atoi`.
The fast path of `Atoi` for short texts gives the value that `ParseInt` gives. -/
def Atoi (intSize : Nat) (s : GoString) : Int :=
  ParseInt intSize s

/-- Go `toBytes`.  `units` is the last byte of the text; when the last rune is not
ASCII that byte is none of the six letters, like the rune itself. -/
def toBytes (intSize : Nat) (initial : GoString) : Int :=
  if byteLen initial < 1 then -1
  else
    match initial.getLast? with
    | none => -1
    | some units =>
      let initialInt := Atoi intSize initial.dropLast
      if units = 'k' ∨ units = 'K' then shiftLeft intSize initialInt 10
      else if units = 'm' ∨ units = 'M' then shiftLeft intSize initialInt 20
      else if units = 'g' ∨ units = 'G' then shiftLeft intSize initialInt 30
      else -1

/-- Go `checkXmxVsXms`. -/
def checkXmxVsXms (intSize : Nat) (options : MappedVmoptions) : Option GoString :=
  let xmxInBytes := toBytes intSize (mapGet options "-Xmx".toList)
  if xmxInBytes = -1 then
    some ("Couldn\x27t convert -Xmx=".toList ++ mapGet options "-Xmx".toList ++
      " to bytes. ".toList)
  else if byteLen (mapGet options "-Xms".toList) < 1 then
    some "VM option \x27Xms\x27 is not set".toList
  else
    let xmsInBytes := toBytes intSize (mapGet options "-Xms".toList)
    if xmsInBytes = -1 then
      some ("Couldn\x27t convert -Xms=".toList ++ mapGet options "-Xms".toList ++
        " to bytes. ".toList)
    else if xmxInBytes ≥ xmsInBytes then none
    else
      some ("Xmx value (current value ".toList ++ mapGet options "-Xmx".toList ++
        ") should be higher than Xms (current value ".toList ++
        mapGet options "-Xms".toList ++ ")".toList)

/-! ## `log_parser.go`: the text behind the severity -/

/-- The value of `logEntryAsString` when the loop of `parseLogString` starts (lines
106 to 115): what is left of the line after the time stamp, the bracketed token and
the severity keyword have been cut off. -/
def textAfterSeverity (logEntryAsString : GoString) : GoString :=
  let logEntryAsString := TrimLeft logEntryAsString ['\n']
  let DateAndTime := getTimeStampFromString logEntryAsString
  let logEntryAsString := trimFoundPart logEntryAsString DateAndTime
  let rawTimeSinceStart := getRawTimeSinceStart logEntryAsString
  let logEntryAsString := trimFoundPart logEntryAsString rawTimeSinceStart
  let (logEntryAsString, Severity) := getSeverity logEntryAsString
  trimFoundPart logEntryAsString Severity

/-- A state of `ParseIdeaLogFile` with three entries, the first one recorded as an
exception. -/
def stateWithThreeEntries : ParseState :=
  { logEntries := stateBeforeBlame.logEntries.dropLast,
    logEntriesWithExceptions := [errorEntry],
    pluginsWithExceptions := [] }

/-! # Properties -/

/-! ## Plugin lookup and plugin name -/

theorem byteLen_pos_iff (s : GoString) : byteLen s > 0 ↔ s ≠ [] := by
  cases s with
  | nil => simp [byteLen]
  | cons c cs =>
    have := Char.utf8Size_pos c
    simp [byteLen]; omega

theorem Contains_iff (l : PluginInfoList) (p : PluginInfo) : Contains l p = true ↔ p ∈ l := by
  induction l with
  | nil => simp [Contains]
  | cons q rest ih =>
    by_cases h : p = q
    · simp [Contains, h]
    · simp [Contains, h, ih]

theorem firstEnabledNamed_some (n : GoString) (l : PluginInfoList) (p : PluginInfo) :
    firstEnabledNamed n l = some p ↔
      ∃ pre post, l = pre ++ p :: post ∧ p.Name = n ∧ p.IsDisabled = false ∧
        ∀ q ∈ pre, ¬ (q.Name = n ∧ q.IsDisabled = false) := by
  induction l with
  | nil => simp [firstEnabledNamed]
  | cons q rest ih =>
    by_cases h : q.Name = n ∧ q.IsDisabled = false
    · rw [firstEnabledNamed, if_pos h]
      constructor
      · intro hq
        cases hq
        exact ⟨[], rest, rfl, h.1, h.2, by simp⟩
      · rintro ⟨pre, post, hl, -, -, hpre⟩
        cases pre with
        | nil => simp at hl; rw [hl.1]
        | cons a pre =>
          simp at hl
          exact absurd h (hl.1 ▸ hpre a (by simp))
    · rw [firstEnabledNamed, if_neg h, ih]
      constructor
      · rintro ⟨pre, post, hl, h1, h2, hpre⟩
        refine ⟨q :: pre, post, by simp [hl], h1, h2, ?_⟩
        intro a ha
        rcases List.mem_cons.1 ha with rfl | ha
        · exact h
        · exact hpre a ha
      · rintro ⟨pre, post, hl, h1, h2, hpre⟩
        cases pre with
        | nil =>
          simp at hl
          exact absurd ⟨hl.1 ▸ h1, hl.1 ▸ h2⟩ h
        | cons a pre =>
          simp at hl
          exact ⟨pre, post, hl.2, h1, h2, fun b hb => hpre b (by simp [hb])⟩

theorem firstEnabledNamed_none (n : GoString) (l : PluginInfoList) :
    firstEnabledNamed n l = none ↔ ∀ q ∈ l, ¬ (q.Name = n ∧ q.IsDisabled = false) := by
  induction l with
  | nil => simp [firstEnabledNamed]
  | cons q rest ih =>
    by_cases h : q.Name = n ∧ q.IsDisabled = false
    · rw [firstEnabledNamed, if_pos h]
      constructor
      · intro hc; cases hc
      · intro hall
        exact absurd h (hall q (List.mem_cons_self q rest))
    · rw [firstEnabledNamed, if_neg h, ih]
      constructor
      · intro hall a ha
        rcases List.mem_cons.1 ha with rfl | ha
        · exact h
        · exact hall a ha
      · intro hall a ha
        exact hall a (List.mem_cons_of_mem q ha)

/-- Claim C9.  For every blame entry and every plugin list,
`getEnabledPluginByBlameString` returns a plugin exactly when that plugin is the
first one in list order whose `Name` equals the extracted plugin name and whose
`IsDisabled` is false (every plugin before it, in particular a disabled one of the
same name, fails that test), and it returns no plugin if and only if the list has
no such plugin. -/
theorem getEnabledPluginByBlameString_first_match (PluginsList : PluginInfoList)
    (currentEntry : LogEntry) :
    (∀ p, getEnabledPluginByBlameString PluginsList currentEntry = some p ↔
      ∃ pre post, PluginsList = pre ++ p :: post ∧
        p.Name = getPluginNameByBlameString currentEntry.Header ∧ p.IsDisabled = false ∧
        ∀ q ∈ pre, ¬ (q.Name = getPluginNameByBlameString currentEntry.Header ∧
          q.IsDisabled = false)) ∧
    (getEnabledPluginByBlameString PluginsList currentEntry = none ↔
      ∀ q ∈ PluginsList, ¬ (q.Name = getPluginNameByBlameString currentEntry.Header ∧
        q.IsDisabled = false)) :=
  ⟨fun p => firstEnabledNamed_some _ PluginsList p, firstEnabledNamed_none _ PluginsList⟩

theorem rdropWhile_append_cons_neg (p : Char → Bool) (A B : GoString) (c : Char) (hc : ¬ p c) :
    (A ++ c :: B).rdropWhile p = A ++ c :: B.rdropWhile p := by
  induction B using List.reverseRecOn with
  | nil => simpa using List.rdropWhile_concat_neg p A c hc
  | append_singleton B b ih =>
    by_cases hb : p b
    · have e : A ++ c :: (B ++ [b]) = (A ++ c :: B) ++ [b] := by simp
      rw [e, List.rdropWhile_concat_pos _ _ _ hb, List.rdropWhile_concat_pos _ _ _ hb, ih]
    · have e : A ++ c :: (B ++ [b]) = (A ++ c :: B) ++ [b] := by simp
      rw [e, List.rdropWhile_concat_neg _ _ _ hb, List.rdropWhile_concat_neg _ _ _ hb]
      simp

theorem TrimSpace_fixed (N : GoString) (h : TrimSpace N = N) :
    N.dropWhile isSpace = N ∧ N.rdropWhile isSpace = N := by
  have h1 : (N.dropWhile isSpace).rdropWhile isSpace <+: N.dropWhile isSpace :=
    List.rdropWhile_prefix _ _
  have h2 : N.dropWhile isSpace <:+ N := List.dropWhile_suffix _
  unfold TrimSpace at h
  have hlen : N.length ≤ (N.dropWhile isSpace).length := by
    have := h1.length_le
    rw [h] at this
    exact this
  have e1 : N.dropWhile isSpace = N := h2.eq_of_length_le hlen
  refine ⟨e1, ?_⟩
  rw [e1] at h
  exact h

theorem removeVersionMatches_inside (T : GoString) (h : '\n' ∉ T) :
    removeVersionMatches true T = [] := by
  induction T with
  | nil => rfl
  | cons c cs ih =>
    have hc : c ≠ '\n' := fun e => h (e ▸ List.mem_cons_self _ _)
    rw [removeVersionMatches, if_neg hc]
    exact ih (fun hm => h (List.mem_cons_of_mem _ hm))

theorem not_version_prefix_append (A rest : GoString) (h : ¬ "version:".toList <+: A) :
    ¬ "version:".toList <+: A ++ ' ' :: rest := by
  intro hp
  have hA : A ++ [' '] <+: A ++ ' ' :: rest := by
    refine ⟨rest, by simp⟩
  have hsp : ' ' ∉ "version:".toList := by decide
  rcases List.prefix_or_prefix_of_prefix hp hA with h1 | h1
  · rcases List.prefix_concat_iff.1 h1 with h2 | h2
    · exact hsp (h2 ▸ by simp)
    · exact h h2
  · exact hsp (h1.subset (by simp))

theorem removeVersionMatches_name (N T : GoString) (hver : ¬ "version:".toList <:+: N)
    (hT : '\n' ∉ T) :
    removeVersionMatches false (N ++ " version:".toList ++ T) = N ++ [' '] := by
  induction N with
  | nil =>
    have : removeVersionMatches false ([] ++ " version:".toList ++ T)
        = ' ' :: removeVersionMatches true T := by
      simp [removeVersionMatches, HasPrefix]
    rw [this, removeVersionMatches_inside T hT]
    rfl
  | cons c N ih =>
    have h1 : ¬ "version:".toList <+: c :: N := fun hp => hver hp.isInfix
    have h2 : ¬ "version:".toList <:+: N := fun hp =>
      hver (hp.trans (List.suffix_cons c N).isInfix)
    have h3 : ¬ "version:".toList <+: (c :: N) ++ ' ' :: ("version:".toList ++ T) :=
      not_version_prefix_append (c :: N) _ h1
    have e : (c :: N) ++ " version:".toList ++ T = c :: (N ++ ' ' :: ("version:".toList ++ T)) := by
      simp
    have e2 : N ++ " version:".toList ++ T = N ++ ' ' :: ("version:".toList ++ T) := by simp
    have hpre : HasPrefix (c :: (N ++ ' ' :: ("version:".toList ++ T))) "version:".toList = false := by
      rw [← Bool.not_eq_true]
      unfold HasPrefix
      rw [List.isPrefixOf_iff_prefix]
      exact h3
    rw [e, removeVersionMatches, hpre]
    rw [e2] at ih
    simp only [Bool.false_eq_true, if_false]
    rw [ih h2]
    rfl

/-- Claim C8.  For every plugin name `N` without leading or trailing white space
(`TrimSpace N = N`) that does not contain `version:`, and every version text `V`
without a line feed, `getPluginNameByBlameString` applied to
`"Plugin to blame: " ++ N ++ " version: " ++ V` returns exactly `N`.  (That `N` has
no line feed is not needed.) -/
theorem getPluginNameByBlameString_name (N V : GoString) (hN : TrimSpace N = N)
    (hver : ¬ "version:".toList <:+: N) (hV : '\n' ∉ V) :
    getPluginNameByBlameString ("Plugin to blame: ".toList ++ N ++ " version: ".toList ++ V)
      = N := by
  obtain ⟨hN1, hN2⟩ := TrimSpace_fixed N hN
  -- the trailing white space of the header goes, the prefix stays
  have e0 : "Plugin to blame: ".toList ++ N ++ " version: ".toList ++ V
      = 'P' :: ("lugin to blame: ".toList ++ N ++ " version".toList) ++ ':' :: (' ' :: V) := by
    simp
  have hP : ¬ isSpace 'P' = true := by decide
  have hcolon : ¬ isSpace ':' = true := by decide
  have e1 : TrimSpace ("Plugin to blame: ".toList ++ N ++ " version: ".toList ++ V)
      = "Plugin to blame: ".toList ++ (N ++ " version:".toList ++ (' ' :: V).rdropWhile isSpace) := by
    rw [e0]
    unfold TrimSpace
    have : ('P' :: ("lugin to blame: ".toList ++ N ++ " version".toList) ++ ':' :: (' ' :: V)).dropWhile isSpace
        = 'P' :: ("lugin to blame: ".toList ++ N ++ " version".toList) ++ ':' :: (' ' :: V) := by
      simp [List.dropWhile, hP]
    rw [this, rdropWhile_append_cons_neg _ _ _ _ hcolon]
    simp
  have hT : '\n' ∉ (' ' :: V).rdropWhile isSpace := by
    intro hm
    have := (List.rdropWhile_prefix isSpace (' ' :: V)).subset hm
    rcases List.mem_cons.1 this with h | h
    · exact absurd h (by decide)
    · exact hV h
  have e2 : TrimPrefix ("Plugin to blame: ".toList ++ (N ++ " version:".toList ++ (' ' :: V).rdropWhile isSpace))
      "Plugin to blame: ".toList = N ++ " version:".toList ++ (' ' :: V).rdropWhile isSpace := by
    unfold TrimPrefix HasPrefix
    rw [if_pos]
    · exact List.drop_left _ _
    · rw [List.isPrefixOf_iff_prefix]
      exact List.prefix_append _ _
  unfold getPluginNameByBlameString
  simp only []
  rw [e1, e2, removeVersionMatches_name N _ hver hT]
  -- trimming `N` followed by one blank
  unfold TrimSpace
  cases N with
  | nil => decide
  | cons c N =>
    have hc : ¬ isSpace c = true := by
      intro hc
      have : (c :: N).dropWhile isSpace = N.dropWhile isSpace := by
        simp [List.dropWhile, hc]
      rw [this] at hN1
      have := (List.dropWhile_suffix isSpace (l := N)).length_le
      rw [hN1] at this
      simp at this
    have : ((c :: N) ++ [' ']).dropWhile isSpace = (c :: N) ++ [' '] := by
      simp [List.dropWhile, hc]
    rw [this, List.rdropWhile_concat_pos _ _ _ (by decide), hN2]

/-- Scenario D of the specification, by `getPluginNameByBlameString_name`. -/
theorem getPluginNameByBlameString_name_witness :
    getPluginNameByBlameString "Plugin to blame: My Plugin version: 1.2.3".toList
      = "My Plugin".toList :=
  getPluginNameByBlameString_name "My Plugin".toList "1.2.3".toList (by decide) (by decide)
    (by decide)

/-! ## Lines -/

theorem readLines_ne_nil (content : GoString) : readLines content ≠ [] := by
  cases content with
  | nil => simp [readLines]
  | cons c cs =>
    by_cases hc : c = '\n'
    · simp [readLines, hc]
    · cases h : readLines cs <;> simp [readLines, hc, h]

theorem readLines_shape (content : GoString) :
    ∀ l ∈ readLines content, '\n' ∉ l.dropLast := by
  induction content with
  | nil => intro l hl; simp [readLines] at hl; simp [hl]
  | cons c cs ih =>
    intro l hl
    by_cases hc : c = '\n'
    · rw [readLines, if_pos hc] at hl
      rcases List.mem_cons.1 hl with rfl | hl
      · simp
      · exact ih l hl
    · rw [readLines, if_neg hc] at hl
      cases h : readLines cs with
      | nil => exact absurd h (readLines_ne_nil cs)
      | cons l0 ls =>
        rw [h] at hl ih
        rcases List.mem_cons.1 hl with rfl | hl
        · have := ih l0 (List.mem_cons_self _ _)
          cases l0 with
          | nil => simp
          | cons a l0 =>
            rw [List.dropLast_cons₂]
            intro hm
            rcases List.mem_cons.1 hm with h1 | h1
            · exact hc h1.symm
            · exact this h1
        · exact ih l (List.mem_cons_of_mem _ hl)

theorem TrimSpace_sublist (s : GoString) : (TrimSpace s).Sublist s :=
  (List.rdropWhile_prefix _ _).sublist.trans (List.dropWhile_suffix _).sublist

theorem TrimPrefix_sublist (s p : GoString) : (TrimPrefix s p).Sublist s := by
  unfold TrimPrefix
  split
  · exact List.drop_sublist _ _
  · exact List.Sublist.refl _

theorem TrimSpace_line (l : GoString) (h : '\n' ∉ l.dropLast) : '\n' ∉ TrimSpace l := by
  unfold TrimSpace
  have hsuf : l.dropWhile isSpace <:+ l := List.dropWhile_suffix _
  generalize l.dropWhile isSpace = t at hsuf
  rcases List.eq_nil_or_concat t with rfl | ⟨t', b, rfl⟩
  · simp [List.rdropWhile]
  · rw [List.concat_eq_append] at hsuf ⊢
    have ht' : '\n' ∉ t' := by
      obtain ⟨u, hu⟩ := hsuf
      intro hm
      apply h
      rw [← hu, ← List.append_assoc, List.dropLast_concat]
      exact List.mem_append_right _ hm
    by_cases hb : isSpace b = true
    · rw [List.rdropWhile_concat_pos _ _ _ hb]
      exact fun hm => ht' ((List.rdropWhile_prefix _ _).subset hm)
    · rw [List.rdropWhile_concat_neg _ _ _ hb]
      intro hm
      rcases List.mem_append.1 hm with h1 | h1
      · exact ht' h1
      · rw [List.mem_singleton] at h1
        exact hb (h1 ▸ by decide)

theorem IndexAny_not_mem (s : GoString) (h : '\n' ∉ s) : IndexAny s ['\n'] = -1 := by
  induction s with
  | nil => rfl
  | cons c cs ih =>
    have hc : c ≠ '\n' := fun e => h (e ▸ List.mem_cons_self _ _)
    have ih := ih (fun hm => h (List.mem_cons_of_mem _ hm))
    simp [IndexAny, hc, ih]

theorem parseLogLoop_no_line_feed (s : GoString) (hs : IndexAny s ['\n'] = -1) :
    ∀ (idx : List Nat) (e : LogEntry) (cEnd : Nat),
      ∃ e', parseLogLoop s idx e cEnd 0 = some e' ∧ e'.Body = e.Body ∧
        e'.DateAndTime = e.DateAndTime ∧ e'.TimeSinceStart = e.TimeSinceStart ∧
        e'.Severity = e.Severity := by
  intro idx
  induction idx with
  | nil => intro e cEnd; exact ⟨e, rfl, rfl, rfl, rfl, rfl⟩
  | cons i rest ih =>
    intro e cEnd
    rw [parseLogLoop]
    simp only [hs, gt_iff_lt, lt_self_iff_false, if_true, if_false]
    split_ifs <;> first | exact ⟨_, rfl, rfl, rfl, rfl, rfl⟩ | exact ih _ _

theorem matchClasses_timeStamp_head (l : GoString)
    (h : matchClasses timeStampClasses l = true) : ∃ d l', l = d :: l' ∧ d.isDigit = true := by
  cases l with
  | nil => simp [matchClasses, timeStampClasses] at h
  | cons d l' =>
    refine ⟨d, l', rfl, ?_⟩
    simp only [timeStampClasses, matchClasses, Bool.and_eq_true, reDigit] at h
    exact h.1

theorem getTimeStampFromString_ne_nil (l : GoString) (h : getTimeStampFromString l ≠ []) :
    matchClasses timeStampClasses l = true ∧ getTimeStampFromString l = l.take 23 := by
  unfold getTimeStampFromString at h ⊢
  by_cases hm : matchClasses timeStampClasses l = true
  · rw [if_pos hm]
    exact ⟨hm, rfl⟩
  · simp [hm] at h

theorem isTimeStamp_iff (l : GoString) : isTimeStamp l = true ↔ getTimeStampFromString l ≠ [] := by
  unfold isTimeStamp
  by_cases h : getTimeStampFromString l = [] <;> simp [h]

theorem parseLogString_line (l : GoString) (hl : '\n' ∉ l.dropLast)
    (hts : getTimeStampFromString l ≠ []) :
    ∃ e, parseLogString l = some e ∧ e.Body = [] ∧ e.DateAndTime = l.take 23 := by
  obtain ⟨hm, htake⟩ := getTimeStampFromString_ne_nil l hts
  obtain ⟨d, l', rfl, hd⟩ := matchClasses_timeStamp_head l hm
  have hdn : d ≠ '\n' := by
    intro e
    rw [e] at hd
    exact absurd hd (by decide)
  have hleft : TrimLeft (d :: l') ['\n'] = d :: l' := by
    simp [TrimLeft, List.dropWhile, hdn]
  unfold parseLogString
  simp only [hleft, getSeverity]
  have h1 : '\n' ∉ trimFoundPart (d :: l') (getTimeStampFromString (d :: l')) :=
    fun hmem => TrimSpace_line _ hl ((TrimPrefix_sublist _ _).subset hmem)
  generalize trimFoundPart (d :: l') (getTimeStampFromString (d :: l')) = s1 at h1
  have h2 : '\n' ∉ trimFoundPart s1 (getRawTimeSinceStart s1) :=
    fun hmem => h1 ((TrimSpace_sublist _).subset ((TrimPrefix_sublist _ _).subset hmem))
  generalize trimFoundPart s1 (getRawTimeSinceStart s1) = s2 at h2
  have h3 : '\n' ∉ TrimSpace s2 := fun hmem => h2 ((TrimSpace_sublist _).subset hmem)
  generalize TrimSpace s2 = s3 at h3
  have h4 : '\n' ∉ trimFoundPart s3 (firstSeverity s3 severities) :=
    fun hmem => h3 ((TrimSpace_sublist _).subset ((TrimPrefix_sublist _ _).subset hmem))
  generalize trimFoundPart s3 (firstSeverity s3 severities) = s4 at h4
  obtain ⟨e', he, hb, hdt, -, -⟩ := parseLogLoop_no_line_feed s4 (IndexAny_not_mem s4 h4)
    (List.range s4.length)
    { DateAndTime := getTimeStampFromString (d :: l'),
      TimeSinceStart := getTimeSinceStart (getRawTimeSinceStart s1),
      Severity := firstSeverity s3 severities, Class := [], Header := [], Body := [] } 0
  exact ⟨e', he, hb, by rw [hdt, htake]⟩

/-! ## One step of `ParseIdeaLogFile` -/

theorem evaluateLastEntry_nil (exc : List LogEntry) : evaluateLastEntry [] exc = some exc := by
  simp [evaluateLastEntry]

theorem evaluateLastEntry_concat (E : List LogEntry) (last : LogEntry) (exc : List LogEntry) :
    evaluateLastEntry (E ++ [last]) exc
      = some (if last.Body ≠ [] ∧ last.Severity = "ERROR".toList then exc ++ [last] else exc) := by
  have hb := byteLen_pos_iff last.Body
  by_cases h : last.Body ≠ [] ∧ last.Severity = "ERROR".toList
  · have h' : byteLen last.Body > 0 ∧ last.Severity = "ERROR".toList := ⟨hb.2 h.1, h.2⟩
    simp only [evaluateLastEntry, lastLogEntryHasException, List.getLast?_concat,
      List.length_append, List.length_singleton, if_pos h', if_pos h]
    simp
  · have h' : ¬ (byteLen last.Body > 0 ∧ last.Severity = "ERROR".toList) :=
      fun hc => h ⟨hb.1 hc.1, hc.2⟩
    simp only [evaluateLastEntry, lastLogEntryHasException, List.getLast?_concat,
      List.length_append, List.length_singleton, if_neg h', if_neg h]
    simp

theorem blameStep_cases (PL : PluginInfoList) (E exc : List LogEntry) (pl : PluginInfoList)
    (e : LogEntry) (exc2 : List LogEntry) (pl2 : PluginInfoList)
    (h : blameStep PL E exc pl e = some (exc2, pl2)) : exc2 = exc ∨ exc2 = exc.dropLast := by
  unfold blameStep at h
  split_ifs at h
  · simp only [Option.some.injEq, Prod.mk.injEq] at h
    exact Or.inr h.1.symm
  · simp only [Option.some.injEq, Prod.mk.injEq] at h
    exact Or.inl h.1.symm

theorem processLine_cont_nil (PL : PluginInfoList) (st : ParseState) (l : GoString)
    (hts : getTimeStampFromString l = []) (hE : st.logEntries = []) :
    processLine PL st l = some st := by
  simp [processLine, hts, hE]

theorem processLine_cont_concat (PL : PluginInfoList) (E : List LogEntry) (e : LogEntry)
    (exc : List LogEntry) (pl : PluginInfoList) (l : GoString)
    (hts : getTimeStampFromString l = []) :
    processLine PL ⟨E ++ [e], exc, pl⟩ l
      = some ⟨E ++ [{ e with Body := e.Body ++ l }], exc, pl⟩ := by
  simp [processLine, hts, List.getLast?_concat]

theorem processLine_ts (PL : PluginInfoList) (st st' : ParseState) (l : GoString)
    (hts : getTimeStampFromString l ≠ []) (hl : '\n' ∉ l.dropLast)
    (hrun : processLine PL st l = some st') :
    ∃ e exc1, parseLogString l = some e ∧ e.Body = [] ∧ e.DateAndTime = l.take 23 ∧
      evaluateLastEntry st.logEntries st.logEntriesWithExceptions = some exc1 ∧
      blameStep PL st.logEntries exc1 st.pluginsWithExceptions e
        = some (st'.logEntriesWithExceptions, st'.pluginsWithExceptions) ∧
      st'.logEntries = st.logEntries ++ [e] := by
  obtain ⟨e, he, hb, hd⟩ := parseLogString_line l hl hts
  unfold processLine at hrun
  rw [if_pos hts, he] at hrun
  cases hev : evaluateLastEntry st.logEntries st.logEntriesWithExceptions with
  | none => simp [hev] at hrun
  | some exc1 =>
    cases hbl : blameStep PL st.logEntries exc1 st.pluginsWithExceptions e with
    | none => simp [hev, hbl] at hrun
    | some r =>
      obtain ⟨exc2, pl2⟩ := r
      simp only [hev, hbl, Option.some.injEq] at hrun
      subst hrun
      exact ⟨e, exc1, he, hb, hd, rfl, hbl, rfl⟩

theorem parseLines_append (PL : PluginInfoList) (A B : List GoString) (st : ParseState) :
    parseLines PL (A ++ B) st = (parseLines PL A st).bind (parseLines PL B) := by
  induction A generalizing st with
  | nil => rfl
  | cons a A ih =>
    simp only [List.cons_append, parseLines]
    cases processLine PL st a with
    | none => rfl
    | some st1 => exact ih st1

theorem processLine_cont (PL : PluginInfoList) (st : ParseState) (l : GoString)
    (hts : getTimeStampFromString l = []) :
    ∃ st', processLine PL st l = some st' ∧
      st'.logEntriesWithExceptions = st.logEntriesWithExceptions ∧
      st'.pluginsWithExceptions = st.pluginsWithExceptions ∧
      st'.logEntries.dropLast = st.logEntries.dropLast ∧
      st'.logEntries.map LogEntry.DateAndTime = st.logEntries.map LogEntry.DateAndTime := by
  obtain ⟨E, exc, pl⟩ := st
  rcases List.eq_nil_or_concat E with rfl | ⟨E', e, rfl⟩
  · exact ⟨_, processLine_cont_nil PL _ l hts rfl, rfl, rfl, rfl, rfl⟩
  · rw [List.concat_eq_append]
    refine ⟨_, processLine_cont_concat PL E' e exc pl l hts, rfl, rfl, ?_, ?_⟩
    · simp
    · simp

/-! ## The entries -/

theorem parseLines_dates (PL : PluginInfoList) (lines : List GoString)
    (hshape : ∀ l ∈ lines, '\n' ∉ l.dropLast) :
    ∀ st st', parseLines PL lines st = some st' →
      st'.logEntries.map LogEntry.DateAndTime
        = st.logEntries.map LogEntry.DateAndTime
          ++ (lines.filter isTimeStamp).map (List.take 23) := by
  induction lines with
  | nil =>
    intro st st' h
    simp only [parseLines, Option.some.injEq] at h
    simp [h]
  | cons l rest ih =>
    intro st st' h
    have ih := ih (fun x hx => hshape x (List.mem_cons_of_mem _ hx))
    rw [parseLines] at h
    cases h1 : processLine PL st l with
    | none => simp [h1] at h
    | some st1 =>
      simp only [h1] at h
      have hrest := ih st1 st' h
      by_cases hts : getTimeStampFromString l = []
      · obtain ⟨st1', e1, -, -, -, e2⟩ := processLine_cont PL st l hts
        rw [h1] at e1
        cases e1
        have : isTimeStamp l = false := by
          rw [← Bool.not_eq_true, isTimeStamp_iff]; simpa using hts
        rw [hrest, e2, List.filter_cons_of_neg (by simp [this])]
      · obtain ⟨e, exc1, -, -, hd, -, -, hE⟩ :=
          processLine_ts PL st st1 l hts (hshape l (List.mem_cons_self _ _)) h1
        have : isTimeStamp l = true := (isTimeStamp_iff l).2 hts
        rw [hrest, hE, List.filter_cons_of_pos this]
        simp [hd]

theorem parseLines_no_timestamp (PL : PluginInfoList) (lines : List GoString)
    (hnone : ∀ l ∈ lines, isTimeStamp l = false) (exc : List LogEntry) (pl : PluginInfoList) :
    parseLines PL lines ⟨[], exc, pl⟩ = some ⟨[], exc, pl⟩ := by
  induction lines with
  | nil => rfl
  | cons l rest ih =>
    have hts : getTimeStampFromString l = [] := by
      have := hnone l (List.mem_cons_self _ _)
      rw [← Bool.not_eq_true, isTimeStamp_iff] at this
      simpa using this
    rw [parseLines, processLine_cont_nil PL _ l hts rfl]
    exact ih (fun x hx => hnone x (List.mem_cons_of_mem _ hx))

/-! ## The sample logs, evaluated -/

theorem readLines_errorInfoLog :
    readLines errorInfoLog
      = [errorHeaderLine, stackLine1, stackLine2, infoHeaderLine, infoBodyLine, []] := by
  rfl

theorem ParseIdeaLogFile_errorInfoLog :
    ParseIdeaLogFile [] [] [] errorInfoLog
      = some ⟨[errorEntry, infoEntry], [errorEntry], []⟩ := by
  rfl

theorem ParseIdeaLogFile_beforeBlame :
    ParseIdeaLogFile [] [] [] (errorOnlyLog ++ buildLine ++ jdkLine ++ osLine)
      = some stateBeforeBlame := by
  rfl

theorem parseLogString_blameLine : parseLogString blameLine = some blameEntry := by
  rfl

theorem getTimeStampFromString_blameLine : getTimeStampFromString blameLine ≠ [] := by
  decide

theorem evaluateLastEntry_beforeBlame :
    evaluateLastEntry stateBeforeBlame.logEntries stateBeforeBlame.logEntriesWithExceptions
      = some [errorEntry] := by
  rfl

/-! ## Completion -/

theorem evaluateLastEntry_some (E exc : List LogEntry) :
    ∃ exc1, evaluateLastEntry E exc = some exc1 := by
  rcases List.eq_nil_or_concat E with rfl | ⟨E', last, rfl⟩
  · exact ⟨_, evaluateLastEntry_nil exc⟩
  · rw [List.concat_eq_append]
    exact ⟨_, evaluateLastEntry_concat E' last exc⟩

theorem parseLines_completes (PL : PluginInfoList) (lines : List GoString)
    (hshape : ∀ l ∈ lines, '\n' ∉ l.dropLast)
    (hnoblame : ∀ l ∈ lines, (parseLogString l).map entryContainsPluginToBlame ≠ some true) :
    ∀ st, ∃ st', parseLines PL lines st = some st' := by
  induction lines with
  | nil => intro st; exact ⟨st, rfl⟩
  | cons l rest ih =>
    intro st
    have ih := ih (fun x hx => hshape x (List.mem_cons_of_mem _ hx))
      (fun x hx => hnoblame x (List.mem_cons_of_mem _ hx))
    rw [parseLines]
    by_cases hts : getTimeStampFromString l = []
    · obtain ⟨st1, e1, -⟩ := processLine_cont PL st l hts
      rw [e1]
      exact ih st1
    · obtain ⟨e, he, -, -⟩ := parseLogString_line l (hshape l (List.mem_cons_self _ _)) hts
      obtain ⟨exc1, hev⟩ := evaluateLastEntry_some st.logEntries st.logEntriesWithExceptions
      have hb : entryContainsPluginToBlame e = false := by
        have := hnoblame l (List.mem_cons_self _ _)
        rw [he] at this
        simpa using this
      have : processLine PL st l
          = some ⟨st.logEntries ++ [e], exc1, st.pluginsWithExceptions⟩ := by
        simp [processLine, hts, he, hev, blameStep, hb]
      rw [this]
      exact ih _

theorem parseLines_conts (PL : PluginInfoList) (conts : List GoString)
    (hconts : ∀ c ∈ conts, isTimeStamp c = false) :
    ∀ (E : List LogEntry) (e : LogEntry) (exc : List LogEntry) (pl : PluginInfoList),
      parseLines PL conts ⟨E ++ [e], exc, pl⟩
        = some ⟨E ++ [{ e with Body := e.Body ++ conts.flatten }], exc, pl⟩ := by
  induction conts with
  | nil => intro E e exc pl; simp [parseLines]
  | cons c rest ih =>
    intro E e exc pl
    have hts : getTimeStampFromString c = [] := by
      have := hconts c (List.mem_cons_self _ _)
      rw [← Bool.not_eq_true, isTimeStamp_iff] at this
      simpa using this
    rw [parseLines, processLine_cont_concat PL E e exc pl c hts]
    simp only []
    rw [ih (fun x hx => hconts x (List.mem_cons_of_mem _ hx))]
    simp

theorem parseLines_dropLast_mono (PL : PluginInfoList) (lines : List GoString)
    (hshape : ∀ l ∈ lines, '\n' ∉ l.dropLast) :
    ∀ st st', parseLines PL lines st = some st' →
      st.logEntries.dropLast <+: st'.logEntries.dropLast := by
  induction lines with
  | nil =>
    intro st st' h
    simp only [parseLines, Option.some.injEq] at h
    rw [h]
  | cons l rest ih =>
    intro st st' h
    have ih := ih (fun x hx => hshape x (List.mem_cons_of_mem _ hx))
    rw [parseLines] at h
    cases h1 : processLine PL st l with
    | none => simp [h1] at h
    | some st1 =>
      simp only [h1] at h
      refine List.IsPrefix.trans ?_ (ih st1 st' h)
      by_cases hts : getTimeStampFromString l = []
      · obtain ⟨st1', e1, -, -, e2, -⟩ := processLine_cont PL st l hts
        rw [h1] at e1
        cases e1
        rw [e2]
      · obtain ⟨e, exc1, -, -, -, -, -, hE⟩ :=
          processLine_ts PL st st1 l hts (hshape l (List.mem_cons_self _ _)) h1
        rw [hE, List.dropLast_concat]
        exact List.dropLast_prefix _

/-- Claim C2.  For every file content, when `ParseIdeaLogFile` completes, the
returned entries correspond one to one and in file order to the lines that start
with a time stamp, the `DateAndTime` of the i-th entry being the first 23
characters of the i-th such line; when no line starts with a time stamp the
function completes with zero entries and leaves the two package-level lists as
they were; and the function completes on every file none of whose lines parses to
a blame marker. -/
theorem ParseIdeaLogFile_entries (PluginsList : PluginInfoList)
    (logEntriesWithExceptions : List LogEntry) (pluginsWithExceptions : PluginInfoList)
    (content : GoString) :
    (∀ st, ParseIdeaLogFile PluginsList logEntriesWithExceptions pluginsWithExceptions content
        = some st →
      st.logEntries.map LogEntry.DateAndTime
        = ((readLines content).filter isTimeStamp).map (List.take 23)) ∧
    ((∀ l ∈ readLines content, isTimeStamp l = false) →
      ParseIdeaLogFile PluginsList logEntriesWithExceptions pluginsWithExceptions content
        = some ⟨[], logEntriesWithExceptions, pluginsWithExceptions⟩) ∧
    ((∀ l ∈ readLines content,
        (parseLogString l).map entryContainsPluginToBlame ≠ some true) →
      ∃ st, ParseIdeaLogFile PluginsList logEntriesWithExceptions pluginsWithExceptions content
        = some st) := by
  refine ⟨?_, ?_, ?_⟩
  · intro st h
    have := parseLines_dates PluginsList (readLines content) (readLines_shape content) _ st h
    simpa using this
  · intro hnone
    exact parseLines_no_timestamp PluginsList (readLines content) hnone _ _
  · intro hnoblame
    exact parseLines_completes PluginsList (readLines content) (readLines_shape content)
      hnoblame _

/-- The entries of `errorInfoLog`, by `ParseIdeaLogFile_entries`; a log without
any time stamp; and the completion on `errorInfoLog`. -/
theorem ParseIdeaLogFile_entries_witness :
    [errorEntry, infoEntry].map LogEntry.DateAndTime
        = ((readLines errorInfoLog).filter isTimeStamp).map (List.take 23) ∧
    ParseIdeaLogFile [] [] [] (stackLine1 ++ stackLine2) = some ⟨[], [], []⟩ ∧
    ∃ st, ParseIdeaLogFile [] [] [] errorInfoLog = some st :=
  ⟨(ParseIdeaLogFile_entries [] [] [] errorInfoLog).1
      ⟨[errorEntry, infoEntry], [errorEntry], []⟩ ParseIdeaLogFile_errorInfoLog,
   (ParseIdeaLogFile_entries [] [] [] (stackLine1 ++ stackLine2)).2.1 (by decide),
   (ParseIdeaLogFile_entries [] [] [] errorInfoLog).2.2 (by decide)⟩

/-- Claim C1.  For every file content on which `ParseIdeaLogFile` completes, and
every header line `h` of the file that is followed by the lines `conts` without a
leading time stamp (up to the next line with a time stamp or the end of the file),
the entry produced from `h`, which is the entry at the position given by the number
of time-stamped lines before `h` and has the time stamp of `h`, has a `Body` equal to
the concatenation of the raw lines `conts` in order; the header line contributes
nothing to it. -/
theorem ParseIdeaLogFile_body (PluginsList : PluginInfoList)
    (logEntriesWithExceptions : List LogEntry) (pluginsWithExceptions : PluginInfoList)
    (content : GoString) (st : ParseState)
    (hrun : ParseIdeaLogFile PluginsList logEntriesWithExceptions pluginsWithExceptions content
      = some st)
    (pre : List GoString) (h : GoString) (conts rest : List GoString)
    (hsplit : readLines content = pre ++ h :: conts ++ rest)
    (hh : isTimeStamp h = true) (hconts : ∀ c ∈ conts, isTimeStamp c = false)
    (hrest : ∀ r, rest.head? = some r → isTimeStamp r = true) :
    ∃ e, st.logEntries[(pre.filter isTimeStamp).length]? = some e ∧
      e.DateAndTime = h.take 23 ∧ e.Body = conts.flatten := by
  have hshape := readLines_shape content
  rw [hsplit] at hshape
  unfold ParseIdeaLogFile at hrun
  rw [hsplit, parseLines_append, Option.bind_eq_some] at hrun
  obtain ⟨st3, h13, hrestrun⟩ := hrun
  rw [parseLines_append, Option.bind_eq_some] at h13
  obtain ⟨st1, hpre, h23⟩ := h13
  -- the entries before `h`
  have hlen : st1.logEntries.length = (pre.filter isTimeStamp).length := by
    have := parseLines_dates PluginsList pre
      (fun l hl => hshape l (by simp [hl])) _ st1 hpre
    have := congrArg List.length this
    simpa using this
  -- the header line
  rw [parseLines] at h23
  cases h12 : processLine PluginsList st1 h with
  | none => simp [h12] at h23
  | some st2 =>
    simp only [h12] at h23
    obtain ⟨e, exc1, -, hb, hd, -, -, hE⟩ :=
      processLine_ts PluginsList st1 st2 h ((isTimeStamp_iff h).1 hh)
        (hshape h (by simp)) h12
    -- the continuation lines
    obtain ⟨E2, exc2, pl2⟩ := st2
    simp only at hE
    subst hE
    rw [parseLines_conts PluginsList conts hconts] at h23
    simp only [Option.some.injEq] at h23
    -- the rest of the file
    have hpref : st1.logEntries ++ [{ e with Body := e.Body ++ conts.flatten }]
        <+: st.logEntries := by
      cases rest with
      | nil =>
        simp only [parseLines, Option.some.injEq] at hrestrun
        rw [← hrestrun, ← h23]
      | cons r rest' =>
        have hr : getTimeStampFromString r ≠ [] := (isTimeStamp_iff r).1 (hrest r rfl)
        rw [parseLines] at hrestrun
        cases h34 : processLine PluginsList st3 r with
        | none => simp [h34] at hrestrun
        | some st4 =>
          simp only [h34] at hrestrun
          obtain ⟨er, exc3, -, -, -, -, -, hE4⟩ :=
            processLine_ts PluginsList st3 st4 r hr (hshape r (by simp)) h34
          have hmono := parseLines_dropLast_mono PluginsList rest'
            (fun l hl => hshape l (by simp [hl])) st4 st hrestrun
          rw [hE4, List.dropLast_concat, ← h23] at hmono
          exact hmono.trans (List.dropLast_prefix _)
    obtain ⟨t, ht⟩ := hpref
    refine ⟨{ e with Body := e.Body ++ conts.flatten }, ?_, hd, by simp [hb]⟩
    rw [← ht, ← hlen, List.append_assoc, List.getElem?_append_right (le_refl _)]
    simp

/-- The `ERROR` entry of `errorInfoLog` and its two stack-trace lines, by
`ParseIdeaLogFile_body`. -/
theorem ParseIdeaLogFile_body_witness :
    ∃ e, [errorEntry, infoEntry][0]? = some e ∧
      e.DateAndTime = errorHeaderLine.take 23 ∧ e.Body = [stackLine1, stackLine2].flatten :=
  ParseIdeaLogFile_body [] [] [] errorInfoLog ⟨[errorEntry, infoEntry], [errorEntry], []⟩
    ParseIdeaLogFile_errorInfoLog [] errorHeaderLine [stackLine1, stackLine2]
    [infoHeaderLine, infoBodyLine, []] readLines_errorInfoLog (by decide) (by decide)
    (by decide)

/-! ## The exception list -/

theorem evaluateLastEntry_sublist (E exc exc1 : List LogEntry)
    (hev : evaluateLastEntry E exc = some exc1)
    (hsub : exc.Sublist E.dropLast)
    (hexc : ∀ e ∈ exc, e.Severity = "ERROR".toList ∧ e.Body ≠ []) :
    exc1.Sublist E ∧ ∀ e ∈ exc1, e.Severity = "ERROR".toList ∧ e.Body ≠ [] := by
  rcases List.eq_nil_or_concat E with rfl | ⟨E', last, rfl⟩
  · rw [evaluateLastEntry_nil] at hev
    cases hev
    exact ⟨hsub, hexc⟩
  · rw [List.concat_eq_append] at hev hsub ⊢
    rw [evaluateLastEntry_concat] at hev
    rw [List.dropLast_concat] at hsub
    by_cases hc : last.Body ≠ [] ∧ last.Severity = "ERROR".toList
    · rw [if_pos hc] at hev
      cases hev
      refine ⟨hsub.append (List.Sublist.refl _), ?_⟩
      intro e he
      rcases List.mem_append.1 he with h1 | h1
      · exact hexc e h1
      · rw [List.mem_singleton] at h1
        rw [h1]
        exact ⟨hc.2, hc.1⟩
    · rw [if_neg hc] at hev
      cases hev
      exact ⟨hsub.trans (List.sublist_append_left _ _), hexc⟩

theorem parseLines_exceptions (PL : PluginInfoList) (lines : List GoString)
    (hshape : ∀ l ∈ lines, '\n' ∉ l.dropLast) :
    ∀ st st', parseLines PL lines st = some st' →
      st.logEntriesWithExceptions.Sublist st.logEntries.dropLast →
      (∀ e ∈ st.logEntriesWithExceptions, e.Severity = "ERROR".toList ∧ e.Body ≠ []) →
      st'.logEntriesWithExceptions.Sublist st'.logEntries.dropLast ∧
      ∀ e ∈ st'.logEntriesWithExceptions, e.Severity = "ERROR".toList ∧ e.Body ≠ [] := by
  induction lines with
  | nil =>
    intro st st' h hsub hexc
    simp only [parseLines, Option.some.injEq] at h
    rw [← h]
    exact ⟨hsub, hexc⟩
  | cons l rest ih =>
    intro st st' h hsub hexc
    have ih := ih (fun x hx => hshape x (List.mem_cons_of_mem _ hx))
    rw [parseLines] at h
    cases h1 : processLine PL st l with
    | none => simp [h1] at h
    | some st1 =>
      simp only [h1] at h
      by_cases hts : getTimeStampFromString l = []
      · obtain ⟨st1', e1, e2, -, e3, -⟩ := processLine_cont PL st l hts
        rw [h1] at e1
        cases e1
        exact ih st1 st' h (by rw [e2, e3]; exact hsub) (by rw [e2]; exact hexc)
      · obtain ⟨e, exc1, -, -, -, hev, hbl, hE⟩ :=
          processLine_ts PL st st1 l hts (hshape l (List.mem_cons_self _ _)) h1
        obtain ⟨hs1, hx1⟩ := evaluateLastEntry_sublist _ _ _ hev hsub hexc
        have hcases := blameStep_cases _ _ _ _ _ _ _ hbl
        have hsub1 : st1.logEntriesWithExceptions.Sublist exc1 := by
          rcases hcases with h2 | h2
          · rw [h2]
          · rw [h2]; exact List.dropLast_sublist _
        refine ih st1 st' h ?_ ?_
        · rw [hE, List.dropLast_concat]
          exact hsub1.trans hs1
        · exact fun x hx => hx1 x (hsub1.subset hx)

/-- Claim C7.  For every file content on which `ParseIdeaLogFile`, started with an
empty exception list, completes: every record of the exception list has severity
`ERROR` and a non-empty body, and the exception list is a sublist of the returned
entries, so that each record is equal in every field (the complete body included)
to an entry and the records come in the order of those entries. -/
theorem ParseIdeaLogFile_exceptions (PluginsList pluginsWithExceptions : PluginInfoList)
    (content : GoString) (st : ParseState)
    (hrun : ParseIdeaLogFile PluginsList [] pluginsWithExceptions content = some st) :
    (∀ e ∈ st.logEntriesWithExceptions, e.Severity = "ERROR".toList ∧ e.Body ≠ []) ∧
    st.logEntriesWithExceptions.Sublist st.logEntries := by
  obtain ⟨h1, h2⟩ := parseLines_exceptions PluginsList (readLines content)
    (readLines_shape content) _ st hrun (List.Sublist.refl _) (by simp)
  exact ⟨h2, h1.trans (List.dropLast_sublist _)⟩

/-- The exception list of `errorInfoLog`, by `ParseIdeaLogFile_exceptions`. -/
theorem ParseIdeaLogFile_exceptions_witness :
    (∀ e ∈ [errorEntry], e.Severity = "ERROR".toList ∧ e.Body ≠ []) ∧
    [errorEntry].Sublist [errorEntry, infoEntry] :=
  ParseIdeaLogFile_exceptions [] [] errorInfoLog ⟨[errorEntry, infoEntry], [errorEntry], []⟩
    ParseIdeaLogFile_errorInfoLog

/-! ## The blame step -/

theorem processLine_blame (PluginsList : PluginInfoList) (st : ParseState)
    (currentString : GoString) (currentEntry : LogEntry) (exc1 : List LogEntry)
    (hts : getTimeStampFromString currentString ≠ [])
    (hparse : parseLogString currentString = some currentEntry)
    (hblame : entryContainsPluginToBlame currentEntry = true)
    (hlen : st.logEntries.length ≥ 4)
    (hev : evaluateLastEntry st.logEntries st.logEntriesWithExceptions = some exc1)
    (hne : exc1 ≠ []) :
    processLine PluginsList st currentString
      = some ⟨st.logEntries ++ [currentEntry], exc1.dropLast,
          collectPluginsWithExceptions PluginsList st.pluginsWithExceptions currentEntry⟩ := by
  have hl : ¬ exc1.length = 0 := fun h => hne (List.length_eq_zero.1 h)
  simp [processLine, hts, hparse, hev, blameStep, hblame, hlen, hl]

/-- Claim C4.  When a header line is processed that parses to a blame-marker entry,
at least 4 entries have been produced, the plugin name resolves to an enabled
plugin, and the exception list `exc1` (as it stands after the evaluation of the
previous entry) is non-empty, the step completes, removes exactly the last element
of `exc1` and keeps the earlier ones in order, and the resolved plugin is in the
blamed-plugin list afterwards. -/
theorem processLine_blame_resolved (PluginsList : PluginInfoList) (st : ParseState)
    (currentString : GoString) (currentEntry : LogEntry) (exc1 : List LogEntry)
    (plugin : PluginInfo)
    (hts : getTimeStampFromString currentString ≠ [])
    (hparse : parseLogString currentString = some currentEntry)
    (hblame : entryContainsPluginToBlame currentEntry = true)
    (hlen : st.logEntries.length ≥ 4)
    (hres : getEnabledPluginByBlameString PluginsList currentEntry = some plugin)
    (hev : evaluateLastEntry st.logEntries st.logEntriesWithExceptions = some exc1)
    (hne : exc1 ≠ []) :
    ∃ st' last, processLine PluginsList st currentString = some st' ∧
      exc1 = st'.logEntriesWithExceptions ++ [last] ∧
      plugin ∈ st'.pluginsWithExceptions ∧
      st'.logEntries = st.logEntries ++ [currentEntry] := by
  refine ⟨_, exc1.getLast hne,
    processLine_blame PluginsList st currentString currentEntry exc1 hts hparse hblame hlen
      hev hne, (List.dropLast_append_getLast hne).symm, ?_, rfl⟩
  show plugin ∈ collectPluginsWithExceptions PluginsList st.pluginsWithExceptions currentEntry
  unfold collectPluginsWithExceptions
  rw [hres]
  by_cases hc : Contains st.pluginsWithExceptions plugin = true
  · simp [hc, (Contains_iff _ _).1 hc]
  · simp [hc]

/-- The blame line of the Presentation Assistant plugin after `stateBeforeBlame`, by
`processLine_blame_resolved`. -/
theorem processLine_blame_resolved_witness :
    ∃ st' last, processLine [presentationAssistant] stateBeforeBlame blameLine = some st' ∧
      [errorEntry] = st'.logEntriesWithExceptions ++ [last] ∧
      presentationAssistant ∈ st'.pluginsWithExceptions ∧
      st'.logEntries = stateBeforeBlame.logEntries ++ [blameEntry] :=
  processLine_blame_resolved [presentationAssistant] stateBeforeBlame blameLine blameEntry
    [errorEntry] presentationAssistant getTimeStampFromString_blameLine
    parseLogString_blameLine (by decide) (by decide) (by decide)
    evaluateLastEntry_beforeBlame (by decide)

/-- Claim C5, as amended.  When a header line is processed that parses to a
blame-marker entry, at least 4 entries have been produced, the plugin name matches
no enabled plugin, and the exception list `exc1` (as it stands after the evaluation
of the previous entry) is non-empty, the step completes, adds no blamed-plugin
record, and removes the last element of `exc1`, keeping the earlier ones in order. -/
theorem processLine_blame_unresolved (PluginsList : PluginInfoList) (st : ParseState)
    (currentString : GoString) (currentEntry : LogEntry) (exc1 : List LogEntry)
    (hts : getTimeStampFromString currentString ≠ [])
    (hparse : parseLogString currentString = some currentEntry)
    (hblame : entryContainsPluginToBlame currentEntry = true)
    (hlen : st.logEntries.length ≥ 4)
    (hres : getEnabledPluginByBlameString PluginsList currentEntry = none)
    (hev : evaluateLastEntry st.logEntries st.logEntriesWithExceptions = some exc1)
    (hne : exc1 ≠ []) :
    ∃ st' last, processLine PluginsList st currentString = some st' ∧
      exc1 = st'.logEntriesWithExceptions ++ [last] ∧
      st'.pluginsWithExceptions = st.pluginsWithExceptions ∧
      st'.logEntries = st.logEntries ++ [currentEntry] := by
  refine ⟨_, exc1.getLast hne,
    processLine_blame PluginsList st currentString currentEntry exc1 hts hparse hblame hlen
      hev hne, (List.dropLast_append_getLast hne).symm, ?_, rfl⟩
  show collectPluginsWithExceptions PluginsList st.pluginsWithExceptions currentEntry
    = st.pluginsWithExceptions
  unfold collectPluginsWithExceptions
  rw [hres]

/-- The blame line of an unknown plugin after `stateBeforeBlame`, by
`processLine_blame_unresolved`. -/
theorem processLine_blame_unresolved_witness :
    ∃ st' last, processLine [] stateBeforeBlame blameLine = some st' ∧
      [errorEntry] = st'.logEntriesWithExceptions ++ [last] ∧
      st'.pluginsWithExceptions = stateBeforeBlame.pluginsWithExceptions ∧
      st'.logEntries = stateBeforeBlame.logEntries ++ [blameEntry] :=
  processLine_blame_unresolved [] stateBeforeBlame blameLine blameEntry
    [errorEntry] getTimeStampFromString_blameLine parseLogString_blameLine (by decide)
    (by decide) (by decide) evaluateLastEntry_beforeBlame (by decide)

/-- Claim C5 fails as stated.  `stateBeforeBlame` is the state reached after the
four entries of a log whose first entry is an exception; the blame line then names
a plugin that is not in the (empty) plugin list.  The step adds no blamed-plugin
record, but the exception `errorEntry`, the most recently recorded one, is no
longer in the exception list, which is not left unchanged. -/
theorem processLine_blame_unresolved_removes :
    ParseIdeaLogFile [] [] [] (errorOnlyLog ++ buildLine ++ jdkLine ++ osLine)
      = some stateBeforeBlame ∧
    parseLogString blameLine = some blameEntry ∧
    entryContainsPluginToBlame blameEntry = true ∧
    stateBeforeBlame.logEntries.length ≥ 4 ∧
    getEnabledPluginByBlameString [] blameEntry = none ∧
    evaluateLastEntry stateBeforeBlame.logEntries stateBeforeBlame.logEntriesWithExceptions
      = some [errorEntry] ∧
    ∃ st', processLine [] stateBeforeBlame blameLine = some st' ∧
      st'.pluginsWithExceptions = [] ∧
      errorEntry ∉ st'.logEntriesWithExceptions ∧
      st'.logEntriesWithExceptions ≠ [errorEntry] := by
  refine ⟨ParseIdeaLogFile_beforeBlame, parseLogString_blameLine, by decide, by decide,
    by decide, evaluateLastEntry_beforeBlame,
    ⟨stateBeforeBlame.logEntries ++ [blameEntry], [], []⟩, by rfl, rfl, ?_, ?_⟩
  · simp
  · simp

/-- Claim C3 fails on the code.  On a log that consists of one `ERROR` header line
followed by stack-trace lines (Scenario A), `ParseIdeaLogFile` returns the entry,
whose severity is `ERROR` and whose body is the non-empty stack trace, and leaves
the exception list empty: the last entry is not evaluated at the end of the
stream. -/
theorem ParseIdeaLogFile_errorOnlyLog :
    ParseIdeaLogFile [] [] [] errorOnlyLog = some ⟨[errorEntry], [], []⟩ ∧
    errorEntry.Severity = "ERROR".toList ∧ errorEntry.Body = stackLine1 ++ stackLine2 ∧
    errorEntry.Body ≠ [] := by
  refine ⟨by rfl, rfl, rfl, by decide⟩

/-- Claim C6 fails on the code.  On a log of five header lines without any
exception, the fifth being a blame line, the slice
`logEntriesWithExceptions[:len(logEntriesWithExceptions)-1]` is taken of an empty
list and `ParseIdeaLogFile` panics. -/
theorem ParseIdeaLogFile_blameOnlyLog :
    ParseIdeaLogFile [presentationAssistant] [] [] blameOnlyLog = none := by
  rfl

/-! ## The blamed-plugin list -/

theorem collectPluginsWithExceptions_nodup (PL pl : PluginInfoList) (e : LogEntry)
    (h : pl.Nodup) : (collectPluginsWithExceptions PL pl e).Nodup := by
  unfold collectPluginsWithExceptions
  cases getEnabledPluginByBlameString PL e with
  | none => exact h
  | some p =>
    by_cases hc : Contains pl p = true
    · simpa [hc] using h
    · have hmem : p ∉ pl := fun hm => hc ((Contains_iff _ _).2 hm)
      simp only [hc, Bool.not_false, if_true]
      exact List.nodup_append.2 ⟨h, List.nodup_singleton p, by
        intro a ha hb
        rw [List.mem_singleton] at hb
        exact hmem (hb ▸ ha)⟩

theorem processLine_plugins_nodup (PL : PluginInfoList) (st st' : ParseState) (l : GoString)
    (hrun : processLine PL st l = some st') (h : st.pluginsWithExceptions.Nodup) :
    st'.pluginsWithExceptions.Nodup := by
  by_cases hts : getTimeStampFromString l = []
  · obtain ⟨st1, e1, -, e2, -, -⟩ := processLine_cont PL st l hts
    rw [hrun] at e1
    cases e1
    rw [e2]
    exact h
  · unfold processLine at hrun
    rw [if_pos hts] at hrun
    cases hev : evaluateLastEntry st.logEntries st.logEntriesWithExceptions with
    | none => simp [hev] at hrun
    | some exc1 =>
      cases hp : parseLogString l with
      | none => simp [hev, hp] at hrun
      | some e =>
        cases hbl : blameStep PL st.logEntries exc1 st.pluginsWithExceptions e with
        | none => simp [hev, hp, hbl] at hrun
        | some r =>
          obtain ⟨exc2, pl2⟩ := r
          simp only [hev, hp, hbl, Option.some.injEq] at hrun
          subst hrun
          show pl2.Nodup
          unfold blameStep at hbl
          split_ifs at hbl
          · simp only [Option.some.injEq, Prod.mk.injEq] at hbl
            rw [← hbl.2]
            exact collectPluginsWithExceptions_nodup _ _ _ h
          · simp only [Option.some.injEq, Prod.mk.injEq] at hbl
            rw [← hbl.2]
            exact h

theorem parseLines_plugins_nodup (PL : PluginInfoList) (lines : List GoString) :
    ∀ st st', parseLines PL lines st = some st' → st.pluginsWithExceptions.Nodup →
      st'.pluginsWithExceptions.Nodup := by
  induction lines with
  | nil =>
    intro st st' h hn
    simp only [parseLines, Option.some.injEq] at h
    rw [← h]
    exact hn
  | cons l rest ih =>
    intro st st' h hn
    rw [parseLines] at h
    cases h1 : processLine PL st l with
    | none => simp [h1] at h
    | some st1 =>
      simp only [h1] at h
      exact ih st1 st' h (processLine_plugins_nodup PL st st1 l h1 hn)

/-- Claim C10.  `collectPluginsWithExceptions` keeps the blamed-plugin list free of
two records equal in every field: it appends the resolved record when resolution
succeeds and no equal record is present, leaves the list as it is when an equal
record is present or resolution fails, and appends a record whose `Name` occurs
already but only with a different `Version`.  Hence the list stays free of equal
records over every run of `ParseIdeaLogFile` that completes. -/
theorem collectPluginsWithExceptions_distinct (PluginsList pluginsWithExceptions : PluginInfoList)
    (currentEntry : LogEntry) (hnodup : pluginsWithExceptions.Nodup) :
    (collectPluginsWithExceptions PluginsList pluginsWithExceptions currentEntry).Nodup ∧
    (∀ p, getEnabledPluginByBlameString PluginsList currentEntry = some p →
      p ∉ pluginsWithExceptions →
      collectPluginsWithExceptions PluginsList pluginsWithExceptions currentEntry
        = pluginsWithExceptions ++ [p]) ∧
    (∀ p, getEnabledPluginByBlameString PluginsList currentEntry = some p →
      p ∈ pluginsWithExceptions →
      collectPluginsWithExceptions PluginsList pluginsWithExceptions currentEntry
        = pluginsWithExceptions) ∧
    (getEnabledPluginByBlameString PluginsList currentEntry = none →
      collectPluginsWithExceptions PluginsList pluginsWithExceptions currentEntry
        = pluginsWithExceptions) ∧
    (∀ p, getEnabledPluginByBlameString PluginsList currentEntry = some p →
      (∀ q ∈ pluginsWithExceptions, q.Name = p.Name → q.Version ≠ p.Version) →
      collectPluginsWithExceptions PluginsList pluginsWithExceptions currentEntry
        = pluginsWithExceptions ++ [p]) ∧
    (∀ logEntriesWithExceptions content st,
      ParseIdeaLogFile PluginsList logEntriesWithExceptions pluginsWithExceptions content
        = some st → st.pluginsWithExceptions.Nodup) := by
  have hadd : ∀ p, getEnabledPluginByBlameString PluginsList currentEntry = some p →
      p ∉ pluginsWithExceptions →
      collectPluginsWithExceptions PluginsList pluginsWithExceptions currentEntry
        = pluginsWithExceptions ++ [p] := by
    intro p hp hmem
    have hc : Contains pluginsWithExceptions p = false := by
      rw [← Bool.not_eq_true, Contains_iff]; exact hmem
    simp [collectPluginsWithExceptions, hp, hc]
  refine ⟨collectPluginsWithExceptions_nodup _ _ _ hnodup, hadd, ?_, ?_, ?_, ?_⟩
  · intro p hp hmem
    have hc : Contains pluginsWithExceptions p = true := (Contains_iff _ _).2 hmem
    simp [collectPluginsWithExceptions, hp, hc]
  · intro hp
    simp [collectPluginsWithExceptions, hp]
  · intro p hp hver
    exact hadd p hp (fun hmem => hver p hmem rfl rfl)
  · intro exc0 content st hrun
    exact parseLines_plugins_nodup PluginsList (readLines content) _ st hrun hnodup

/-- A second blame line for the Presentation Assistant plugin, now installed in
version 2.0, while the blamed-plugin list holds its version 1.0.9: the new record
is appended, by `collectPluginsWithExceptions_distinct`. -/
theorem collectPluginsWithExceptions_distinct_witness :
    collectPluginsWithExceptions [{ presentationAssistant with Version := "2.0".toList }]
        [presentationAssistant] blameEntry
      = [presentationAssistant, { presentationAssistant with Version := "2.0".toList }] :=
  (collectPluginsWithExceptions_distinct [{ presentationAssistant with Version := "2.0".toList }]
    [presentationAssistant] blameEntry (by decide)).2.2.2.2.1
    { presentationAssistant with Version := "2.0".toList } (by decide) (by decide)

/-! ## The option maps -/

theorem parseOptions_append (A B : List GoString) (r : VmOptions) :
    parseOptions (A ++ B) r = parseOptions B (parseOptions A r) := by
  induction A generalizing r with
  | nil => rfl
  | cons a A ih => exact ih _

theorem parseOption_other (r : VmOptions) (o name : GoString)
    (h : getVmoptionName o ≠ name) :
    (parseOption r o).vmoptions name = r.vmoptions name ∧
    (parseOption r o).vmoptionsDuplicates name = r.vmoptionsDuplicates name := by
  have h' : ¬ name = getVmoptionName o := fun e => h e.symm
  unfold parseOption
  by_cases hd : currentOptionIsDuplicate r.vmoptions (getVmoptionName o) = true
  · simp [hd, mapSet, h']
  · simp [hd, mapSet, h']

theorem parseOption_duplicate (r : VmOptions) (o name : GoString)
    (h : getVmoptionName o = name) (hm : mapGet r.vmoptions name ≠ []) :
    (parseOption r o).vmoptions = r.vmoptions ∧
    (parseOption r o).vmoptionsDuplicates name = some (getVmoptionValue o name) := by
  subst h
  have hd : currentOptionIsDuplicate r.vmoptions (getVmoptionName o) = true := by
    simp [currentOptionIsDuplicate, hm]
  simp [parseOption, hd, mapSet]

theorem parseOption_first (r : VmOptions) (o name : GoString)
    (h : getVmoptionName o = name) (hm : mapGet r.vmoptions name = []) :
    (parseOption r o).vmoptions name = some (getVmoptionValue o name) ∧
    (parseOption r o).vmoptionsDuplicates = r.vmoptionsDuplicates := by
  subst h
  have hd : currentOptionIsDuplicate r.vmoptions (getVmoptionName o) = false := by
    simp [currentOptionIsDuplicate, hm]
  simp [parseOption, hd, mapSet]

theorem parseOptions_no_occurrence (name : GoString) (options : List GoString)
    (h : ∀ o ∈ options, getVmoptionName o ≠ name) (r : VmOptions) :
    (parseOptions options r).vmoptions name = r.vmoptions name ∧
    (parseOptions options r).vmoptionsDuplicates name = r.vmoptionsDuplicates name := by
  induction options generalizing r with
  | nil => exact ⟨rfl, rfl⟩
  | cons o rest ih =>
    obtain ⟨h1, h2⟩ := parseOption_other r o name (h o (List.mem_cons_self _ _))
    obtain ⟨h3, h4⟩ := ih (fun x hx => h x (List.mem_cons_of_mem _ hx)) (parseOption r o)
    exact ⟨h3.trans h1, h4.trans h2⟩

theorem parseOptions_stored (name : GoString) (options : List GoString) (r : VmOptions)
    (hm : mapGet r.vmoptions name ≠ []) :
    (parseOptions options r).vmoptions name = r.vmoptions name ∧
    (parseOptions options r).vmoptionsDuplicates name
      = match (options.filter (fun o => decide (getVmoptionName o = name))).getLast? with
        | some last => some (getVmoptionValue last name)
        | none => r.vmoptionsDuplicates name := by
  induction options using List.reverseRecOn with
  | nil => exact ⟨rfl, rfl⟩
  | append_singleton rest o ih =>
    obtain ⟨ih1, ih2⟩ := ih
    rw [parseOptions_append]
    show (parseOption (parseOptions rest r) o).vmoptions name = _ ∧
      (parseOption (parseOptions rest r) o).vmoptionsDuplicates name = _
    have hm' : mapGet (parseOptions rest r).vmoptions name ≠ [] := by
      unfold mapGet at hm ⊢
      rw [ih1]
      exact hm
    by_cases ho : getVmoptionName o = name
    · obtain ⟨h1, h2⟩ := parseOption_duplicate (parseOptions rest r) o name ho hm'
      refine ⟨by rw [h1, ih1], ?_⟩
      rw [h2, List.filter_append]
      simp [ho]
    · obtain ⟨h1, h2⟩ := parseOption_other (parseOptions rest r) o name ho
      refine ⟨h1.trans ih1, ?_⟩
      rw [h2, ih2, List.filter_append]
      simp [ho]

/-- Claim C14.  For every sequence of option lines and every name whose occurrences
in it are `first :: later`: when the value of `first` is not empty,
`MappedOptions[name]` is the value of `first` and, when there is a later occurrence
(k >= 2), `DuplicateOptions[name]` is the value of the last one, whatever the
occurrences in between; and a name that occurs exactly once is not a key of
`DuplicateOptions`. -/
theorem parseVmOptionLines_duplicates (options : List GoString) (name first : GoString)
    (later : List GoString)
    (hocc : options.filter (fun o => decide (getVmoptionName o = name)) = first :: later) :
    (getVmoptionValue first name ≠ [] →
      (parseVmOptionLines options).vmoptions name = some (getVmoptionValue first name) ∧
      ∀ last, later.getLast? = some last →
        (parseVmOptionLines options).vmoptionsDuplicates name
          = some (getVmoptionValue last name)) ∧
    (later = [] → (parseVmOptionLines options).vmoptionsDuplicates name = none) := by
  obtain ⟨pre, rest, hsplit, hpre, hfirst, hrest⟩ := List.filter_eq_cons_iff.1 hocc
  have hpre' : ∀ o ∈ pre, getVmoptionName o ≠ name := fun o ho => by simpa using hpre o ho
  have hfirst' : getVmoptionName first = name := by simpa using hfirst
  -- the state before the first occurrence
  obtain ⟨p1, p2⟩ := parseOptions_no_occurrence name pre hpre'
    { vmoptions := emptyMap, garbageCollectorsInUse := [], vmoptionsDuplicates := emptyMap }
  generalize hr0 : parseOptions pre
    { vmoptions := emptyMap, garbageCollectorsInUse := [], vmoptionsDuplicates := emptyMap }
    = r0 at p1 p2
  have hempty : mapGet r0.vmoptions name = [] := by
    unfold mapGet
    rw [p1]
    rfl
  obtain ⟨f1, f2⟩ := parseOption_first r0 first name hfirst' hempty
  have hrun : parseVmOptionLines options = parseOptions rest (parseOption r0 first) := by
    unfold parseVmOptionLines
    rw [hsplit, parseOptions_append, hr0]
    rfl
  rw [hrun]
  constructor
  · intro hval
    have hm : mapGet (parseOption r0 first).vmoptions name ≠ [] := by
      unfold mapGet
      rw [f1]
      exact hval
    obtain ⟨s1, s2⟩ := parseOptions_stored name rest (parseOption r0 first) hm
    refine ⟨s1.trans f1, ?_⟩
    intro last hlast
    rw [s2, hrest, hlast]
  · intro hlater
    have hnone : ∀ o ∈ rest, getVmoptionName o ≠ name := by
      intro o ho hname
      have : o ∈ rest.filter (fun o => decide (getVmoptionName o = name)) :=
        List.mem_filter.2 ⟨ho, by simpa using hname⟩
      rw [hrest, hlater] at this
      exact absurd this (List.not_mem_nil _)
    obtain ⟨-, n2⟩ := parseOptions_no_occurrence name rest hnone (parseOption r0 first)
    rw [n2, f2, p2]
    rfl

/-- Scenario E of the specification, by `parseVmOptionLines_duplicates`. -/
theorem parseVmOptionLines_duplicates_witness :
    (parseVmOptionLines ["-Xmx1048m".toList, "-Xmx2048m".toList]).vmoptions "-Xmx".toList
      = some "1048m".toList ∧
    (parseVmOptionLines ["-Xmx1048m".toList, "-Xmx2048m".toList]).vmoptionsDuplicates
      "-Xmx".toList = some "2048m".toList :=
  ⟨((parseVmOptionLines_duplicates ["-Xmx1048m".toList, "-Xmx2048m".toList] "-Xmx".toList
      "-Xmx1048m".toList ["-Xmx2048m".toList] (by decide)).1 (by decide)).1,
   ((parseVmOptionLines_duplicates ["-Xmx1048m".toList, "-Xmx2048m".toList] "-Xmx".toList
      "-Xmx1048m".toList ["-Xmx2048m".toList] (by decide)).1 (by decide)).2
      "-Xmx2048m".toList rfl⟩

/-! ## Sample option lines, the collectors, repeated runs -/

/-- Claim C13 fails on the code.  On the option lines `-Dfoo` and `-Dfoo=bar` both
lines have the name `-Dfoo`, the first one with the empty value.
`currentOptionIsDuplicate` takes the empty value of `vmoptions["-Dfoo"]` for an
absent key, so the second line overwrites the first: `MappedOptions["-Dfoo"]` is
`bar`, not the value of the first occurrence, and the second occurrence is not
recorded in `DuplicateOptions`. -/
theorem parseVmOptionLines_empty_first_value :
    getVmoptionName "-Dfoo".toList = "-Dfoo".toList ∧
    getVmoptionValue "-Dfoo".toList "-Dfoo".toList = [] ∧
    getVmoptionName "-Dfoo=bar".toList = "-Dfoo".toList ∧
    getVmoptionValue "-Dfoo=bar".toList "-Dfoo".toList = "bar".toList ∧
    (parseVmOptionLines ["-Dfoo".toList, "-Dfoo=bar".toList]).vmoptions "-Dfoo".toList
      = some "bar".toList ∧
    (parseVmOptionLines ["-Dfoo".toList, "-Dfoo=bar".toList]).vmoptionsDuplicates
      = emptyMap := by
  refine ⟨by rfl, by rfl, by rfl, by rfl, by rfl, by rfl⟩

/-- Claim C18.  For every `F`, the option lines `-XX:+F` and `-XX:-F` have
themselves as name and the values `true` and `false`; the two names differ, and
after the two lines both are keys of `MappedOptions` with these values while
`DuplicateOptions` is empty. -/
theorem booleanOption_name_value (F : GoString) :
    getVmoptionName ("-XX:+".toList ++ F) = "-XX:+".toList ++ F ∧
    getVmoptionValue ("-XX:+".toList ++ F) ("-XX:+".toList ++ F) = "true".toList ∧
    getVmoptionName ("-XX:-".toList ++ F) = "-XX:-".toList ++ F ∧
    getVmoptionValue ("-XX:-".toList ++ F) ("-XX:-".toList ++ F) = "false".toList ∧
    "-XX:+".toList ++ F ≠ "-XX:-".toList ++ F ∧
    (parseVmOptionLines ["-XX:+".toList ++ F, "-XX:-".toList ++ F]).vmoptions
      ("-XX:+".toList ++ F) = some "true".toList ∧
    (parseVmOptionLines ["-XX:+".toList ++ F, "-XX:-".toList ++ F]).vmoptions
      ("-XX:-".toList ++ F) = some "false".toList ∧
    (parseVmOptionLines ["-XX:+".toList ++ F, "-XX:-".toList ++ F]).vmoptionsDuplicates
      = emptyMap := by
  have hp : isBooleanOption ("-XX:+".toList ++ F) = true := by
    simp [isBooleanOption, HasPrefix]
  have hm : isBooleanOption ("-XX:-".toList ++ F) = true := by
    simp [isBooleanOption, HasPrefix]
  have hp2 : isEnabingBooleanOption ("-XX:+".toList ++ F) = (true, true) := by
    simp [isEnabingBooleanOption, HasPrefix]
  have hm2 : isEnabingBooleanOption ("-XX:-".toList ++ F) = (true, false) := by
    simp [isEnabingBooleanOption, HasPrefix]
  have n1 : getVmoptionName ("-XX:+".toList ++ F) = "-XX:+".toList ++ F := by
    unfold getVmoptionName; rw [if_pos hp]
  have n2 : getVmoptionName ("-XX:-".toList ++ F) = "-XX:-".toList ++ F := by
    unfold getVmoptionName; rw [if_pos hm]
  have v1 : ∀ n, getVmoptionValue ("-XX:+".toList ++ F) n = "true".toList := by
    intro n; unfold getVmoptionValue; rw [hp2]; rfl
  have v2 : ∀ n, getVmoptionValue ("-XX:-".toList ++ F) n = "false".toList := by
    intro n; unfold getVmoptionValue; rw [hm2]; rfl
  have hne : "-XX:+".toList ++ F ≠ "-XX:-".toList ++ F := by
    intro h
    have := congrArg (fun l => l.get? 4) h
    simp at this
  -- the two steps of the loop
  have a1 := parseOption_first
    { vmoptions := emptyMap, garbageCollectorsInUse := [], vmoptionsDuplicates := emptyMap }
    ("-XX:+".toList ++ F) _ n1 rfl
  have a2 := parseOption_other
    { vmoptions := emptyMap, garbageCollectorsInUse := [], vmoptionsDuplicates := emptyMap }
    ("-XX:+".toList ++ F) ("-XX:-".toList ++ F) (by rw [n1]; exact hne)
  have hfree : mapGet (parseOption
      { vmoptions := emptyMap, garbageCollectorsInUse := [], vmoptionsDuplicates := emptyMap }
      ("-XX:+".toList ++ F)).vmoptions ("-XX:-".toList ++ F) = [] := by
    unfold mapGet; rw [a2.1]; rfl
  have b1 := parseOption_first _ ("-XX:-".toList ++ F) _ n2 hfree
  have b2 := parseOption_other (parseOption
      { vmoptions := emptyMap, garbageCollectorsInUse := [], vmoptionsDuplicates := emptyMap }
      ("-XX:+".toList ++ F)) ("-XX:-".toList ++ F) ("-XX:+".toList ++ F)
    (by rw [n2]; exact fun h => hne h.symm)
  refine ⟨n1, v1 _, n2, v2 _, hne, ?_, ?_, ?_⟩
  · show (parseOption (parseOption _ _) _).vmoptions _ = _
    rw [b2.1, a1.1, v1]
  · show (parseOption (parseOption _ _) _).vmoptions _ = _
    rw [b1.1, v2]
  · show (parseOption (parseOption _ _) _).vmoptionsDuplicates = _
    rw [b1.2, a1.2]

/-- Claim C19 fails on the code.  `listOfPossibleGarbageCollectors` holds
`XX:+UseEpsilonGC` without the leading dash, so the option line
`-XX:+UseEpsilonGC` equals none of its elements and is not appended to
`garbageCollectorsInUse`: a file with `-XX:+UseG1GC` and `-XX:+UseEpsilonGC` yields
the single collector `-XX:+UseG1GC`. -/
theorem ParseVmOptionsFile_epsilonGC :
    vmOptionsFileToSliceOfStrings "-XX:+UseG1GC\n-XX:+UseEpsilonGC\n".toList
      = ["-XX:+UseG1GC".toList, "-XX:+UseEpsilonGC".toList] ∧
    (ParseVmOptionsFile "-XX:+UseG1GC\n-XX:+UseEpsilonGC\n".toList).garbageCollectorsInUse
      = ["-XX:+UseG1GC".toList] ∧
    (parseVmOptionLines ["-XX:+UseEpsilonGC".toList]).garbageCollectorsInUse = [] ∧
    "-XX:+UseEpsilonGC".toList ∉ listOfPossibleGarbageCollectors := by
  refine ⟨by rfl, by rfl, by rfl, by decide⟩

theorem gcListLoop_eq (gcs : List GoString) (gclist : GoString) :
    gcListLoop gcs gclist = gclist ++ (gcs.map (fun gc => "\n\t".toList ++ gc)).flatten := by
  induction gcs generalizing gclist with
  | nil => simp [gcListLoop]
  | cons gc rest ih =>
    rw [gcListLoop, ih]
    simp

/-- Claim C20.  `checkIfMoreThanOneGcInUse` returns an error if and only if the
list has at least 2 elements, and then the message is
`More than one Garbage Collector in use: ` followed by every element in order, each
preceded by a line feed and a tab; two occurrences of one flag count as two; on the
two flags of Scenario C the message lists both. -/
theorem checkIfMoreThanOneGcInUse_message (garbageCollectorsInUse : List GoString) :
    checkIfMoreThanOneGcInUse garbageCollectorsInUse
      = (if 2 ≤ garbageCollectorsInUse.length then
          some ("More than one Garbage Collector in use: ".toList ++
            (garbageCollectorsInUse.map (fun gc => "\n\t".toList ++ gc)).flatten)
         else none) ∧
    ((∃ msg, checkIfMoreThanOneGcInUse garbageCollectorsInUse = some msg) ↔
      2 ≤ garbageCollectorsInUse.length) ∧
    (∀ gc, checkIfMoreThanOneGcInUse [gc, gc]
      = some ("More than one Garbage Collector in use: ".toList ++
          ("\n\t".toList ++ gc ++ ("\n\t".toList ++ gc)))) ∧
    checkIfMoreThanOneGcInUse ["-XX:+UseG1GC".toList, "-XX:+UseZGC".toList]
      = some "More than one Garbage Collector in use: \n\t-XX:+UseG1GC\n\t-XX:+UseZGC".toList := by
  have hmain : checkIfMoreThanOneGcInUse garbageCollectorsInUse
      = (if 2 ≤ garbageCollectorsInUse.length then
          some ("More than one Garbage Collector in use: ".toList ++
            (garbageCollectorsInUse.map (fun gc => "\n\t".toList ++ gc)).flatten)
         else none) := by
    unfold checkIfMoreThanOneGcInUse
    by_cases h : garbageCollectorsInUse.length > 1
    · rw [if_pos h, if_pos (by omega), gcListLoop_eq]
      simp
    · rw [if_neg h, if_neg (by omega)]
  refine ⟨hmain, ?_, ?_, by rfl⟩
  · rw [hmain]
    by_cases h : 2 ≤ garbageCollectorsInUse.length
    · rw [if_pos h]
      exact ⟨fun _ => h, fun _ => ⟨_, rfl⟩⟩
    · rw [if_neg h]
      constructor
      · rintro ⟨msg, hmsg⟩
        cases hmsg
      · intro h2
        exact absurd h2 h
  · intro gc
    unfold checkIfMoreThanOneGcInUse
    rw [if_pos (by simp), gcListLoop_eq]
    simp

/-- Claim C12 fails on the code.  `logEntriesWithExceptions` is a package-level
variable that `ParseIdeaLogFile` never resets.  A first run on `errorInfoLog`
leaves the exception list `[errorEntry]`; a second run on the same file, which
starts with that list, returns the same entries but leaves
`[errorEntry, errorEntry]`, which is not the list left by a single run. -/
theorem ParseIdeaLogFile_twice :
    ParseIdeaLogFile [] [] [] errorInfoLog
      = some ⟨[errorEntry, infoEntry], [errorEntry], []⟩ ∧
    ParseIdeaLogFile [] [errorEntry] [] errorInfoLog
      = some ⟨[errorEntry, infoEntry], [errorEntry, errorEntry], []⟩ ∧
    [errorEntry, errorEntry] ≠ [errorEntry] := by
  refine ⟨ParseIdeaLogFile_errorInfoLog, by rfl, by simp⟩

/-! ## Name and value of an option -/

theorem HasPrefix_single (c d : Char) (cs : GoString) :
    HasPrefix (c :: cs) [d] = decide (d = c) := by
  by_cases h : d = c <;> simp [HasPrefix, List.isPrefixOf, h]

theorem Index_single_not_mem (s : GoString) (d : Char) (h : d ∉ s) : Index s [d] = -1 := by
  induction s with
  | nil => simp [Index]
  | cons c cs ih =>
    have hc : ¬ d = c := fun e => h (e ▸ List.mem_cons_self _ _)
    have ih := ih (fun hm => h (List.mem_cons_of_mem _ hm))
    rw [Index, HasPrefix_single]
    simp [hc, ih]

theorem Index_single_mem (s : GoString) (d : Char) (h : d ∈ s) :
    Index s [d] = ((s.takeWhile (fun c => !decide (c = d))).length : Int) := by
  induction s with
  | nil => exact absurd h (List.not_mem_nil _)
  | cons c cs ih =>
    rw [Index, HasPrefix_single]
    by_cases hc : d = c
    · subst hc
      simp [List.takeWhile]
    · have hc' : ¬ c = d := fun e => hc e.symm
      have hmem : d ∈ cs := by
        rcases List.mem_cons.1 h with h1 | h1
        · exact absurd h1 hc
        · exact h1
      have ih := ih hmem
      have hne : Index cs [d] ≠ -1 := by
        rw [ih]
        omega
      simp only [hc, decide_False, Bool.false_eq_true, if_false, hne]
      rw [ih]
      simp [List.takeWhile, hc']

theorem take_length_takeWhile (s : GoString) (p : Char → Bool) :
    s.take (s.takeWhile p).length = s.takeWhile p :=
  (List.prefix_iff_eq_take.1 (List.takeWhile_prefix p)).symm

theorem getVmoptionName_cases (option : GoString)
    (hx : (HasPrefix option "-Xmx".toList || HasPrefix option "-Xms".toList ||
      HasPrefix option "-Xmn".toList) = false)
    (hb : isBooleanOption option = false) :
    getVmoptionName option =
      if '=' ∈ option then option.takeWhile (fun c => !decide (c = '='))
      else if ':' ∈ option then option.takeWhile (fun c => !decide (c = ':'))
      else if ' ' ∈ option then option.takeWhile (fun c => !decide (c = ' '))
      else option := by
  unfold getVmoptionName findDelimiterPositionOfVmoption
  rw [hb, hx]
  simp only [Bool.false_eq_true, if_false, vmoptionsDelimeters]
  have e1 : "=".toList = ['='] := rfl
  have e2 : ":".toList = [':'] := rfl
  have e3 : " ".toList = [' '] := rfl
  rw [e1, e2, e3]
  by_cases h1 : '=' ∈ option
  · have i1 := Index_single_mem option '=' h1
    have n1 : Index option ['='] ≠ -1 := by rw [i1]; omega
    rw [if_pos h1]
    simp only [findDelimiterLoop, n1, ne_eq, not_false_eq_true, if_true, if_false]
    rw [i1, Int.toNat_ofNat, take_length_takeWhile]
  · have i1 := Index_single_not_mem option '=' h1
    rw [if_neg h1]
    by_cases h2 : ':' ∈ option
    · have i2 := Index_single_mem option ':' h2
      have n2 : Index option [':'] ≠ -1 := by rw [i2]; omega
      rw [if_pos h2]
      simp only [findDelimiterLoop, i1, n2, ne_eq, not_true_eq_false, not_false_eq_true,
        if_true, if_false]
      rw [i2, Int.toNat_ofNat, take_length_takeWhile]
    · have i2 := Index_single_not_mem option ':' h2
      rw [if_neg h2]
      by_cases h3 : ' ' ∈ option
      · have i3 := Index_single_mem option ' ' h3
        have n3 : Index option [' '] ≠ -1 := by rw [i3]; omega
        rw [if_pos h3]
        simp only [findDelimiterLoop, i1, i2, n3, ne_eq, not_true_eq_false,
          not_false_eq_true, if_true, if_false]
        rw [i3, Int.toNat_ofNat, take_length_takeWhile]
      · have i3 := Index_single_not_mem option ' ' h3
        rw [if_neg h3]
        simp only [findDelimiterLoop, i1, i2, i3, ne_eq, not_true_eq_false, if_true, if_false]

theorem dropWhile_eq_self_of_head (p : Char → Bool) (l : GoString)
    (h : ∀ c, l.head? = some c → p c = false) : l.dropWhile p = l := by
  cases l with
  | nil => rfl
  | cons a l => simp [List.dropWhile, h a rfl]

theorem TrimSpace_head (s : GoString) (c : Char) (h : (TrimSpace s).head? = some c) :
    isSpace c = false := by
  unfold TrimSpace at h
  have hpre : (s.dropWhile isSpace).rdropWhile isSpace <+: s.dropWhile isSpace :=
    List.rdropWhile_prefix _ _
  obtain ⟨ys, hys⟩ := List.head?_eq_some_iff.1 h
  rw [hys] at hpre
  obtain ⟨t, ht⟩ := hpre
  have hh : (s.dropWhile isSpace).head? = some c := by rw [← ht]; rfl
  have := List.head?_dropWhile_not isSpace s
  rw [hh] at this
  simpa using this

theorem TrimSpace_idem (s : GoString) : TrimSpace (TrimSpace s) = TrimSpace s := by
  have h1 : (TrimSpace s).dropWhile isSpace = TrimSpace s :=
    dropWhile_eq_self_of_head _ _ (TrimSpace_head s)
  have h2 : (TrimSpace s).rdropWhile isSpace = TrimSpace s := by
    unfold TrimSpace
    exact List.rdropWhile_idempotent _ _
  show ((TrimSpace s).dropWhile isSpace).rdropWhile isSpace = TrimSpace s
  rw [h1, h2]

theorem TrimPrefix_not_head (s : GoString) (d : Char) (h : s.head? ≠ some d) :
    TrimPrefix s [d] = s := by
  unfold TrimPrefix
  cases s with
  | nil => simp [HasPrefix, List.isPrefixOf]
  | cons c cs =>
    have hc : ¬ d = c := fun e => h (by simp [e])
    rw [HasPrefix_single]
    simp [hc]

theorem TrimPrefix_head (d : Char) (rest : GoString) : TrimPrefix (d :: rest) [d] = rest := by
  unfold TrimPrefix
  rw [HasPrefix_single]
  simp

theorem TrimSpace_cons_space (c : Char) (s : GoString) (h : isSpace c = true) :
    TrimSpace (c :: s) = TrimSpace s := by
  simp [TrimSpace, List.dropWhile, h]

theorem TrimSpace_cons_not_space (c : Char) (s : GoString) (h : isSpace c = false) :
    TrimSpace (c :: s) = c :: s.rdropWhile isSpace := by
  have h' : ¬ isSpace c = true := by simp [h]
  unfold TrimSpace
  have : (c :: s).dropWhile isSpace = c :: s := by simp [List.dropWhile, h]
  rw [this]
  exact rdropWhile_append_cons_neg isSpace [] s c h'

theorem rdropWhile_cons_pos (p : Char → Bool) (a : Char) (l : GoString) (h : p a = true) :
    ((a :: l).rdropWhile p).dropWhile p = (l.rdropWhile p).dropWhile p := by
  by_cases hall : ∀ x ∈ l, p x = true
  · have e1 : (a :: l).rdropWhile p = [] :=
      List.rdropWhile_eq_nil_iff.2 (fun x hx => by
        rcases List.mem_cons.1 hx with rfl | hx
        · exact h
        · exact hall x hx)
    have e2 : l.rdropWhile p = [] := List.rdropWhile_eq_nil_iff.2 hall
    rw [e1, e2]
  · -- some element of `l` stays: split `l` at its last element that fails `p`
    have hne : l.rdropWhile p ≠ [] := fun e => hall (List.rdropWhile_eq_nil_iff.1 e)
    obtain ⟨ys, b, hyb⟩ : ∃ ys b, l.rdropWhile p = ys ++ [b] := by
      rcases List.eq_nil_or_concat (l.rdropWhile p) with e | ⟨ys, b, e⟩
      · exact absurd e hne
      · exact ⟨ys, b, by rw [e, List.concat_eq_append]⟩
    have hb : ¬ p b = true := by
      have := List.rdropWhile_last_not p l hne
      simp only [hyb] at this
      simpa using this
    obtain ⟨t, ht⟩ := List.rdropWhile_prefix p l
    have ht' : ∀ x ∈ t, p x = true := by
      -- the dropped part satisfies `p`
      have e : (l.rdropWhile p ++ t).rdropWhile p = l.rdropWhile p := by rw [ht]
      rw [hyb, List.append_assoc, List.singleton_append,
        rdropWhile_append_cons_neg p ys t b hb] at e
      have e' : t.rdropWhile p = [] := by
        have := List.append_cancel_left e
        simpa using this
      exact List.rdropWhile_eq_nil_iff.1 e'
    have e3 : (a :: l).rdropWhile p = a :: l.rdropWhile p := by
      conv_lhs => rw [← ht, hyb]
      have : a :: (ys ++ [b] ++ t) = (a :: ys) ++ b :: t := by simp
      rw [this, rdropWhile_append_cons_neg p (a :: ys) t b hb,
        List.rdropWhile_eq_nil_iff.2 ht']
      simp [hyb]
    rw [e3]
    simp [List.dropWhile, h]

theorem dropWhile_rdropWhile_comm (p : Char → Bool) (l : GoString) :
    (l.rdropWhile p).dropWhile p = (l.dropWhile p).rdropWhile p := by
  induction l with
  | nil => simp [List.rdropWhile]
  | cons a l ih =>
    by_cases h : p a = true
    · rw [rdropWhile_cons_pos p a l h, ih]
      simp [List.dropWhile, h]
    · have e1 : (a :: l).rdropWhile p = a :: l.rdropWhile p :=
        rdropWhile_append_cons_neg p [] l a h
      have e2 : (a :: l).dropWhile p = a :: l := by simp [List.dropWhile, h]
      rw [e1, e2, e1]
      simp [List.dropWhile, h]

theorem TrimSpace_rdropWhile (s : GoString) :
    TrimSpace (s.rdropWhile isSpace) = TrimSpace s := by
  unfold TrimSpace
  rw [dropWhile_rdropWhile_comm, List.rdropWhile_idempotent]

theorem stripDelimiters_eq (s : GoString) :
    stripDelimiters s vmoptionsDelimeters
      = TrimSpace (TrimPrefix (TrimSpace (TrimPrefix s ['='])) [':']) := by
  have e1 : "=".toList = ['='] := rfl
  have e2 : ":".toList = [':'] := rfl
  have e3 : " ".toList = [' '] := rfl
  simp only [vmoptionsDelimeters, stripDelimiters, e1, e2, e3]
  have hsp : (TrimSpace (TrimPrefix (TrimSpace (TrimPrefix s ['='])) [':'])).head? ≠ some ' ' := by
    intro h
    have := TrimSpace_head _ _ h
    exact absurd this (by decide)
  rw [TrimPrefix_not_head _ _ hsp, TrimSpace_idem]

theorem TrimPrefix_append (p r : GoString) : TrimPrefix (p ++ r) p = r := by
  unfold TrimPrefix HasPrefix
  rw [if_pos]
  · exact List.drop_left _ _
  · rw [List.isPrefixOf_iff_prefix]
    exact List.prefix_append _ _

theorem TrimSpace_eq_self_head (s : GoString) (d : Char) (hd : isSpace d = true)
    (h : TrimSpace s = s) : s.head? ≠ some d := by
  intro hh
  rw [← h] at hh
  have := TrimSpace_head s d hh
  rw [hd] at this
  cases this

theorem dropWhile_ne_eq_cons (s : GoString) (d : Char) (h : d ∈ s) :
    ∃ rest, s.dropWhile (fun c => !decide (c = d)) = d :: rest := by
  induction s with
  | nil => exact absurd h (List.not_mem_nil _)
  | cons c cs ih =>
    by_cases hc : c = d
    · exact ⟨cs, by simp [List.dropWhile, hc]⟩
    · have hmem : d ∈ cs := by
        rcases List.mem_cons.1 h with h1 | h1
        · exact absurd h1.symm hc
        · exact h1
      obtain ⟨rest, hr⟩ := ih hmem
      exact ⟨rest, by simp [List.dropWhile, hc, hr]⟩

theorem drop_length_takeWhile (s : GoString) (p : Char → Bool) :
    s.drop (s.takeWhile p).length = s.dropWhile p := by
  have := List.drop_left (s.takeWhile p) (s.dropWhile p)
  rwa [List.takeWhile_append_dropWhile] at this

theorem isEnabingBooleanOption_of_not_boolean (option : GoString)
    (hb : isBooleanOption option = false) :
    isEnabingBooleanOption option = (false, false) := by
  unfold isBooleanOption at hb
  unfold isEnabingBooleanOption
  generalize HasPrefix option "-XX:+".toList = a at hb ⊢
  generalize HasPrefix option "-XX:-".toList = b at hb ⊢
  cases a <;> cases b <;> simp_all

/-- Claim C16.  For every option line that is neither a `-Xmx`, `-Xms` or `-Xmn`
line nor a `-XX:+` or `-XX:-` toggle, `getVmoptionName` returns the text before the
first `=` if the line has one; otherwise the text before the first `:` if it has
one; otherwise the text before the first blank if it has one; otherwise the whole
line.  (That the line starts with a dash is not needed.) -/
theorem getVmoptionName_delimiter (option : GoString)
    (hx : (HasPrefix option "-Xmx".toList || HasPrefix option "-Xms".toList ||
      HasPrefix option "-Xmn".toList) = false)
    (hb : isBooleanOption option = false) :
    ('=' ∈ option → getVmoptionName option = option.takeWhile (fun c => !decide (c = '='))) ∧
    ('=' ∉ option → ':' ∈ option →
      getVmoptionName option = option.takeWhile (fun c => !decide (c = ':'))) ∧
    ('=' ∉ option → ':' ∉ option → ' ' ∈ option →
      getVmoptionName option = option.takeWhile (fun c => !decide (c = ' '))) ∧
    ('=' ∉ option → ':' ∉ option → ' ' ∉ option → getVmoptionName option = option) := by
  rw [getVmoptionName_cases option hx hb]
  refine ⟨?_, ?_, ?_, ?_⟩
  · intro h1; rw [if_pos h1]
  · intro h1 h2; rw [if_neg h1, if_pos h2]
  · intro h1 h2 h3; rw [if_neg h1, if_neg h2, if_pos h3]
  · intro h1 h2 h3; rw [if_neg h1, if_neg h2, if_neg h3]

/-- The example of the claim, by `getVmoptionName_delimiter`. -/
theorem getVmoptionName_delimiter_witness :
    getVmoptionName "-Dfoo:bar=baz".toList = "-Dfoo:bar".toList :=
  (getVmoptionName_delimiter "-Dfoo:bar=baz".toList (by decide) (by decide)).1 (by decide)

theorem getVmoptionValue_not_boolean (option name : GoString)
    (hb : isBooleanOption option = false) :
    getVmoptionValue option name
      = TrimSpace (TrimPrefix (TrimSpace (TrimPrefix (TrimPrefix option name) ['='])) [':']) := by
  unfold getVmoptionValue
  rw [isEnabingBooleanOption_of_not_boolean option hb]
  exact stripDelimiters_eq _

/-- Claim C15, as amended.  For every option line `P ++ R` with `P` one of `-Xmx`,
`-Xms`, `-Xmn`, `getVmoptionName` returns exactly `P`, and `getVmoptionValue`
returns `R` after the loop over the delimiters: a leading `=` removed, white space
trimmed, a leading `:` removed, white space trimmed.  It returns exactly `R` when
`R` has no surrounding white space and starts with neither `=` nor `:`. -/
theorem memoryOption_name_value (P R : GoString)
    (hP : P = "-Xmx".toList ∨ P = "-Xms".toList ∨ P = "-Xmn".toList) :
    getVmoptionName (P ++ R) = P ∧
    getVmoptionValue (P ++ R) P
      = TrimSpace (TrimPrefix (TrimSpace (TrimPrefix R ['='])) [':']) ∧
    (TrimSpace R = R → R.head? ≠ some '=' → R.head? ≠ some ':' →
      getVmoptionValue (P ++ R) P = R) := by
  have hb : isBooleanOption (P ++ R) = false := by
    rcases hP with rfl | rfl | rfl <;> simp [isBooleanOption, HasPrefix]
  have hx : (HasPrefix (P ++ R) "-Xmx".toList || HasPrefix (P ++ R) "-Xms".toList ||
      HasPrefix (P ++ R) "-Xmn".toList) = true := by
    rcases hP with rfl | rfl | rfl <;> simp [HasPrefix]
  have hname : getVmoptionName (P ++ R) = P := by
    unfold getVmoptionName findDelimiterPositionOfVmoption
    rw [hb, hx]
    have hlen : P.length = 4 := by rcases hP with rfl | rfl | rfl <;> rfl
    simp only [Bool.false_eq_true, if_false, if_true]
    have : (4 : Int).toNat = P.length := by rw [hlen]; rfl
    rw [if_neg (by decide), this, List.take_left]
  have hval := getVmoptionValue_not_boolean (P ++ R) P hb
  rw [TrimPrefix_append] at hval
  refine ⟨hname, hval, ?_⟩
  intro hR h1 h2
  rw [hval, TrimPrefix_not_head R '=' h1, hR, TrimPrefix_not_head R ':' h2, hR]

/-- The first line of Scenario E, by `memoryOption_name_value`. -/
theorem memoryOption_name_value_witness :
    getVmoptionName "-Xmx1048m".toList = "-Xmx".toList ∧
    getVmoptionValue "-Xmx1048m".toList "-Xmx".toList = "1048m".toList :=
  ⟨(memoryOption_name_value "-Xmx".toList "1048m".toList (Or.inl rfl)).1,
   (memoryOption_name_value "-Xmx".toList "1048m".toList (Or.inl rfl)).2.2
     (by decide) (by decide) (by decide)⟩

/-- Claim C15 fails as stated.  For the line `-Xmx=2g` the name is `-Xmx` and the
rest of the line is `=2g`, but the value is `2g`; for `-Xmx 2g ` the value is not
the rest ` 2g ` either. -/
theorem memoryOption_value_stripped :
    getVmoptionName ("-Xmx".toList ++ "=2g".toList) = "-Xmx".toList ∧
    getVmoptionValue ("-Xmx".toList ++ "=2g".toList) "-Xmx".toList = "2g".toList ∧
    getVmoptionValue ("-Xmx".toList ++ "=2g".toList) "-Xmx".toList ≠ "=2g".toList ∧
    getVmoptionValue ("-Xmx".toList ++ " 2g ".toList) "-Xmx".toList ≠ " 2g ".toList := by
  refine ⟨by rfl, by rfl, by decide, by decide⟩

/-- Claim C17, as amended.  For every option line that is neither a `-Xmx`, `-Xms`
or `-Xmn` line nor a toggle: the line is its name followed by a remainder; without
delimiter the value is empty; otherwise the remainder starts with the matched
delimiter `d` and the value is the rest behind `d` with surrounding white space
trimmed, except that when `d` is `=` and the trimmed rest starts with `:`, this `:`
is removed as well and the result trimmed again. -/
theorem getVmoptionValue_delimiter (option : GoString)
    (hx : (HasPrefix option "-Xmx".toList || HasPrefix option "-Xms".toList ||
      HasPrefix option "-Xmn".toList) = false)
    (hb : isBooleanOption option = false) :
    option = getVmoptionName option ++ option.drop (getVmoptionName option).length ∧
    ('=' ∉ option → ':' ∉ option → ' ' ∉ option →
      getVmoptionValue option (getVmoptionName option) = []) ∧
    (∀ d rest, option.drop (getVmoptionName option).length = d :: rest →
      (d = '=' ∨ d = ':' ∨ d = ' ') ∧
      getVmoptionValue option (getVmoptionName option)
        = if d = '=' ∧ (TrimSpace rest).head? = some ':' then TrimSpace (TrimSpace rest).tail
          else TrimSpace rest) := by
  have hval := getVmoptionValue_not_boolean option (getVmoptionName option) hb
  have hname := getVmoptionName_cases option hx hb
  -- the name is a prefix of the line
  have key : ∀ (p : Char → Bool), getVmoptionName option = option.takeWhile p →
      option = getVmoptionName option ++ option.drop (getVmoptionName option).length ∧
      TrimPrefix option (getVmoptionName option) = option.dropWhile p ∧
      option.drop (getVmoptionName option).length = option.dropWhile p := by
    intro p hp
    have hd := drop_length_takeWhile option p
    rw [← hp] at hd
    refine ⟨by rw [hd, hp, List.takeWhile_append_dropWhile], ?_, hd⟩
    have := TrimPrefix_append (option.takeWhile p) (option.dropWhile p)
    rw [List.takeWhile_append_dropWhile, ← hp] at this
    exact this
  by_cases h1 : '=' ∈ option
  · rw [if_pos h1] at hname
    obtain ⟨k1, k2, k3⟩ := key _ hname
    obtain ⟨rest0, hr⟩ := dropWhile_ne_eq_cons option '=' h1
    refine ⟨k1, fun h => absurd h1 h, ?_⟩
    intro d rest hrem
    rw [k3, hr] at hrem
    obtain ⟨rfl, rfl⟩ := List.cons.inj hrem
    refine ⟨Or.inl rfl, ?_⟩
    rw [hval, k2, hr, TrimPrefix_head]
    by_cases hc : (TrimSpace rest0).head? = some ':'
    · rw [if_pos ⟨rfl, hc⟩]
      obtain ⟨t, ht⟩ := List.head?_eq_some_iff.1 hc
      rw [ht, TrimPrefix_head]
      rfl
    · rw [if_neg (fun h => hc h.2), TrimPrefix_not_head _ _ hc, TrimSpace_idem]
  · rw [if_neg h1] at hname
    by_cases h2 : ':' ∈ option
    · rw [if_pos h2] at hname
      obtain ⟨k1, k2, k3⟩ := key _ hname
      obtain ⟨rest0, hr⟩ := dropWhile_ne_eq_cons option ':' h2
      refine ⟨k1, fun _ h => absurd h2 h, ?_⟩
      intro d rest hrem
      rw [k3, hr] at hrem
      obtain ⟨rfl, rfl⟩ := List.cons.inj hrem
      refine ⟨Or.inr (Or.inl rfl), ?_⟩
      rw [if_neg (fun h => absurd h.1 (by decide))]
      rw [hval, k2, hr, TrimPrefix_not_head (':' :: rest0) '=' (by simp),
        TrimSpace_cons_not_space ':' rest0 (by decide), TrimPrefix_head, TrimSpace_rdropWhile]
    · rw [if_neg h2] at hname
      by_cases h3 : ' ' ∈ option
      · rw [if_pos h3] at hname
        obtain ⟨k1, k2, k3⟩ := key _ hname
        obtain ⟨rest0, hr⟩ := dropWhile_ne_eq_cons option ' ' h3
        refine ⟨k1, fun _ _ h => absurd h3 h, ?_⟩
        intro d rest hrem
        rw [k3, hr] at hrem
        obtain ⟨rfl, rfl⟩ := List.cons.inj hrem
        refine ⟨Or.inr (Or.inr rfl), ?_⟩
        rw [if_neg (fun h => absurd h.1 (by decide))]
        have hcolon : (TrimSpace rest0).head? ≠ some ':' := by
          intro hh
          have hm : ':' ∈ TrimSpace rest0 := List.mem_of_mem_head? hh
          have hm2 : ':' ∈ rest0 := (TrimSpace_sublist rest0).subset hm
          have hm3 : ':' ∈ option.dropWhile (fun c => !decide (c = ' ')) := by
            rw [hr]; exact List.mem_cons_of_mem _ hm2
          exact h2 ((List.dropWhile_suffix _).subset hm3)
        rw [hval, k2, hr, TrimPrefix_not_head (' ' :: rest0) '=' (by simp),
          TrimSpace_cons_space ' ' rest0 (by decide), TrimPrefix_not_head _ _ hcolon,
          TrimSpace_idem]
      · rw [if_neg h3] at hname
        have hdrop : option.drop (getVmoptionName option).length = [] := by
          rw [hname]; simp
        refine ⟨by rw [hdrop, hname]; simp, ?_, ?_⟩
        · intro _ _ _
          rw [hval]
          have : TrimPrefix option (getVmoptionName option) = [] := by
            have := TrimPrefix_append option []
            rw [List.append_nil] at this
            rw [hname]
            exact this
          rw [this]
          decide
        · intro d rest hrem
          rw [hdrop] at hrem
          cases hrem

/-- The lines `-Dkey=:v` and `-Dfoo: bar `, by `getVmoptionValue_delimiter`. -/
theorem getVmoptionValue_delimiter_witness :
    getVmoptionValue "-Dkey=:v".toList (getVmoptionName "-Dkey=:v".toList) = "v".toList ∧
    getVmoptionValue "-Dfoo: bar ".toList (getVmoptionName "-Dfoo: bar ".toList)
      = "bar".toList :=
  ⟨((getVmoptionValue_delimiter "-Dkey=:v".toList (by decide) (by decide)).2.2
      '=' ":v".toList (by decide)).2,
   ((getVmoptionValue_delimiter "-Dfoo: bar ".toList (by decide) (by decide)).2.2
      ':' " bar ".toList (by decide)).2⟩

/-- Claim C17 fails as stated.  For the line `-Dkey=:v`, which is neither a memory
option nor a toggle, the matched delimiter is the `=` at position 5 and the name is
`-Dkey`; the value is `v`, not `:v`: the `:` behind the matched delimiter is dropped
too. -/
theorem getVmoptionValue_second_delimiter :
    isBooleanOption "-Dkey=:v".toList = false ∧
    findDelimiterPositionOfVmoption "-Dkey=:v".toList = 5 ∧
    getVmoptionName "-Dkey=:v".toList = "-Dkey".toList ∧
    getVmoptionValue "-Dkey=:v".toList "-Dkey".toList = "v".toList ∧
    getVmoptionValue "-Dkey=:v".toList "-Dkey".toList ≠ ":v".toList := by
  refine ⟨by rfl, by rfl, by rfl, by rfl, by decide⟩

/-! ## A well-formed header line -/

theorem matchClasses_append (ps : List (Char → Bool)) (a b : GoString)
    (h : matchClasses ps a = true) : matchClasses ps (a ++ b) = true := by
  induction ps generalizing a with
  | nil => cases a <;> rfl
  | cons p ps ih =>
    cases a with
    | nil => simp [matchClasses] at h
    | cons c cs =>
      simp only [matchClasses, Bool.and_eq_true, List.cons_append] at h ⊢
      exact ⟨h.1, ih cs h.2⟩

theorem getTimeStampFromString_append (TS rest : GoString)
    (hTS : matchClasses timeStampClasses TS = true) (hlen : TS.length = 23) :
    getTimeStampFromString (TS ++ rest) = TS := by
  unfold getTimeStampFromString
  rw [if_pos (matchClasses_append _ _ _ hTS)]
  have : timeStampClasses.length = TS.length := by rw [hlen]; rfl
  rw [this, List.take_left]

theorem dropWhile_append_all (p : Char → Bool) (L Y : GoString) (h : ∀ c ∈ L, p c = true) :
    (L ++ Y).dropWhile p = Y.dropWhile p := by
  induction L with
  | nil => rfl
  | cons a L ih =>
    have ha := h a (List.mem_cons_self _ _)
    simp only [List.cons_append, List.dropWhile, ha]
    exact ih (fun c hc => h c (List.mem_cons_of_mem _ hc))

theorem rdropWhile_append_all (p : Char → Bool) (Y T : GoString) (h : ∀ c ∈ T, p c = true) :
    (Y ++ T).rdropWhile p = Y.rdropWhile p := by
  induction T using List.reverseRecOn with
  | nil => simp
  | append_singleton T b ih =>
    rw [← List.append_assoc, List.rdropWhile_concat_pos _ _ _ (h b (by simp))]
    exact ih (fun c hc => h c (by simp [hc]))

/-- Trimming a text that is padded with white space on both sides. -/
theorem TrimSpace_pad (L s T : GoString) (hL : ∀ c ∈ L, isSpace c = true)
    (hT : ∀ c ∈ T, isSpace c = true) (hs : TrimSpace s = s) :
    TrimSpace (L ++ s ++ T) = s := by
  obtain ⟨h1, h2⟩ := TrimSpace_fixed s hs
  unfold TrimSpace
  rw [List.append_assoc, dropWhile_append_all _ _ _ hL]
  cases s with
  | nil =>
    have : ([] ++ T).dropWhile isSpace = [] := by
      simpa using List.dropWhile_eq_nil_iff.2 hT
    rw [this]
    rfl
  | cons a s =>
    have ha : isSpace a = false := by
      by_contra hc
      have hc' : isSpace a = true := by simpa using hc
      have : (a :: s).dropWhile isSpace = s.dropWhile isSpace := by
        simp [List.dropWhile, hc']
      rw [this] at h1
      have := (List.dropWhile_suffix isSpace (l := s)).length_le
      rw [h1] at this
      simp at this
    have : ((a :: s) ++ T).dropWhile isSpace = (a :: s) ++ T := by
      simp [List.dropWhile, ha]
    rw [this, rdropWhile_append_all _ _ _ hT, h2]

/-- A text that starts and ends with a character that is not white space is
trimmed. -/
theorem TrimSpace_join (X H : GoString) (hX : TrimSpace X = X) (hXne : X ≠ [])
    (hH : TrimSpace H = H) (hHne : H ≠ []) (M : GoString) :
    TrimSpace (X ++ M ++ H) = X ++ M ++ H := by
  obtain ⟨x1, -⟩ := TrimSpace_fixed X hX
  obtain ⟨-, h2⟩ := TrimSpace_fixed H hH
  unfold TrimSpace
  obtain ⟨a, X', rfl⟩ := List.exists_cons_of_ne_nil hXne
  have ha : isSpace a = false := by
    by_contra hc
    have hc' : isSpace a = true := by simpa using hc
    have : (a :: X').dropWhile isSpace = X'.dropWhile isSpace := by
      simp [List.dropWhile, hc']
    rw [this] at x1
    have := (List.dropWhile_suffix isSpace (l := X')).length_le
    rw [x1] at this
    simp at this
  have e1 : ((a :: X') ++ M ++ H).dropWhile isSpace = (a :: X') ++ M ++ H := by
    simp [List.dropWhile, ha]
  rw [e1]
  rcases List.eq_nil_or_concat H with e | ⟨H', b, e⟩
  · exact absurd e hHne
  · rw [List.concat_eq_append] at e
    subst e
    have hb : ¬ isSpace b = true := by
      have := (List.rdropWhile_eq_self_iff (p := isSpace) (l := H' ++ [b])).1 h2 (by simp)
      simpa using this
    rw [← List.append_assoc, List.rdropWhile_concat_neg _ _ _ hb]

theorem matchBracketRest_closed (E rest : GoString) (h1 : ']' ∉ E) (h2 : '\n' ∉ E) :
    matchBracketRest (E ++ ']' :: rest) = some (E ++ [']']) := by
  induction E with
  | nil => simp [matchBracketRest]
  | cons c E ih =>
    have hc1 : c ≠ ']' := fun e => h1 (e ▸ List.mem_cons_self _ _)
    have hc2 : c ≠ '\n' := fun e => h2 (e ▸ List.mem_cons_self _ _)
    have ih := ih (fun hm => h1 (List.mem_cons_of_mem _ hm))
      (fun hm => h2 (List.mem_cons_of_mem _ hm))
    simp [matchBracketRest, hc1, hc2, ih]

theorem firstSeverity_mem (SEV rest : GoString) (h : SEV ∈ severities) :
    firstSeverity (SEV ++ rest) severities = SEV := by
  simp only [severities, List.mem_cons, List.mem_singleton, List.not_mem_nil, or_false] at h
  rcases h with rfl | rfl | rfl | rfl <;> simp [firstSeverity, severities, HasPrefix]

theorem byteLen_ge_length (s : GoString) : s.length ≤ byteLen s := by
  induction s with
  | nil => simp [byteLen]
  | cons c cs ih =>
    have := Char.utf8Size_pos c
    simp only [byteLen, List.length_cons]
    omega

theorem isSpace_of_isDigit (c : Char) (h : c.isDigit = true) : isSpace c = false := by
  have h1 : 48 ≤ c.toNat ∧ c.toNat ≤ 57 := by
    simp only [Char.isDigit, Bool.and_eq_true, decide_eq_true_eq] at h
    exact ⟨h.1, h.2⟩
  simp only [isSpace]
  have : c.toNat ≠ 0x20 ∧ c.toNat ≠ 0x85 ∧ c.toNat ≠ 0xA0 ∧ c.toNat ≠ 0x1680 ∧
      c.toNat ≠ 0x2028 ∧ c.toNat ≠ 0x2029 ∧ c.toNat ≠ 0x202F ∧ c.toNat ≠ 0x205F ∧
      c.toNat ≠ 0x3000 := by omega
  obtain ⟨a1, a2, a3, a4, a5, a6, a7, a8, a9⟩ := this
  have b1 : ¬ c.toNat ≤ 13 := by omega
  have b2 : ¬ 0x2000 ≤ c.toNat := by omega
  simp [a1, a2, a3, a4, a5, a6, a7, a8, a9, b1, b2]

theorem parseLogLoop_skip (s : GoString) (is1 is2 : List Nat) (e : LogEntry)
    (h : ∀ i ∈ is1, getClass (s.take i) = []) :
    parseLogLoop s (is1 ++ is2) e 0 0 = parseLogLoop s is2 e 0 0 := by
  induction is1 with
  | nil => rfl
  | cons i rest ih =>
    have hi := h i (List.mem_cons_self _ _)
    rw [List.cons_append, parseLogLoop]
    simp only [hi, ne_eq, not_true_eq_false, and_false, decide_False, Bool.false_eq_true,
      if_false, gt_iff_lt, lt_self_iff_false]
    exact ih (fun j hj => h j (List.mem_cons_of_mem _ hj))

theorem parseLogLoop_hit (s : GoString) (k : Nat) (rest : List Nat) (e : LogEntry)
    (he : e.Class = []) (hk : getClass (s.take k) ≠ []) (hk0 : k ≠ 0)
    (hs : IndexAny s ['\n'] = -1) :
    parseLogLoop s (k :: rest) e 0 0
      = some { e with Class := getClass (s.take k), Header := TrimSpace (s.drop k) } := by
  rw [parseLogLoop]
  simp [he, hk, hk0, hs]

theorem range_split (k n : Nat) (h : k < n) :
    ∃ tail, List.range n = List.range k ++ k :: tail := by
  obtain ⟨m, rfl⟩ : ∃ m, n = k + (m + 1) := ⟨n - k - 1, by omega⟩
  rw [List.range_add, List.range_succ_eq_map]
  exact ⟨List.map (fun x => k + x) (List.map Nat.succ (List.range m)), by simp⟩

theorem getClass_prefix_nil (C X : GoString) (hC : '-' ∉ C) (hCt : TrimSpace C = C)
    (hX : X <+: C ++ [' ']) (hXne : X ≠ []) (hCne : C ≠ []) :
    getClass (' ' :: '-' :: ' ' :: X) = [] := by
  obtain ⟨c0, X', rfl⟩ := List.exists_cons_of_ne_nil hXne
  have hc0 : isSpace c0 = false := by
    obtain ⟨c, C', rfl⟩ := List.exists_cons_of_ne_nil hCne
    have : c0 = c := by
      obtain ⟨t, ht⟩ := hX
      simp at ht
      exact ht.1
    subst this
    by_contra hsp
    exact TrimSpace_eq_self_head (c0 :: C') c0 (by simpa using hsp) hCt rfl
  have e1 : TrimSpace (' ' :: '-' :: ' ' :: c0 :: X')
      = '-' :: ' ' :: c0 :: X'.rdropWhile isSpace := by
    rw [TrimSpace_cons_space _ _ (by decide), TrimSpace_cons_not_space _ _ (by decide)]
    have := rdropWhile_append_cons_neg isSpace [' '] X' c0 (by simp [hc0])
    simpa using this
  unfold getClass
  simp only [e1]
  rw [if_neg]
  rintro ⟨-, -, hlast⟩
  rw [List.getLast?_cons_cons, List.getLast?_cons_cons] at hlast
  have hm : '-' ∈ c0 :: X'.rdropWhile isSpace := List.mem_of_getLast?_eq_some hlast
  have hm2 : '-' ∈ c0 :: X' := by
    rcases List.mem_cons.1 hm with h | h
    · exact h ▸ List.mem_cons_self _ _
    · exact List.mem_cons_of_mem _ ((List.rdropWhile_prefix _ _).subset h)
  have hm3 : '-' ∈ C ++ [' '] := hX.subset hm2
  rcases List.mem_append.1 hm3 with h | h
  · exact hC h
  · simp at h

theorem getClass_closed (C : GoString) (hCt : TrimSpace C = C) :
    getClass (' ' :: '-' :: ' ' :: (C ++ [' ', '-'])) = C := by
  have e1 : TrimSpace (' ' :: '-' :: ' ' :: (C ++ [' ', '-']))
      = '-' :: ' ' :: (C ++ [' ', '-']) := by
    rw [TrimSpace_cons_space _ _ (by decide), TrimSpace_cons_not_space _ _ (by decide)]
    have : ' ' :: (C ++ [' ', '-']) = (' ' :: (C ++ [' '])) ++ ['-'] := by simp
    rw [this, List.rdropWhile_concat_neg _ _ _ (by decide)]
  unfold getClass
  simp only [e1]
  have hlen : byteLen ('-' :: ' ' :: (C ++ [' ', '-'])) > 2 := by
    have := byteLen_ge_length ('-' :: ' ' :: (C ++ [' ', '-']))
    simp at this
    omega
  have hlast : ('-' :: ' ' :: (C ++ [' ', '-'])).getLast? = some '-' := by
    have : '-' :: ' ' :: (C ++ [' ', '-']) = ('-' :: ' ' :: (C ++ [' '])) ++ ['-'] := by simp
    rw [this, List.getLast?_concat]
  rw [if_pos ⟨hlen, rfl, hlast⟩]
  have : ('-' :: ' ' :: (C ++ [' ', '-'])).tail.dropLast = [' '] ++ C ++ [' '] := by
    have : (' ' :: (C ++ [' ', '-'])) = (' ' :: (C ++ [' '])) ++ ['-'] := by simp
    rw [List.tail_cons, this, List.dropLast_concat]
    simp
  rw [this]
  exact TrimSpace_pad [' '] C [' '] (by decide) (by decide) hCt

theorem TrimSpace_singleton (c : Char) (h : isSpace c = false) : TrimSpace [c] = [c] := by
  rw [TrimSpace_cons_not_space c [] h]
  rfl

theorem severity_head (SEV : GoString) (h : SEV ∈ severities) :
    ∃ c S, SEV = c :: S ∧ isSpace c = false := by
  simp only [severities, List.mem_cons, List.mem_singleton, List.not_mem_nil, or_false] at h
  rcases h with rfl | rfl | rfl | rfl
  · exact ⟨'I', "NFO".toList, rfl, by decide⟩
  · exact ⟨'E', "RROR".toList, rfl, by decide⟩
  · exact ⟨'D', "EBUG".toList, rfl, by decide⟩
  · exact ⟨'W', "ARN".toList, rfl, by decide⟩

/-- Claim C11.  For every line `TS ++ " [" ++ E ++ "]" ++ W ++ SEV ++ " - " ++ C ++
" - " ++ H ++ T`, where `TS` matches the time-stamp pattern, `E` has no `]`, `W` is
white space (the single blank of the claim, or the padding of the severity column),
`SEV` is one of the four keywords, `C` is not empty and has no `-` and no
surrounding white space, `H` is not empty and has no line feed and no surrounding
white space, `T` is a line terminator (any white space), and the line has no line
feed before `T` (none in `E` and `C`): `parseLogString` returns `DateAndTime = TS`,
`Severity = SEV`, `Class = C`, `Header = H` and an empty `Body`. -/
theorem parseLogString_wellFormed (TS E W SEV C H T : GoString)
    (hTS : matchClasses timeStampClasses TS = true) (hTSlen : TS.length = 23)
    (hE : ']' ∉ E) (hEn : '\n' ∉ E)
    (hSEV : SEV ∈ severities)
    (hCne : C ≠ []) (hCd : '-' ∉ C) (hCt : TrimSpace C = C) (hCn : '\n' ∉ C)
    (hHne : H ≠ []) (hHn : '\n' ∉ H) (hHt : TrimSpace H = H)
    (hW : ∀ c ∈ W, isSpace c = true) (hT : ∀ c ∈ T, isSpace c = true) :
    parseLogString (TS ++ " [".toList ++ E ++ "]".toList ++ W ++ SEV ++ " - ".toList ++ C ++
        " - ".toList ++ H ++ T)
      = some { DateAndTime := TS, TimeSinceStart := getTimeSinceStart ('[' :: (E ++ [']'])),
               Severity := SEV, Class := C, Header := H, Body := [] } := by
  obtain ⟨d, TS', hTSeq, hd⟩ := matchClasses_timeStamp_head TS hTS
  obtain ⟨v, S, hSEVeq, hv⟩ := severity_head SEV hSEV
  have hdsp : isSpace d = false := isSpace_of_isDigit d hd
  -- the parts of the line
  generalize hP3 : ' ' :: '-' :: ' ' :: (C ++ [' ', '-', ' ']) = P3
  generalize hraw : '[' :: (E ++ [']']) = raw
  have hline : TS ++ " [".toList ++ E ++ "]".toList ++ W ++ SEV ++ " - ".toList ++ C ++
      " - ".toList ++ H ++ T = TS ++ (' ' :: (raw ++ (W ++ (SEV ++ (P3 ++ H))))) ++ T := by
    rw [← hP3, ← hraw]
    simp
  rw [hline]
  -- trimmed texts
  have t3 : TrimSpace (SEV ++ (P3 ++ H)) = SEV ++ (P3 ++ H) := by
    have := TrimSpace_join [v] H (TrimSpace_singleton v hv) (by simp) hHt hHne (S ++ P3)
    rw [hSEVeq]
    simpa using this
  have t2 : TrimSpace (raw ++ (W ++ (SEV ++ (P3 ++ H)))) = raw ++ (W ++ (SEV ++ (P3 ++ H))) := by
    have := TrimSpace_join ['['] H (TrimSpace_singleton '[' (by decide)) (by simp) hHt hHne
      (E ++ ']' :: (W ++ (SEV ++ P3)))
    rw [← hraw]
    simpa using this
  have t1 : TrimSpace (TS ++ (' ' :: (raw ++ (W ++ (SEV ++ (P3 ++ H))))))
      = TS ++ (' ' :: (raw ++ (W ++ (SEV ++ (P3 ++ H))))) := by
    have := TrimSpace_join [d] H (TrimSpace_singleton d hdsp) (by simp) hHt hHne
      (TS' ++ ' ' :: (raw ++ (W ++ (SEV ++ P3))))
    rw [hTSeq]
    simpa using this
  -- the steps of `parseLogString`
  have s0 : TrimLeft (TS ++ (' ' :: (raw ++ (W ++ (SEV ++ (P3 ++ H))))) ++ T) ['\n']
      = TS ++ (' ' :: (raw ++ (W ++ (SEV ++ (P3 ++ H))))) ++ T := by
    have hdn : d ≠ '\n' := by
      intro e
      rw [e] at hd
      exact absurd hd (by decide)
    rw [hTSeq]
    simp [TrimLeft, List.dropWhile, hdn]
  have s1 : getTimeStampFromString (TS ++ (' ' :: (raw ++ (W ++ (SEV ++ (P3 ++ H))))) ++ T)
      = TS := by
    rw [List.append_assoc]
    exact getTimeStampFromString_append TS _ hTS hTSlen
  have s2 : trimFoundPart (TS ++ (' ' :: (raw ++ (W ++ (SEV ++ (P3 ++ H))))) ++ T) TS
      = ' ' :: (raw ++ (W ++ (SEV ++ (P3 ++ H)))) := by
    unfold trimFoundPart
    have := TrimSpace_pad [] _ T (by simp) hT t1
    rw [List.nil_append] at this
    rw [this, TrimPrefix_append]
  have s3 : getRawTimeSinceStart (' ' :: (raw ++ (W ++ (SEV ++ (P3 ++ H))))) = raw := by
    unfold getRawTimeSinceStart
    rw [← hraw]
    have := matchBracketRest_closed E (W ++ (SEV ++ (P3 ++ H))) hE hEn
    simp [findBracketed, this]
  have s4 : trimFoundPart (' ' :: (raw ++ (W ++ (SEV ++ (P3 ++ H))))) raw
      = W ++ (SEV ++ (P3 ++ H)) := by
    unfold trimFoundPart
    rw [TrimSpace_cons_space _ _ (by decide), t2, TrimPrefix_append]
  have s5 : TrimSpace (W ++ (SEV ++ (P3 ++ H))) = SEV ++ (P3 ++ H) := by
    have := TrimSpace_pad W (SEV ++ (P3 ++ H)) [] hW (by simp) t3
    rwa [List.append_nil] at this
  have s6 : firstSeverity (SEV ++ (P3 ++ H)) severities = SEV := firstSeverity_mem SEV _ hSEV
  have s7 : trimFoundPart (SEV ++ (P3 ++ H)) SEV = P3 ++ H := by
    unfold trimFoundPart
    rw [t3, TrimPrefix_append]
  unfold parseLogString
  simp only [s0, s1, s2, s3, s4, getSeverity, s5, s6, s7]
  -- the loop
  have hnl : '\n' ∉ P3 ++ H := by
    rw [← hP3]
    simp [hCn, hHn]
  have hidx := IndexAny_not_mem _ hnl
  have hk : C.length + 5 < (P3 ++ H).length := by
    have : 0 < H.length := List.length_pos.2 hHne
    rw [← hP3]
    simp
    omega
  obtain ⟨tail, hrange⟩ := range_split _ _ hk
  have htake : (P3 ++ H).take (C.length + 5) = ' ' :: '-' :: ' ' :: (C ++ [' ', '-']) := by
    rw [← hP3]
    have : ' ' :: '-' :: ' ' :: (C ++ [' ', '-', ' ']) ++ H
        = (' ' :: '-' :: ' ' :: (C ++ [' ', '-'])) ++ (' ' :: H) := by simp
    rw [this]
    exact List.take_left' (by simp)
  have hdrop : (P3 ++ H).drop (C.length + 5) = ' ' :: H := by
    rw [← hP3]
    have : ' ' :: '-' :: ' ' :: (C ++ [' ', '-', ' ']) ++ H
        = (' ' :: '-' :: ' ' :: (C ++ [' ', '-'])) ++ (' ' :: H) := by simp
    rw [this]
    exact List.drop_left' (by simp)
  have hskip : ∀ i ∈ List.range (C.length + 5), getClass ((P3 ++ H).take i) = [] := by
    intro i hi
    have hi' : i < C.length + 5 := List.mem_range.1 hi
    rw [← hP3]
    by_cases h3 : i ≤ 3
    · interval_cases i
      · rfl
      · rfl
      · rfl
      · rfl
    · obtain ⟨j, rfl⟩ : ∃ j, i = j + 3 := ⟨i - 3, by omega⟩
      have e1 : (' ' :: '-' :: ' ' :: (C ++ [' ', '-', ' ']) ++ H).take (j + 3)
          = ' ' :: '-' :: ' ' :: (C ++ [' ']).take j := by
        have : ' ' :: '-' :: ' ' :: (C ++ [' ', '-', ' ']) ++ H
            = ' ' :: '-' :: ' ' :: ((C ++ [' ']) ++ ('-' :: ' ' :: H)) := by simp
        rw [this]
        simp only [List.take_succ_cons]
        rw [List.take_append_of_le_length (by simp; omega)]
      rw [e1]
      refine getClass_prefix_nil C _ hCd hCt (List.take_prefix _ _) ?_ hCne
      intro hnil
      have := congrArg List.length hnil
      simp at this
      omega
  rw [hrange, parseLogLoop_skip _ _ _ _ hskip,
    parseLogLoop_hit _ _ _ _ rfl (by rw [htake, getClass_closed C hCt]; exact hCne)
      (by omega) hidx]
  rw [htake, getClass_closed C hCt, hdrop, TrimSpace_cons_space _ _ (by decide), hHt]

/-- The `ERROR` line of the test, by `parseLogString_wellFormed`. -/
theorem parseLogString_wellFormed_witness :
    parseLogString errorHeaderLine
      = some { errorEntry with Body := [] } :=
  parseLogString_wellFormed "2021-02-15 18:09:37,188".toList "  61174".toList "  ".toList
    "ERROR".toList ".wm.impl.ToolWindowManagerImpl".toList "Already disposed: Project".toList
    "\n".toList (by decide) (by decide) (by decide) (by decide) (by decide) (by decide)
    (by decide) (by decide) (by decide) (by decide) (by decide) (by decide) (by decide)
    (by decide)

/-! ## The option lines of a file -/

theorem scanLoop_too_long (chunk : GoString) (rest : List GoString) (hne : chunk ≠ [])
    (h : byteLen (if chunk.getLast? = some '\n' then chunk.dropLast else chunk)
      ≥ MaxScanTokenSize) :
    scanLoop (chunk :: rest) = [] := by
  simp [scanLoop, hne, h]

theorem toBytes_short (w : Nat) (s : GoString) (h : byteLen s < 1) : toBytes w s = -1 := by
  simp [toBytes, h]

theorem byteLen_of_toBytes (w : Nat) (s : GoString) (h : toBytes w s ≠ -1) : ¬ byteLen s < 1 :=
  fun hs => h (toBytes_short w s hs)

theorem mapGet_ne_nil (m : MappedVmoptions) (k : GoString) (h : ¬ byteLen (mapGet m k) < 1) :
    m k ≠ none := by
  intro hn
  apply h
  simp [mapGet, hn, byteLen]

/-- Claim C22.  `checkXmxVsXms` returns no diagnostic if and only if `-Xms` is a key
of the map, the values of `-Xmx` and `-Xms` both convert to bytes (`toBytes` does
not return the sentinel -1) and the byte count of `-Xmx` is not less than that of
`-Xms`; in every other case it returns an error.  This holds for every width of
`int`. -/
theorem checkXmxVsXms_passes_iff (intSize : Nat) (options : MappedVmoptions) :
    (checkXmxVsXms intSize options = none ↔
      (options "-Xms".toList ≠ none ∧
       toBytes intSize (mapGet options "-Xmx".toList) ≠ -1 ∧
       toBytes intSize (mapGet options "-Xms".toList) ≠ -1 ∧
       toBytes intSize (mapGet options "-Xmx".toList)
         ≥ toBytes intSize (mapGet options "-Xms".toList))) ∧
    ((checkXmxVsXms intSize options).isSome = true ↔
      (options "-Xms".toList = none ∨
       toBytes intSize (mapGet options "-Xmx".toList) = -1 ∨
       toBytes intSize (mapGet options "-Xms".toList) = -1 ∨
       toBytes intSize (mapGet options "-Xmx".toList)
         < toBytes intSize (mapGet options "-Xms".toList))) := by
  have key : checkXmxVsXms intSize options = none ↔
      (options "-Xms".toList ≠ none ∧
       toBytes intSize (mapGet options "-Xmx".toList) ≠ -1 ∧
       toBytes intSize (mapGet options "-Xms".toList) ≠ -1 ∧
       toBytes intSize (mapGet options "-Xmx".toList)
         ≥ toBytes intSize (mapGet options "-Xms".toList)) := by
    unfold checkXmxVsXms
    dsimp only
    constructor
    · intro h
      split_ifs at h with h1 h2 h3 h4
      exact ⟨mapGet_ne_nil _ _ h2, h1, h3, h4⟩
    · rintro ⟨_, h1, h3, h4⟩
      have h2 := byteLen_of_toBytes _ _ h3
      simp only [h1, h2, h3, h4, if_false, if_true]
  refine ⟨key, ?_⟩
  rw [← Option.ne_none_iff_isSome, Ne, key]
  constructor
  · intro h
    by_contra hc
    push_neg at hc
    exact h ⟨hc.1, hc.2.1, hc.2.2.1, hc.2.2.2⟩
  · rintro h ⟨a, b, c, d⟩
    rcases h with h | h | h | h
    · exact a h
    · exact b h
    · exact c h
    · exact absurd d (not_le.2 h)

theorem wrapInt_fits (w : Nat) (x : Int) (hw : 0 < w) (h0 : -(2 ^ (w - 1)) ≤ x)
    (h1 : x < 2 ^ (w - 1)) : wrapInt w x = x := by
  unfold wrapInt
  have hp : (2 : Int) ^ w = 2 * 2 ^ (w - 1) := by
    obtain ⟨k, rfl⟩ : ∃ k, w = k + 1 := ⟨w - 1, by omega⟩
    simp [pow_succ, mul_comm]
  rw [Int.emod_eq_of_lt (by linarith) (by linarith)]
  ring

theorem wrapInt_lt (w : Nat) (x : Int) (hw : 0 < w) : wrapInt w x < 2 ^ (w - 1) := by
  unfold wrapInt
  have hp : (2 : Int) ^ w = 2 * 2 ^ (w - 1) := by
    obtain ⟨k, rfl⟩ : ∃ k, w = k + 1 := ⟨w - 1, by omega⟩
    simp [pow_succ, mul_comm]
  have hpos : (0 : Int) < 2 ^ w := by positivity
  have := Int.emod_lt_of_pos (x + 2 ^ (w - 1)) hpos
  linarith

theorem toBytes_concat (w : Nat) (s : GoString) (u : Char) :
    toBytes w (s ++ [u])
      = if u = 'k' ∨ u = 'K' then shiftLeft w (Atoi w s) 10
        else if u = 'm' ∨ u = 'M' then shiftLeft w (Atoi w s) 20
        else if u = 'g' ∨ u = 'G' then shiftLeft w (Atoi w s) 30
        else -1 := by
  have hne : s ++ [u] ≠ [] := by simp
  have hb : ¬ byteLen (s ++ [u]) < 1 := not_lt.2 ((byteLen_pos_iff _).2 hne)
  unfold toBytes
  rw [if_neg hb, List.getLast?_append, List.dropLast_concat]
  simp

theorem toBytes_no_unit (w : Nat) (s : GoString)
    (h : ∀ u, s.getLast? = some u →
      u ≠ 'k' ∧ u ≠ 'K' ∧ u ≠ 'm' ∧ u ≠ 'M' ∧ u ≠ 'g' ∧ u ≠ 'G') :
    toBytes w s = -1 := by
  rcases List.eq_nil_or_concat s with rfl | ⟨t, u, rfl⟩
  · rfl
  · rw [List.concat_eq_append] at h ⊢
    obtain ⟨h1, h2, h3, h4, h5, h6⟩ := h u (by simp)
    rw [toBytes_concat]
    simp [h1, h2, h3, h4, h5, h6]

theorem digitChar_isDigit (d : Nat) (h : d < 10) :
    (Nat.digitChar d).isDigit = true ∧ (Nat.digitChar d).toNat - 48 = d := by
  interval_cases d <;> exact ⟨rfl, rfl⟩

theorem parseUintLoop_toDigitsCore (w fuel n : Nat) (ds : GoString) (h : n < fuel)
    (hmax : n ≤ 2 ^ w - 1) :
    parseUintLoop w (Nat.toDigitsCore 10 fuel n ds) 0 = parseUintLoop w ds n := by
  induction fuel generalizing n ds with
  | zero => omega
  | succ fuel ih =>
    obtain ⟨hd1, hd2⟩ := digitChar_isDigit (n % 10) (Nat.mod_lt _ (by decide))
    unfold Nat.toDigitsCore
    by_cases h0 : n / 10 = 0
    · have hn : n % 10 = n := Nat.mod_eq_of_lt (by omega)
      simp only [h0, if_true]
      rw [parseUintLoop, if_pos hd1, hd2, hn]
      have e : 0 * 10 + n = n := by omega
      simp only [e]
      rw [if_neg (by omega)]
    · simp only [h0, if_false]
      rw [ih (n / 10) _ (by omega) (by omega), parseUintLoop, if_pos hd1, hd2]
      have e : n / 10 * 10 + n % 10 = n := by omega
      simp only [e]
      rw [if_neg (by omega)]

theorem toDigitsCore_ne_nil (fuel n : Nat) (ds : GoString) (h : ds ≠ [] ∨ 0 < fuel) :
    Nat.toDigitsCore 10 fuel n ds ≠ [] := by
  induction fuel generalizing n ds with
  | zero =>
    rcases h with h | h
    · simpa [Nat.toDigitsCore] using h
    · omega
  | succ fuel ih =>
    unfold Nat.toDigitsCore
    by_cases h0 : n / 10 = 0
    · simp [h0]
    · simp only [h0, if_false]
      exact ih _ _ (Or.inl (by simp))

theorem parseUintLoop_toDigits (w n : Nat) (hmax : n ≤ 2 ^ w - 1) :
    parseUintLoop w (Nat.toDigits 10 n) 0 = UintResult.ok n ∧ Nat.toDigits 10 n ≠ [] :=
  ⟨by
    unfold Nat.toDigits
    rw [parseUintLoop_toDigitsCore _ _ _ _ (Nat.lt_succ_self n) hmax]
    rfl,
   toDigitsCore_ne_nil _ _ _ (Or.inr (Nat.succ_pos n))⟩

theorem parseUintLoop_head (w : Nat) (s : GoString) (acc v : Nat) (c : Char)
    (h : parseUintLoop w s acc = UintResult.ok v) (hc : s.head? = some c) :
    c.isDigit = true := by
  cases s with
  | nil => simp at hc
  | cons a rest =>
    simp only [List.head?_cons, Option.some.injEq] at hc
    subst hc
    unfold parseUintLoop at h
    by_contra hd
    simp [hd] at h

theorem Atoi_digits (w : Nat) (s : GoString) (n : Nat) (hne : s ≠ [])
    (hv : parseUintLoop w s 0 = UintResult.ok n) (hfit : (n : Int) < 2 ^ (w - 1)) :
    Atoi w s = n := by
  have hm : s.head? ≠ some '-' := fun h => absurd (parseUintLoop_head w s 0 n _ hv h) (by decide)
  have hp : s.head? ≠ some '+' := fun h => absurd (parseUintLoop_head w s 0 n _ hv h) (by decide)
  have hn : ¬ n ≥ 2 ^ (w - 1) := by
    have : n < 2 ^ (w - 1) := by exact_mod_cast hfit
    omega
  unfold Atoi ParseInt ParseUint
  simp only [hm, hp, or_self, if_false, hne, hv, decide_False]
  simp [clampSigned, hn]

theorem Atoi_nil (w : Nat) : Atoi w [] = 0 := by
  simp [Atoi, ParseInt]

theorem toBytes_lt (w : Nat) (s : GoString) (hw : 0 < w) : toBytes w s < 2 ^ (w - 1) := by
  have hpos : (-1 : Int) < 2 ^ (w - 1) := by
    have : (0 : Int) < 2 ^ (w - 1) := by positivity
    linarith
  rcases List.eq_nil_or_concat s with rfl | ⟨t, u, rfl⟩
  · exact hpos
  · rw [List.concat_eq_append, toBytes_concat]
    unfold shiftLeft
    split_ifs
    · exact wrapInt_lt _ _ hw
    · exact wrapInt_lt _ _ hw
    · exact wrapInt_lt _ _ hw
    · exact hpos

theorem toBytes_decimal (w n k : Nat) (hw : 0 < w)
    (hfit : (n : Int) * 2 ^ 30 < 2 ^ (w - 1)) (hk : k ≤ 30) :
    shiftLeft w (Atoi w (Nat.toDigits 10 n)) k = (n : Int) * 2 ^ k := by
  have hn0 : (0 : Int) ≤ n := Int.ofNat_nonneg n
  have hle : (n : Int) * 2 ^ k ≤ (n : Int) * 2 ^ 30 :=
    mul_le_mul_of_nonneg_left (pow_le_pow_right₀ (by norm_num) hk) hn0
  have h1 : (n : Int) ≤ (n : Int) * 2 ^ 30 := by
    have : (1 : Int) ≤ 2 ^ 30 := by norm_num
    nlinarith
  have hmax : n ≤ 2 ^ w - 1 := by
    have h2 : n < 2 ^ (w - 1) := by exact_mod_cast (by linarith : (n : Int) < 2 ^ (w - 1))
    have h3 := Nat.pow_le_pow_right (by decide : 0 < 2) (Nat.sub_le w 1)
    omega
  obtain ⟨hv, hne⟩ := parseUintLoop_toDigits w n hmax
  rw [Atoi_digits w _ n hne hv (by linarith)]
  unfold shiftLeft
  have hnn : (0 : Int) ≤ (n : Int) * 2 ^ k := by positivity
  have hp : (0 : Int) < 2 ^ (w - 1) := by positivity
  exact wrapInt_fits w _ hw (by linarith) (by linarith)

/-- Claim C24.  For every natural number `n` with decimal rendering `D` such that
`n * 2^30` fits in the `int` of the platform (less than `2^(intSize-1)`), `toBytes`
gives `n * 2^10` for `D ++ "k"` and `D ++ "K"`, `n * 2^20` for `D ++ "m"` and
`D ++ "M"`, and `n * 2^30` for `D ++ "g"` and `D ++ "G"`; and it gives the
sentinel -1 for the empty string and for every string whose last character is none
of the six letters, `1024` included.  This holds for every width of `int`. -/
theorem toBytes_units (intSize n : Nat) (hw : 0 < intSize)
    (hfit : (n : Int) * 2 ^ 30 < 2 ^ (intSize - 1)) :
    toBytes intSize ((Nat.repr n).toList ++ "k".toList) = (n : Int) * 2 ^ 10 ∧
    toBytes intSize ((Nat.repr n).toList ++ "K".toList) = (n : Int) * 2 ^ 10 ∧
    toBytes intSize ((Nat.repr n).toList ++ "m".toList) = (n : Int) * 2 ^ 20 ∧
    toBytes intSize ((Nat.repr n).toList ++ "M".toList) = (n : Int) * 2 ^ 20 ∧
    toBytes intSize ((Nat.repr n).toList ++ "g".toList) = (n : Int) * 2 ^ 30 ∧
    toBytes intSize ((Nat.repr n).toList ++ "G".toList) = (n : Int) * 2 ^ 30 ∧
    toBytes intSize [] = -1 ∧
    (∀ s : GoString,
      (∀ u, s.getLast? = some u →
        u ≠ 'k' ∧ u ≠ 'K' ∧ u ≠ 'm' ∧ u ≠ 'M' ∧ u ≠ 'g' ∧ u ≠ 'G') →
      toBytes intSize s = -1) ∧
    toBytes intSize "1024".toList = -1 := by
  have hD : (Nat.repr n).toList = Nat.toDigits 10 n := rfl
  have h10 := toBytes_decimal intSize n 10 hw hfit (by norm_num)
  have h20 := toBytes_decimal intSize n 20 hw hfit (by norm_num)
  have h30 := toBytes_decimal intSize n 30 hw hfit (by norm_num)
  rw [hD]
  refine ⟨?_, ?_, ?_, ?_, ?_, ?_, rfl, toBytes_no_unit intSize, ?_⟩
  · show toBytes intSize (_ ++ ['k']) = _
    rw [toBytes_concat, if_pos (by decide), h10]
  · show toBytes intSize (_ ++ ['K']) = _
    rw [toBytes_concat, if_pos (by decide), h10]
  · show toBytes intSize (_ ++ ['m']) = _
    rw [toBytes_concat, if_neg (by decide), if_pos (by decide), h20]
  · show toBytes intSize (_ ++ ['M']) = _
    rw [toBytes_concat, if_neg (by decide), if_pos (by decide), h20]
  · show toBytes intSize (_ ++ ['g']) = _
    rw [toBytes_concat, if_neg (by decide), if_neg (by decide), if_pos (by decide), h30]
  · show toBytes intSize (_ ++ ['G']) = _
    rw [toBytes_concat, if_neg (by decide), if_neg (by decide), if_pos (by decide), h30]
  · exact toBytes_no_unit intSize _ (by decide)

/-- The values `1048m` and `2g` on a 64-bit platform and `1g` on a 32-bit one, by
`toBytes_units`. -/
theorem toBytes_units_witness :
    toBytes 64 "1048m".toList = 1098907648 ∧
    toBytes 64 "2g".toList = 2147483648 ∧
    toBytes 32 "1G".toList = 1073741824 ∧
    toBytes 64 "1024".toList = -1 :=
  ⟨(toBytes_units 64 1048 (by decide) (by decide)).2.2.1,
   (toBytes_units 64 2 (by decide) (by decide)).2.2.2.2.1,
   (toBytes_units 32 1 (by decide) (by decide)).2.2.2.2.2.1,
   (toBytes_units 64 1048 (by decide) (by decide)).2.2.2.2.2.2.2.2⟩

theorem memoryOption_verbatim (P R : GoString)
    (hP : P = "-Xmx".toList ∨ P = "-Xms".toList ∨ P = "-Xmn".toList)
    (hR : TrimSpace R = R) (h1 : R.head? ≠ some '=') (h2 : R.head? ≠ some ':') :
    getVmoptionName (P ++ R) = P ∧ getVmoptionValue (P ++ R) P = R := by
  have hb : isBooleanOption (P ++ R) = false := by
    rcases hP with rfl | rfl | rfl <;> simp [isBooleanOption, HasPrefix]
  have hx : (HasPrefix (P ++ R) "-Xmx".toList || HasPrefix (P ++ R) "-Xms".toList ||
      HasPrefix (P ++ R) "-Xmn".toList) = true := by
    rcases hP with rfl | rfl | rfl <;> simp [HasPrefix]
  have hname : getVmoptionName (P ++ R) = P := by
    unfold getVmoptionName findDelimiterPositionOfVmoption
    rw [hb, hx]
    have hlen : P.length = 4 := by rcases hP with rfl | rfl | rfl <;> rfl
    simp only [Bool.false_eq_true, if_false, if_true]
    have : (4 : Int).toNat = P.length := by rw [hlen]; rfl
    rw [if_neg (by decide), this, List.take_left]
  have hval := getVmoptionValue_not_boolean (P ++ R) P hb
  rw [TrimPrefix_append] at hval
  refine ⟨hname, ?_⟩
  rw [hval, TrimPrefix_not_head R '=' h1, hR, TrimPrefix_not_head R ':' h2, hR]

theorem parseVmOptionLines_xmx_xms (a b : GoString)
    (ha : TrimSpace a = a) (ha1 : a.head? ≠ some '=') (ha2 : a.head? ≠ some ':')
    (hb : TrimSpace b = b) (hb1 : b.head? ≠ some '=') (hb2 : b.head? ≠ some ':') :
    mapGet (parseVmOptionLines ["-Xmx".toList ++ a, "-Xms".toList ++ b]).vmoptions
      "-Xmx".toList = a ∧
    mapGet (parseVmOptionLines ["-Xmx".toList ++ a, "-Xms".toList ++ b]).vmoptions
      "-Xms".toList = b := by
  obtain ⟨hn1, hv1⟩ := memoryOption_verbatim "-Xmx".toList a (Or.inl rfl) ha ha1 ha2
  obtain ⟨hn2, hv2⟩ := memoryOption_verbatim "-Xms".toList b (Or.inr (Or.inl rfl)) hb hb1 hb2
  let r0 : VmOptions :=
    { vmoptions := emptyMap, garbageCollectorsInUse := [], vmoptionsDuplicates := emptyMap }
  let r1 := parseOption r0 ("-Xmx".toList ++ a)
  have e1 : r1.vmoptions "-Xmx".toList = some a := by
    have := (parseOption_first r0 _ _ hn1 rfl).1
    rw [hv1] at this
    exact this
  have e1' : r1.vmoptions "-Xms".toList = none :=
    (parseOption_other r0 _ "-Xms".toList (by rw [hn1]; decide)).1
  have e2 : (parseOption r1 ("-Xms".toList ++ b)).vmoptions "-Xms".toList = some b := by
    have := (parseOption_first r1 _ _ hn2 (by unfold mapGet; rw [e1']; rfl)).1
    rw [hv2] at this
    exact this
  have e3 : (parseOption r1 ("-Xms".toList ++ b)).vmoptions "-Xmx".toList = some a :=
    ((parseOption_other r1 _ "-Xmx".toList (by rw [hn2]; decide)).1).trans e1
  constructor
  · show mapGet (parseOption r1 ("-Xms".toList ++ b)).vmoptions "-Xmx".toList = a
    unfold mapGet
    rw [e3]
    rfl
  · show mapGet (parseOption r1 ("-Xms".toList ++ b)).vmoptions "-Xms".toList = b
    unfold mapGet
    rw [e2]
    rfl

/-- Claim C23, as amended.  For all size values `a` and `b` that have no surrounding
white space and start with neither `=` nor `:`, that both convert to bytes, and with
bytes(a) < bytes(b): parsing the option lines `-Xmx ++ a` and `-Xms ++ b` and running
`checkXmxVsXms` on the resulting map yields an error whose message is exactly
`Xmx value (current value a) should be higher than Xms (current value b)`, with `a`
and `b` verbatim.  This holds for every width of `int`. -/
theorem checkXmxVsXms_message (intSize : Nat) (a b : GoString)
    (ha : TrimSpace a = a) (ha1 : a.head? ≠ some '=') (ha2 : a.head? ≠ some ':')
    (hb : TrimSpace b = b) (hb1 : b.head? ≠ some '=') (hb2 : b.head? ≠ some ':')
    (hca : toBytes intSize a ≠ -1) (hcb : toBytes intSize b ≠ -1)
    (hlt : toBytes intSize a < toBytes intSize b) :
    checkXmxVsXms intSize
        (parseVmOptionLines ["-Xmx".toList ++ a, "-Xms".toList ++ b]).vmoptions
      = some ("Xmx value (current value ".toList ++ a ++
          ") should be higher than Xms (current value ".toList ++ b ++ ")".toList) := by
  obtain ⟨e1, e2⟩ := parseVmOptionLines_xmx_xms a b ha ha1 ha2 hb hb1 hb2
  unfold checkXmxVsXms
  simp only [e1, e2]
  rw [if_neg hca, if_neg (byteLen_of_toBytes _ _ hcb), if_neg hcb, if_neg (not_le.2 hlt)]

/-- Scenario B of the specification, by `checkXmxVsXms_message`. -/
theorem checkXmxVsXms_message_witness :
    checkXmxVsXms 64 (parseVmOptionLines ["-Xmx1048m".toList, "-Xms1228m".toList]).vmoptions
      = some "Xmx value (current value 1048m) should be higher than Xms (current value 1228m)".toList :=
  checkXmxVsXms_message 64 "1048m".toList "1228m".toList (by decide) (by decide) (by decide)
    (by decide) (by decide) (by decide) (by decide) (by decide) (by decide)

/-- Claim C23 fails as stated.  The values `=3g` and `2g` both convert to bytes, to 0
(the magnitude `=3` is not a number) and to 2^31, and 0 < 2^31; but the value stored
for the line `-Xmx=3g` is `3g`, and the check returns no error.  With `-1k` and
`=1g` (-1024 and 0 bytes) there is an error, whose message names `1g`, not `=1g`. -/
theorem checkXmxVsXms_delimiter_value :
    toBytes 64 "=3g".toList ≠ -1 ∧ toBytes 64 "2g".toList ≠ -1 ∧
    toBytes 64 "=3g".toList < toBytes 64 "2g".toList ∧
    checkXmxVsXms 64
        (parseVmOptionLines ["-Xmx".toList ++ "=3g".toList, "-Xms".toList ++ "2g".toList]).vmoptions
      = none ∧
    toBytes 64 "-1k".toList ≠ -1 ∧ toBytes 64 "=1g".toList ≠ -1 ∧
    toBytes 64 "-1k".toList < toBytes 64 "=1g".toList ∧
    checkXmxVsXms 64
        (parseVmOptionLines ["-Xmx".toList ++ "-1k".toList, "-Xms".toList ++ "=1g".toList]).vmoptions
      = some "Xmx value (current value -1k) should be higher than Xms (current value 1g)".toList := by
  refine ⟨by decide, by decide, by decide, by rfl, by decide, by decide, by decide, by rfl⟩

/-! ## The gate of the blame step -/

/-- Claim C28.  The gate of the blame step is exactly 4 entries.  A header line that
parses to a blame-marker entry is processed as follows, `exc1` being the exception
list after the ordinary evaluation of the previous entry: with fewer than 4 entries
produced so far the entry is appended, the exception list is `exc1` and the
blamed-plugin list is unchanged; with 4 or more entries the blame correlation runs,
that is, the run stops in a panic when `exc1` is empty, and otherwise the entry is
appended, the last element of `exc1` is removed and the blamed-plugin list is the one
that `collectPluginsWithExceptions` gives. -/
theorem processLine_blame_gate (PluginsList : PluginInfoList) (st : ParseState)
    (currentString : GoString) (currentEntry : LogEntry) (exc1 : List LogEntry)
    (hts : getTimeStampFromString currentString ≠ [])
    (hparse : parseLogString currentString = some currentEntry)
    (hblame : entryContainsPluginToBlame currentEntry = true)
    (hev : evaluateLastEntry st.logEntries st.logEntriesWithExceptions = some exc1) :
    processLine PluginsList st currentString
      = if st.logEntries.length < 4 then
          some ⟨st.logEntries ++ [currentEntry], exc1, st.pluginsWithExceptions⟩
        else if exc1.length = 0 then none
        else
          some ⟨st.logEntries ++ [currentEntry], exc1.dropLast,
            collectPluginsWithExceptions PluginsList st.pluginsWithExceptions currentEntry⟩ := by
  by_cases hlen : st.logEntries.length < 4
  · have h4 : ¬ 4 ≤ st.logEntries.length := not_le.2 hlen
    simp [processLine, hts, hparse, hev, blameStep, hblame, hlen, h4]
  · have h4 : 4 ≤ st.logEntries.length := not_lt.1 hlen
    by_cases hl : exc1.length = 0
    · simp [processLine, hts, hparse, hev, blameStep, hblame, hlen, h4, hl]
    · simp [processLine, hts, hparse, hev, blameStep, hblame, hlen, h4, hl]

/-- The blame line of the Presentation Assistant plugin after three entries and after
four entries, by `processLine_blame_gate`: the state with three entries is the one
reached after the lines of `errorOnlyLog`, `buildLine` and `jdkLine`. -/
theorem processLine_blame_gate_witness :
    ParseIdeaLogFile [] [] [] (errorOnlyLog ++ buildLine ++ jdkLine)
      = some stateWithThreeEntries ∧
    processLine [presentationAssistant] stateWithThreeEntries blameLine
      = some ⟨stateWithThreeEntries.logEntries ++ [blameEntry], [errorEntry], []⟩ ∧
    processLine [presentationAssistant] stateBeforeBlame blameLine
      = some ⟨stateBeforeBlame.logEntries ++ [blameEntry], [], [presentationAssistant]⟩ :=
  ⟨by rfl,
   processLine_blame_gate [presentationAssistant] stateWithThreeEntries blameLine blameEntry
     [errorEntry] getTimeStampFromString_blameLine parseLogString_blameLine (by decide)
     (by rfl),
   processLine_blame_gate [presentationAssistant] stateBeforeBlame blameLine blameEntry
     [errorEntry] getTimeStampFromString_blameLine parseLogString_blameLine (by decide)
     evaluateLastEntry_beforeBlame⟩

/-! ## The keys of the option maps -/

theorem takeWhile_head_dash (o : GoString) (d : Char) (hd : d ≠ '-')
    (h : o.head? = some '-') :
    (o.takeWhile (fun c => !decide (c = d))).head? = some '-' := by
  cases o with
  | nil => simp at h
  | cons a rest =>
    simp only [List.head?_cons, Option.some.injEq] at h
    subst h
    have : (!decide ('-' = d)) = true := by
      simp only [Bool.not_eq_true', decide_eq_false_iff_not]
      exact fun e => hd e.symm
    rw [List.takeWhile_cons, if_pos this]
    rfl

theorem getVmoptionName_prefix (o : GoString) (h : o.head? = some '-') :
    getVmoptionName o <+: o ∧ (getVmoptionName o).head? = some '-' := by
  by_cases hb : isBooleanOption o = true
  · have : getVmoptionName o = o := by simp [getVmoptionName, hb]
    rw [this]
    exact ⟨List.prefix_refl _, h⟩
  · have hb' : isBooleanOption o = false := by simpa using hb
    by_cases hx : (HasPrefix o "-Xmx".toList || HasPrefix o "-Xms".toList ||
        HasPrefix o "-Xmn".toList) = true
    · have : getVmoptionName o = o.take 4 := by
        unfold getVmoptionName findDelimiterPositionOfVmoption
        rw [hb', hx]
        simp only [Bool.false_eq_true, if_false, if_true]
        rw [if_neg (by decide)]
        rfl
      rw [this]
      refine ⟨List.take_prefix _ _, ?_⟩
      cases o with
      | nil => simp at h
      | cons a rest => simpa using h
    · have hx' : (HasPrefix o "-Xmx".toList || HasPrefix o "-Xms".toList ||
          HasPrefix o "-Xmn".toList) = false := by simpa using hx
      rw [getVmoptionName_cases o hx' hb']
      split_ifs
      · exact ⟨List.takeWhile_prefix _, takeWhile_head_dash o '=' (by decide) h⟩
      · exact ⟨List.takeWhile_prefix _, takeWhile_head_dash o ':' (by decide) h⟩
      · exact ⟨List.takeWhile_prefix _, takeWhile_head_dash o ' ' (by decide) h⟩
      · exact ⟨List.prefix_refl _, h⟩

theorem parseOption_keys (r : VmOptions) (o k : GoString) :
    ((parseOption r o).vmoptions k ≠ none ↔
      (r.vmoptions k ≠ none ∨ k = getVmoptionName o)) ∧
    ((parseOption r o).vmoptionsDuplicates k ≠ none →
      (r.vmoptionsDuplicates k ≠ none ∨ (k = getVmoptionName o ∧ r.vmoptions k ≠ none))) := by
  unfold parseOption
  by_cases hd : currentOptionIsDuplicate r.vmoptions (getVmoptionName o) = true
  · have hkey : r.vmoptions (getVmoptionName o) ≠ none := by
      intro hn
      simp [currentOptionIsDuplicate, mapGet, hn] at hd
    simp only [hd, if_true]
    constructor
    · constructor
      · exact fun h => Or.inl h
      · rintro (h | rfl)
        · exact h
        · exact hkey
    · intro h
      by_cases hk : k = getVmoptionName o
      · subst hk
        exact Or.inr ⟨rfl, hkey⟩
      · left
        simpa [mapSet, hk] using h
  · simp only [hd, Bool.false_eq_true, if_false]
    constructor
    · by_cases hk : k = getVmoptionName o
      · simp [mapSet, hk]
      · simp [mapSet, hk]
    · exact fun h => Or.inl h

theorem parseOptions_keys (options : List GoString) :
    (∀ o ∈ options, (parseVmOptionLines options).vmoptions (getVmoptionName o) ≠ none) ∧
    (∀ k, (parseVmOptionLines options).vmoptionsDuplicates k ≠ none →
      (parseVmOptionLines options).vmoptions k ≠ none) ∧
    (∀ k, (parseVmOptionLines options).vmoptions k ≠ none →
      ∃ o ∈ options, k = getVmoptionName o) := by
  induction options using List.reverseRecOn with
  | nil =>
    refine ⟨by simp, fun k h => absurd rfl h, fun k h => absurd rfl h⟩
  | append_singleton rest o ih =>
    obtain ⟨iha, ihb, ihc⟩ := ih
    have hstep : parseVmOptionLines (rest ++ [o]) = parseOption (parseVmOptionLines rest) o := by
      unfold parseVmOptionLines
      rw [parseOptions_append]
      rfl
    rw [hstep]
    refine ⟨?_, ?_, ?_⟩
    · intro x hx
      rw [(parseOption_keys _ o _).1]
      rcases List.mem_append.1 hx with h | h
      · exact Or.inl (iha x h)
      · rw [List.mem_singleton.1 h]
        exact Or.inr rfl
    · intro k hk
      rw [(parseOption_keys _ o _).1]
      rcases (parseOption_keys _ o k).2 hk with h | ⟨_, h⟩
      · exact Or.inl (ihb k h)
      · exact Or.inl h
    · intro k hk
      rcases (parseOption_keys _ o k).1.1 hk with h | h
      · obtain ⟨x, hx, e⟩ := ihc k h
        exact ⟨x, List.mem_append_left _ hx, e⟩
      · exact ⟨o, by simp, h⟩

/-- Claim C29.  For every sequence of option lines that each start with `-`, after
the loop of `ParseVmOptionsFile` over them the name of every option line is a key of
`MappedOptions`, every key of `DuplicateOptions` is also a key of `MappedOptions`,
and every key of either map is not empty, begins with `-` and is a prefix of some
option line. -/
theorem parseVmOptionLines_keys (options : List GoString)
    (hdash : ∀ o ∈ options, o.head? = some '-') :
    (∀ o ∈ options, (parseVmOptionLines options).vmoptions (getVmoptionName o) ≠ none) ∧
    (∀ k, (parseVmOptionLines options).vmoptionsDuplicates k ≠ none →
      (parseVmOptionLines options).vmoptions k ≠ none) ∧
    (∀ k, ((parseVmOptionLines options).vmoptions k ≠ none ∨
        (parseVmOptionLines options).vmoptionsDuplicates k ≠ none) →
      k ≠ [] ∧ k.head? = some '-' ∧ ∃ o ∈ options, k <+: o) := by
  obtain ⟨ha, hb, hc⟩ := parseOptions_keys options
  refine ⟨ha, hb, ?_⟩
  intro k hk
  have hk' : (parseVmOptionLines options).vmoptions k ≠ none := by
    rcases hk with h | h
    · exact h
    · exact hb k h
  obtain ⟨o, ho, rfl⟩ := hc k hk'
  obtain ⟨hp, hh⟩ := getVmoptionName_prefix o (hdash o ho)
  refine ⟨?_, hh, o, ho, hp⟩
  intro hn
  rw [hn] at hh
  simp at hh

/-- The option lines of Scenario E with a repeated `-Xmx`, by
`parseVmOptionLines_keys`: `-Xmx` is a key of both maps. -/
theorem parseVmOptionLines_keys_witness :
    (parseVmOptionLines
        ["-Xmx1048m".toList, "-XX:+UseG1GC".toList, "-Dfoo=bar".toList,
          "-Xmx2g".toList]).vmoptions "-Xmx".toList ≠ none ∧
    "-Xmx".toList ≠ [] ∧ "-Xmx".toList.head? = some '-' ∧
    ∃ o ∈ ["-Xmx1048m".toList, "-XX:+UseG1GC".toList, "-Dfoo=bar".toList, "-Xmx2g".toList],
      "-Xmx".toList <+: o :=
  ⟨(parseVmOptionLines_keys
      ["-Xmx1048m".toList, "-XX:+UseG1GC".toList, "-Dfoo=bar".toList, "-Xmx2g".toList]
      (by decide)).2.1 "-Xmx".toList (by decide),
   (parseVmOptionLines_keys
      ["-Xmx1048m".toList, "-XX:+UseG1GC".toList, "-Dfoo=bar".toList, "-Xmx2g".toList]
      (by decide)).2.2 "-Xmx".toList (Or.inr (by decide))⟩

/-! ## The text behind the time stamp -/

theorem matchClasses_concat (ps : List (Char → Bool)) (p : Char → Bool) (s : GoString)
    (h : matchClasses (ps ++ [p]) s = true) (hlen : s.length = ps.length + 1) :
    ∃ t c, s = t ++ [c] ∧ p c = true := by
  induction ps generalizing s with
  | nil =>
    cases s with
    | nil => simp at hlen
    | cons c cs =>
      have : cs = [] := by
        simp at hlen
        exact hlen
      subst this
      simp only [List.nil_append, matchClasses, Bool.and_true] at h
      exact ⟨[], c, rfl, h⟩
  | cons q ps ih =>
    cases s with
    | nil => simp at hlen
    | cons c cs =>
      simp only [List.cons_append, matchClasses, Bool.and_eq_true] at h
      obtain ⟨t, z, rfl, hz⟩ := ih cs h.2 (by simpa using hlen)
      exact ⟨c :: t, z, rfl, hz⟩

theorem timeStamp_last (TS : GoString) (hTS : matchClasses timeStampClasses TS = true)
    (hTSlen : TS.length = 23) : ∃ t z, TS = t ++ [z] ∧ isSpace z = false := by
  have e : timeStampClasses = timeStampClasses.dropLast ++ [reDigit] := rfl
  rw [e] at hTS
  obtain ⟨t, z, h1, h2⟩ := matchClasses_concat _ _ TS hTS (by rw [hTSlen]; rfl)
  exact ⟨t, z, h1, isSpace_of_isDigit z h2⟩

theorem trimFoundPart_timeStamp (TS rest : GoString)
    (hTS : matchClasses timeStampClasses TS = true) (hTSlen : TS.length = 23) :
    TrimLeft (TS ++ rest) ['\n'] = TS ++ rest ∧
    trimFoundPart (TS ++ rest) TS = rest.rdropWhile isSpace := by
  obtain ⟨d, TS', hTSeq, hd⟩ := matchClasses_timeStamp_head TS hTS
  obtain ⟨t, z, hlast, hz⟩ := timeStamp_last TS hTS hTSlen
  have hdsp : isSpace d = false := isSpace_of_isDigit d hd
  have hdn : d ≠ '\n' := by
    intro e
    rw [e] at hd
    exact absurd hd (by decide)
  constructor
  · rw [hTSeq]
    simp [TrimLeft, List.dropWhile, hdn]
  · unfold trimFoundPart TrimSpace
    have e1 : (TS ++ rest).dropWhile isSpace = TS ++ rest := by
      rw [hTSeq]
      simp [List.dropWhile, hdsp]
    rw [e1]
    have e2 : (TS ++ rest).rdropWhile isSpace = TS ++ rest.rdropWhile isSpace := by
      rw [hlast, List.append_assoc, List.singleton_append,
        rdropWhile_append_cons_neg _ _ _ _ (by simp [hz])]
      simp
    rw [e2, TrimPrefix_append]

theorem findBracketed_skip (pre s : GoString) (h : '[' ∉ pre) :
    findBracketed (pre ++ s) = findBracketed s := by
  induction pre with
  | nil => rfl
  | cons c pre ih =>
    have hc : c ≠ '[' := fun e => h (e ▸ List.mem_cons_self _ _)
    rw [List.cons_append, findBracketed, if_neg hc]
    exact ih (fun hm => h (List.mem_cons_of_mem _ hm))

theorem findBracketed_none (s : GoString) (h : '[' ∉ s) : findBracketed s = [] := by
  have := findBracketed_skip s [] h
  rwa [List.append_nil] at this

theorem findBracketed_run (pre inner post : GoString) (hpre : '[' ∉ pre)
    (h1 : ']' ∉ inner) (h2 : '\n' ∉ inner) :
    findBracketed (pre ++ '[' :: (inner ++ ']' :: post)) = '[' :: (inner ++ [']']) := by
  rw [findBracketed_skip _ _ hpre, findBracketed, if_pos rfl,
    matchBracketRest_closed inner post h1 h2]

theorem byteLen_append (a b : GoString) : byteLen (a ++ b) = byteLen a + byteLen b := by
  induction a with
  | nil => simp [byteLen]
  | cons c a ih =>
    show c.utf8Size + byteLen (a ++ b) = c.utf8Size + byteLen a + byteLen b
    rw [ih]
    omega

theorem getTimeSinceStart_run (inner : GoString) :
    getTimeSinceStart ('[' :: (inner ++ [']']))
      = if byteLen inner + 2 > 8 then TrimSpace inner else [] := by
  have ht : TrimSpace ('[' :: (inner ++ [']'])) = '[' :: (inner ++ [']']) := by
    have := TrimSpace_join ['['] [']'] (TrimSpace_singleton '[' (by decide)) (by simp)
      (TrimSpace_singleton ']' (by decide)) (by simp) inner
    simpa using this
  have hlen : byteLen ('[' :: (inner ++ [']'])) = byteLen inner + 2 := by
    have : '[' :: (inner ++ [']']) = ['['] ++ (inner ++ [']']) := rfl
    rw [this, byteLen_append, byteLen_append]
    have a1 : byteLen ['['] = 1 := rfl
    have a2 : byteLen [']'] = 1 := rfl
    omega
  unfold getTimeSinceStart
  simp only [ht, hlen]
  by_cases h : byteLen inner + 2 > 8
  · have hl : ('[' :: (inner ++ [']'])).getLast? = some ']' := by
      have : '[' :: (inner ++ [']']) = ('[' :: inner) ++ [']'] := rfl
      rw [this, List.getLast?_concat]
    rw [if_pos h, if_pos ⟨h, rfl, hl⟩]
    show TrimSpace ((inner ++ [']']).dropLast) = _
    rw [List.dropLast_concat]
  · rw [if_neg h, if_neg (fun hc => h hc.1)]

theorem matchBracketRest_some (cs m : GoString) (h : matchBracketRest cs = some m) :
    ∃ inner post, cs = inner ++ ']' :: post := by
  induction cs generalizing m with
  | nil => simp [matchBracketRest] at h
  | cons c cs ih =>
    unfold matchBracketRest at h
    by_cases h1 : c = ']'
    · exact ⟨[], cs, by rw [h1]; rfl⟩
    · rw [if_neg h1] at h
      by_cases h2 : c = '\n'
      · rw [if_pos h2] at h
        exact absurd h (by simp)
      · rw [if_neg h2] at h
        cases hm : matchBracketRest cs with
        | none => rw [hm] at h; exact absurd h (by simp)
        | some m' =>
          obtain ⟨inner, post, e⟩ := ih m' hm
          exact ⟨c :: inner, post, by rw [e]; rfl⟩

theorem findBracketed_ne_nil (s : GoString) (h : findBracketed s ≠ []) :
    ∃ pre inner post, s = pre ++ '[' :: (inner ++ ']' :: post) := by
  induction s with
  | nil => exact absurd rfl h
  | cons c cs ih =>
    unfold findBracketed at h
    by_cases hc : c = '['
    · rw [if_pos hc] at h
      cases hm : matchBracketRest cs with
      | some m =>
        obtain ⟨inner, post, e⟩ := matchBracketRest_some cs m hm
        exact ⟨[], inner, post, by rw [hc, e]; rfl⟩
      | none =>
        rw [hm] at h
        obtain ⟨pre, inner, post, e⟩ := ih h
        exact ⟨c :: pre, inner, post, by rw [e]; rfl⟩
    · rw [if_neg hc] at h
      obtain ⟨pre, inner, post, e⟩ := ih h
      exact ⟨c :: pre, inner, post, by rw [e]; rfl⟩

theorem findBracketed_no_run (rest : GoString)
    (h : ∀ pre inner post : GoString, rest ≠ pre ++ '[' :: (inner ++ ']' :: post)) :
    findBracketed (rest.rdropWhile isSpace) = [] := by
  by_contra hne
  obtain ⟨pre, inner, post, e⟩ := findBracketed_ne_nil _ hne
  obtain ⟨t, ht⟩ := List.rdropWhile_prefix isSpace rest
  apply h pre inner (post ++ t)
  rw [← ht, e]
  simp

theorem no_run_of_no_close (s : GoString) (h : ']' ∉ s) :
    ∀ pre inner post : GoString, s ≠ pre ++ '[' :: (inner ++ ']' :: post) := by
  intro pre inner post e
  apply h
  rw [e]
  simp

theorem parseLogLoop_timeSinceStart (s t : GoString) :
    ∀ (idx : List Nat) (d t0 sv cl hd bd : GoString) (cEnd : Nat) (hEnd : Int),
      parseLogLoop s idx
          { DateAndTime := d, TimeSinceStart := t, Severity := sv, Class := cl, Header := hd,
            Body := bd } cEnd hEnd
        = (parseLogLoop s idx
            { DateAndTime := d, TimeSinceStart := t0, Severity := sv, Class := cl,
              Header := hd, Body := bd } cEnd hEnd).map
            (fun x => { x with TimeSinceStart := t }) := by
  intro idx
  induction idx with
  | nil => intro d t0 sv cl hd bd cEnd hEnd; rfl
  | cons i rest ih =>
    intro d t0 sv cl hd bd cEnd hEnd
    rw [parseLogLoop, parseLogLoop]
    simp only []
    split_ifs <;> first | rfl | exact ih _ _ _ _ _ _ _ _

theorem parseLogString_stamp (TS rest R raw S3 sev S4 : GoString)
    (hTS : matchClasses timeStampClasses TS = true) (hTSlen : TS.length = 23)
    (hR : R = rest.rdropWhile isSpace) (hraw : raw = findBracketed R)
    (hS3 : S3 = TrimSpace (trimFoundPart R raw)) (hsev : sev = firstSeverity S3 severities)
    (hS4 : S4 = trimFoundPart S3 sev) :
    parseLogString (TS ++ rest)
      = parseLogLoop S4 (List.range S4.length)
          { DateAndTime := TS, TimeSinceStart := getTimeSinceStart raw, Severity := sev,
            Class := [], Header := [], Body := [] } 0 0 := by
  obtain ⟨hleft, htrim⟩ := trimFoundPart_timeStamp TS rest hTS hTSlen
  have hstamp := getTimeStampFromString_append TS rest hTS hTSlen
  unfold parseLogString
  simp only [hleft, hstamp, htrim, getSeverity, getRawTimeSinceStart]
  rw [← hR, ← hraw, ← hS3, ← hsev, ← hS4]

theorem parseLogString_stamp_line (TS rest R raw S3 sev S4 : GoString)
    (hTS : matchClasses timeStampClasses TS = true) (hTSlen : TS.length = 23)
    (hR : R = rest.rdropWhile isSpace) (hraw : raw = findBracketed R)
    (hS3 : S3 = TrimSpace (trimFoundPart R raw)) (hsev : sev = firstSeverity S3 severities)
    (hS4 : S4 = trimFoundPart S3 sev)
    (hline : '\n' ∉ (TS ++ rest).dropLast) :
    ∃ e, parseLogString (TS ++ rest) = some e ∧ e.DateAndTime = TS ∧
      e.TimeSinceStart = getTimeSinceStart raw ∧ e.Severity = sev ∧ e.Body = [] := by
  obtain ⟨-, htrim⟩ := trimFoundPart_timeStamp TS rest hTS hTSlen
  have h1 : '\n' ∉ R := by
    rw [hR, ← htrim]
    exact fun hmem => TrimSpace_line _ hline ((TrimPrefix_sublist _ _).subset hmem)
  have h3 : '\n' ∉ S3 := by
    rw [hS3]
    exact fun hmem => h1 ((TrimSpace_sublist _).subset ((TrimPrefix_sublist _ _).subset
      ((TrimSpace_sublist _).subset hmem)))
  have h4 : '\n' ∉ S4 := by
    rw [hS4]
    exact fun hmem => h3 ((TrimSpace_sublist _).subset ((TrimPrefix_sublist _ _).subset hmem))
  rw [parseLogString_stamp TS rest R raw S3 sev S4 hTS hTSlen hR hraw hS3 hsev hS4]
  obtain ⟨e', he, hb, hdt, hts, hsv⟩ := parseLogLoop_no_line_feed S4 (IndexAny_not_mem S4 h4)
    (List.range S4.length)
    { DateAndTime := TS, TimeSinceStart := getTimeSinceStart raw, Severity := sev,
      Class := [], Header := [], Body := [] } 0
  exact ⟨e', he, hdt, hts, hsv, hb⟩

theorem TrimPrefix_nil (s : GoString) : TrimPrefix s [] = s := by
  simp [TrimPrefix, HasPrefix]

theorem not_mem_of_dropLast (A inner post : GoString) (c : Char)
    (h : '\n' ∉ (A ++ (inner ++ c :: post)).dropLast) : '\n' ∉ inner := by
  intro hm
  apply h
  have : A ++ (inner ++ c :: post) = (A ++ inner) ++ (c :: post) := by simp
  rw [this, List.dropLast_append_of_ne_nil _ (by simp)]
  exact List.mem_append_left _ (List.mem_append_right _ hm)

theorem parseLogLoop_class_header (C H : GoString) (e : LogEntry) (he : e.Class = [])
    (hCne : C ≠ []) (hCd : '-' ∉ C) (hCt : TrimSpace C = C) (hCn : '\n' ∉ C)
    (hHne : H ≠ []) (hHn : '\n' ∉ H) (hHt : TrimSpace H = H) :
    parseLogLoop (' ' :: '-' :: ' ' :: (C ++ [' ', '-', ' ']) ++ H)
        (List.range (' ' :: '-' :: ' ' :: (C ++ [' ', '-', ' ']) ++ H).length) e 0 0
      = some { e with Class := C, Header := H } := by
  generalize hP3 : ' ' :: '-' :: ' ' :: (C ++ [' ', '-', ' ']) = P3
  have hnl : '\n' ∉ P3 ++ H := by
    rw [← hP3]
    simp [hCn, hHn]
  have hidx := IndexAny_not_mem _ hnl
  have hk : C.length + 5 < (P3 ++ H).length := by
    have : 0 < H.length := List.length_pos.2 hHne
    rw [← hP3]
    simp
    omega
  obtain ⟨tail, hrange⟩ := range_split _ _ hk
  have htake : (P3 ++ H).take (C.length + 5) = ' ' :: '-' :: ' ' :: (C ++ [' ', '-']) := by
    rw [← hP3]
    have : ' ' :: '-' :: ' ' :: (C ++ [' ', '-', ' ']) ++ H
        = (' ' :: '-' :: ' ' :: (C ++ [' ', '-'])) ++ (' ' :: H) := by simp
    rw [this]
    exact List.take_left' (by simp)
  have hdrop : (P3 ++ H).drop (C.length + 5) = ' ' :: H := by
    rw [← hP3]
    have : ' ' :: '-' :: ' ' :: (C ++ [' ', '-', ' ']) ++ H
        = (' ' :: '-' :: ' ' :: (C ++ [' ', '-'])) ++ (' ' :: H) := by simp
    rw [this]
    exact List.drop_left' (by simp)
  have hskip : ∀ i ∈ List.range (C.length + 5), getClass ((P3 ++ H).take i) = [] := by
    intro i hi
    have hi' : i < C.length + 5 := List.mem_range.1 hi
    rw [← hP3]
    by_cases h3 : i ≤ 3
    · interval_cases i
      · rfl
      · rfl
      · rfl
      · rfl
    · obtain ⟨j, rfl⟩ : ∃ j, i = j + 3 := ⟨i - 3, by omega⟩
      have e1 : (' ' :: '-' :: ' ' :: (C ++ [' ', '-', ' ']) ++ H).take (j + 3)
          = ' ' :: '-' :: ' ' :: (C ++ [' ']).take j := by
        have : ' ' :: '-' :: ' ' :: (C ++ [' ', '-', ' ']) ++ H
            = ' ' :: '-' :: ' ' :: ((C ++ [' ']) ++ ('-' :: ' ' :: H)) := by simp
        rw [this]
        simp only [List.take_succ_cons]
        rw [List.take_append_of_le_length (by simp; omega)]
      rw [e1]
      refine getClass_prefix_nil C _ hCd hCt (List.take_prefix _ _) ?_ hCne
      intro hnil
      have := congrArg List.length hnil
      simp at this
      omega
  rw [hrange, parseLogLoop_skip _ _ _ _ hskip,
    parseLogLoop_hit _ _ _ _ he (by rw [htake, getClass_closed C hCt]; exact hCne)
      (by omega) hidx]
  rw [htake, getClass_closed C hCt, hdrop, TrimSpace_cons_space _ _ (by decide), hHt]

theorem parseLogString_plain (TS rest : GoString)
    (hTS : matchClasses timeStampClasses TS = true) (hTSlen : TS.length = 23)
    (hrun : ∀ pre inner post : GoString, rest ≠ pre ++ '[' :: (inner ++ ']' :: post)) :
    parseLogString (TS ++ rest)
      = parseLogLoop
          (trimFoundPart (TrimSpace rest) (firstSeverity (TrimSpace rest) severities))
          (List.range
            (trimFoundPart (TrimSpace rest)
              (firstSeverity (TrimSpace rest) severities)).length)
          { DateAndTime := TS, TimeSinceStart := [],
            Severity := firstSeverity (TrimSpace rest) severities,
            Class := [], Header := [], Body := [] } 0 0 := by
  have hraw : findBracketed (rest.rdropWhile isSpace) = [] := findBracketed_no_run rest hrun
  have hS3 : TrimSpace (trimFoundPart (rest.rdropWhile isSpace) []) = TrimSpace rest := by
    unfold trimFoundPart
    rw [TrimPrefix_nil, TrimSpace_idem, TrimSpace_rdropWhile]
  have heq := parseLogString_stamp TS rest _ _ _ _ _ hTS hTSlen rfl rfl rfl rfl rfl
  rw [hraw] at heq
  rw [hS3] at heq
  exact heq

theorem parseLogString_inserted (TS E rest : GoString)
    (hTS : matchClasses timeStampClasses TS = true) (hTSlen : TS.length = 23)
    (hE1 : ']' ∉ E) (hE2 : '\n' ∉ E) :
    parseLogString (TS ++ ' ' :: '[' :: (E ++ ']' :: rest))
      = parseLogLoop
          (trimFoundPart (TrimSpace rest) (firstSeverity (TrimSpace rest) severities))
          (List.range
            (trimFoundPart (TrimSpace rest)
              (firstSeverity (TrimSpace rest) severities)).length)
          { DateAndTime := TS, TimeSinceStart := getTimeSinceStart ('[' :: (E ++ [']'])),
            Severity := firstSeverity (TrimSpace rest) severities,
            Class := [], Header := [], Body := [] } 0 0 := by
  have hr : (' ' :: '[' :: (E ++ ']' :: rest)).rdropWhile isSpace
      = ' ' :: '[' :: (E ++ ']' :: rest.rdropWhile isSpace) := by
    have e1 : ' ' :: '[' :: (E ++ ']' :: rest) = (' ' :: '[' :: E) ++ ']' :: rest := by simp
    rw [e1, rdropWhile_append_cons_neg _ _ _ _ (by decide)]
    simp
  have hraw : findBracketed (' ' :: '[' :: (E ++ ']' :: rest.rdropWhile isSpace))
      = '[' :: (E ++ [']']) :=
    findBracketed_run [' '] E _ (by decide) hE1 hE2
  have htrim : TrimSpace (' ' :: '[' :: (E ++ ']' :: rest.rdropWhile isSpace))
      = ('[' :: (E ++ [']'])) ++ rest.rdropWhile isSpace := by
    rw [TrimSpace_cons_space _ _ (by decide)]
    unfold TrimSpace
    have e1 : ('[' :: (E ++ ']' :: rest.rdropWhile isSpace)).dropWhile isSpace
        = '[' :: (E ++ ']' :: rest.rdropWhile isSpace) := by
      have hb : isSpace '[' = false := by decide
      simp [List.dropWhile, hb]
    rw [e1]
    have e2 : '[' :: (E ++ ']' :: rest.rdropWhile isSpace)
        = ('[' :: E) ++ ']' :: rest.rdropWhile isSpace := by simp
    rw [e2, rdropWhile_append_cons_neg _ _ _ _ (by decide), List.rdropWhile_idempotent]
    simp
  have hS3 : TrimSpace (trimFoundPart (' ' :: '[' :: (E ++ ']' :: rest.rdropWhile isSpace))
      ('[' :: (E ++ [']']))) = TrimSpace rest := by
    unfold trimFoundPart
    rw [htrim, TrimPrefix_append, TrimSpace_rdropWhile]
  have heq := parseLogString_stamp TS (' ' :: '[' :: (E ++ ']' :: rest)) _ _ _ _ _ hTS hTSlen
    rfl rfl rfl rfl rfl
  rw [hr, hraw] at heq
  rw [hS3] at heq
  exact heq

/-- Claim C26, as amended.  Let `TS` be a time stamp.  For every one-line header
line `TS ++ pre ++ [inner] ++ post` whose first bracketed run is `[inner]` (no `[` in
`pre`, no `]` in `inner`), `parseLogString` returns an entry whose `TimeSinceStart`
is the trimmed inner text when the run with its brackets is longer than 8 bytes, and
the empty string when it is not.  For every one-line header line `TS ++ rest` without
a bracketed run (`rest` has no `[` that is followed by a `]`), it returns an entry
with `DateAndTime = TS` and an empty `TimeSinceStart` whose severity is the keyword
at the start of the trimmed `rest`; the entry is the one of the same line with any
bracketed token `[E]` put behind the time stamp, but for `TimeSinceStart`.  In
particular, for a line `TS W SEV - C - H T` without bracketed token and without
bracketed run, with the parts as in a well-formed header line, the entry has
`Severity = SEV`, `Class = C`, `Header = H`, an empty `TimeSinceStart` and an empty
`Body`. -/
theorem parseLogString_timeSinceStart (TS : GoString)
    (hTS : matchClasses timeStampClasses TS = true) (hTSlen : TS.length = 23) :
    (∀ pre inner post : GoString, '[' ∉ pre → ']' ∉ inner →
      '\n' ∉ (TS ++ (pre ++ '[' :: (inner ++ ']' :: post))).dropLast →
      ∃ e, parseLogString (TS ++ (pre ++ '[' :: (inner ++ ']' :: post))) = some e ∧
        e.TimeSinceStart = if byteLen inner + 2 > 8 then TrimSpace inner else []) ∧
    (∀ rest : GoString,
      (∀ pre inner post : GoString, rest ≠ pre ++ '[' :: (inner ++ ']' :: post)) →
      '\n' ∉ (TS ++ rest).dropLast →
      ∃ e, parseLogString (TS ++ rest) = some e ∧ e.DateAndTime = TS ∧
        e.TimeSinceStart = [] ∧
        e.Severity = firstSeverity (TrimSpace rest) severities ∧
        ∀ E : GoString, ']' ∉ E → '\n' ∉ E →
          parseLogString (TS ++ ' ' :: '[' :: (E ++ ']' :: rest))
            = some { e with TimeSinceStart := getTimeSinceStart ('[' :: (E ++ [']'])) }) ∧
    (∀ W SEV C H T : GoString, SEV ∈ severities →
      C ≠ [] → '-' ∉ C → TrimSpace C = C → '\n' ∉ C →
      H ≠ [] → '\n' ∉ H → TrimSpace H = H →
      (∀ c ∈ W, isSpace c = true) → (∀ c ∈ T, isSpace c = true) →
      (∀ pre inner post : GoString,
        W ++ (SEV ++ (" - ".toList ++ (C ++ (" - ".toList ++ (H ++ T)))))
          ≠ pre ++ '[' :: (inner ++ ']' :: post)) →
      parseLogString
          (TS ++ (W ++ (SEV ++ (" - ".toList ++ (C ++ (" - ".toList ++ (H ++ T)))))))
        = some { DateAndTime := TS, TimeSinceStart := [], Severity := SEV, Class := C,
                 Header := H, Body := [] }) := by
  refine ⟨?_, ?_, ?_⟩
  · intro pre inner post hpre hin hline
    have hin2 : '\n' ∉ inner := by
      have e : TS ++ (pre ++ '[' :: (inner ++ ']' :: post))
          = (TS ++ (pre ++ ['['])) ++ (inner ++ ']' :: post) := by simp
      rw [e] at hline
      exact not_mem_of_dropLast _ _ _ _ hline
    obtain ⟨e, he, -, hts, -, -⟩ := parseLogString_stamp_line TS
      (pre ++ '[' :: (inner ++ ']' :: post)) _ _ _ _ _ hTS hTSlen rfl rfl rfl rfl rfl hline
    refine ⟨e, he, ?_⟩
    rw [hts]
    have hr : (pre ++ '[' :: (inner ++ ']' :: post)).rdropWhile isSpace
        = pre ++ '[' :: (inner ++ ']' :: post.rdropWhile isSpace) := by
      have e1 : pre ++ '[' :: (inner ++ ']' :: post) = (pre ++ '[' :: inner) ++ ']' :: post := by
        simp
      rw [e1, rdropWhile_append_cons_neg _ _ _ _ (by decide)]
      simp
    rw [hr, findBracketed_run pre inner _ hpre hin hin2, getTimeSinceStart_run]
  · intro rest hrun hline
    have hraw : findBracketed (rest.rdropWhile isSpace) = [] := findBracketed_no_run rest hrun
    have hS3 : TrimSpace (trimFoundPart (rest.rdropWhile isSpace) []) = TrimSpace rest := by
      unfold trimFoundPart
      rw [TrimPrefix_nil, TrimSpace_idem, TrimSpace_rdropWhile]
    obtain ⟨e, he, hdt, hts, hsv, -⟩ := parseLogString_stamp_line TS rest _ _ _ _ _ hTS hTSlen
      rfl rfl rfl rfl rfl hline
    rw [hraw] at hts hsv
    rw [hS3] at hsv
    refine ⟨e, he, hdt, hts, hsv, fun E hE1 hE2 => ?_⟩
    have hplain := parseLogString_plain TS rest hTS hTSlen hrun
    rw [parseLogString_inserted TS E rest hTS hTSlen hE1 hE2,
      parseLogLoop_timeSinceStart _ _ _ _ [], ← hplain, he]
    rfl
  · intro W SEV C H T hSEV hCne hCd hCt hCn hHne hHn hHt hW hT hrun
    obtain ⟨v, S, hSEVeq, hv⟩ := severity_head SEV hSEV
    have hrest : W ++ (SEV ++ (" - ".toList ++ (C ++ (" - ".toList ++ (H ++ T)))))
        = W ++ (SEV ++ ((' ' :: '-' :: ' ' :: (C ++ [' ', '-', ' '])) ++ H)) ++ T := by
      simp
    have t3 : TrimSpace (SEV ++ ((' ' :: '-' :: ' ' :: (C ++ [' ', '-', ' '])) ++ H))
        = SEV ++ ((' ' :: '-' :: ' ' :: (C ++ [' ', '-', ' '])) ++ H) := by
      have := TrimSpace_join [v] H (TrimSpace_singleton v hv) (by simp) hHt hHne
        (S ++ (' ' :: '-' :: ' ' :: (C ++ [' ', '-', ' '])))
      rw [hSEVeq]
      simpa using this
    have t4 : TrimSpace (W ++ (SEV ++ (" - ".toList ++ (C ++ (" - ".toList ++ (H ++ T))))))
        = SEV ++ ((' ' :: '-' :: ' ' :: (C ++ [' ', '-', ' '])) ++ H) := by
      rw [hrest]
      exact TrimSpace_pad W _ T hW hT t3
    have t5 : trimFoundPart (SEV ++ ((' ' :: '-' :: ' ' :: (C ++ [' ', '-', ' '])) ++ H)) SEV
        = (' ' :: '-' :: ' ' :: (C ++ [' ', '-', ' '])) ++ H := by
      unfold trimFoundPart
      rw [t3, TrimPrefix_append]
    rw [parseLogString_plain TS _ hTS hTSlen hrun, t4, firstSeverity_mem SEV _ hSEV, t5]
    exact parseLogLoop_class_header C H _ rfl hCne hCd hCt hCn hHne hHn hHt

/-- The line `2021-02-15 18:09:37,188 [  61174]  ERROR - C - H` with a run of 9 bytes,
the same line with the run `[61174]` of 7 bytes, and a line without a run, whose
header has an opening bracket that is not closed, by
`parseLogString_timeSinceStart`. -/
theorem parseLogString_timeSinceStart_witness :
    (∃ e, parseLogString "2021-02-15 18:09:37,188 [  61174]  ERROR - C - H\n".toList = some e ∧
      e.TimeSinceStart = "61174".toList) ∧
    (∃ e, parseLogString "2021-02-15 18:09:37,188 [61174]  ERROR - C - H\n".toList = some e ∧
      e.TimeSinceStart = []) ∧
    (∃ e, parseLogString "2021-02-15 18:09:37,188  ERROR - C - H [x\n".toList = some e ∧
      e.DateAndTime = "2021-02-15 18:09:37,188".toList ∧ e.TimeSinceStart = [] ∧
      e.Severity = "ERROR".toList) ∧
    parseLogString "2021-02-15 18:09:37,188  ERROR - C - H [x\n".toList
      = some { DateAndTime := "2021-02-15 18:09:37,188".toList, TimeSinceStart := [],
               Severity := "ERROR".toList, Class := "C".toList, Header := "H [x".toList,
               Body := [] } :=
  ⟨(parseLogString_timeSinceStart "2021-02-15 18:09:37,188".toList (by decide) (by decide)).1
      " ".toList "  61174".toList "  ERROR - C - H\n".toList (by decide) (by decide)
      (by decide),
   (parseLogString_timeSinceStart "2021-02-15 18:09:37,188".toList (by decide) (by decide)).1
      " ".toList "61174".toList "  ERROR - C - H\n".toList (by decide) (by decide)
      (by decide),
   by
    obtain ⟨e, h1, h2, h3, h4, -⟩ :=
      (parseLogString_timeSinceStart "2021-02-15 18:09:37,188".toList (by decide)
        (by decide)).2.1 "  ERROR - C - H [x\n".toList
        (no_run_of_no_close _ (by decide)) (by decide)
    exact ⟨e, h1, h2, h3, h4⟩,
   (parseLogString_timeSinceStart "2021-02-15 18:09:37,188".toList (by decide) (by decide)).2.2
      "  ".toList "ERROR".toList "C".toList "H [x".toList "\n".toList (by decide) (by decide)
      (by decide) (by decide) (by decide) (by decide) (by decide) (by decide) (by decide)
      (by decide) (no_run_of_no_close _ (by decide))⟩

/-- Claim C26 fails as stated.  The line has the bracketed run `[61174]` after its
time stamp; the run has 7 bytes, `getTimeSinceStart` wants more than 8, and the
entry has an empty `TimeSinceStart`, not `61174`.  The other fields are parsed. -/
theorem parseLogString_short_run :
    parseLogString "2021-02-15 18:09:37,188 [61174] ERROR - C - H".toList
      = some { DateAndTime := "2021-02-15 18:09:37,188".toList, TimeSinceStart := [],
               Severity := "ERROR".toList, Class := "C".toList, Header := "H".toList,
               Body := [] } ∧
    getRawTimeSinceStart " [61174] ERROR - C - H".toList = "[61174]".toList ∧
    getTimeSinceStart "[61174]".toList = [] ∧
    getTimeSinceStart "[  61174]".toList = "61174".toList := by
  refine ⟨by rfl, by rfl, by rfl, by rfl⟩

/-! ## A line without class -/

theorem parseLogString_loop (l : GoString) :
    ∃ e, e.Class = [] ∧ e.Header = [] ∧ e.Body = [] ∧
      parseLogString l
        = parseLogLoop (textAfterSeverity l) (List.range (textAfterSeverity l).length)
            e 0 0 :=
  ⟨_, rfl, rfl, rfl, rfl⟩

/-- Claim C27, as amended.  For every line whose text after the severity keyword has
no prefix that `getClass` takes for a dash-delimited class token (a text without any
`-` is the plain case), `parseLogString` returns an entry with an empty `Class`,
an empty `Header` and an empty `Body`: the text that follows the severity is stored
in no field. -/
theorem parseLogString_no_class (line : GoString)
    (h : ∀ i, i < (textAfterSeverity line).length →
      getClass ((textAfterSeverity line).take i) = []) :
    ∃ e, parseLogString line = some e ∧ e.Class = [] ∧ e.Header = [] ∧ e.Body = [] := by
  obtain ⟨e, h1, h2, h3, he⟩ := parseLogString_loop line
  refine ⟨e, ?_, h1, h2, h3⟩
  rw [he]
  have := parseLogLoop_skip (textAfterSeverity line)
    (List.range (textAfterSeverity line).length) [] e
    (fun i hi => h i (List.mem_range.1 hi))
  rw [List.append_nil] at this
  rw [this]
  rfl

/-- An `INFO` line without class, by `parseLogString_no_class`. -/
theorem parseLogString_no_class_witness :
    ∃ e, parseLogString "2021-02-15 18:09:40,829 [  64816]   INFO IDE started\n".toList
        = some e ∧ e.Class = [] ∧ e.Header = [] ∧ e.Body = [] :=
  parseLogString_no_class "2021-02-15 18:09:40,829 [  64816]   INFO IDE started\n".toList
    (by decide)

/-- Claim C27 fails as stated.  On the line of the claim the text after the severity
is ` Something failed`; the entry has an empty `Class`, but its `Header` is empty
too, not `Something failed`. -/
theorem parseLogString_header_lost :
    textAfterSeverity "2021-02-15 18:09:37,188 [  61174]  ERROR Something failed".toList
      = " Something failed".toList ∧
    parseLogString "2021-02-15 18:09:37,188 [  61174]  ERROR Something failed".toList
      = some { DateAndTime := "2021-02-15 18:09:37,188".toList,
               TimeSinceStart := "61174".toList, Severity := "ERROR".toList,
               Class := [], Header := [], Body := [] } := by
  refine ⟨by rfl, by rfl⟩

end Repair
